import Mathlib

/-!
# STOMP matrix profile (`src/stomp.cpp`)

A shallow embedding of `stomp_rcpp`, `mass3_cpp`, `StompWorker::operator()` and
`stomp_rcpp_parallel` over an arbitrary linearly ordered field `K` ("exact arithmetic").

Conventions of the embedding:
* a raw input sample is an `Option K`; `none` stands for a `NaN` or `±Infinity` sample
  (what `is_na(x) | is_infinite(x)` detects);
* a distance is a `WithTop K`; `⊤` is `R_PosInf`;
* the one floating-point special value of the arithmetic that is modelled is the `NaN`
  of a quotient `0/0` in the distance of `stomp_rcpp`: the subset assignment of line 107
  raises on it, and so does the model; `mass3_cpp` and the worker never raise on a
  value, and what they compute from a zero standard deviation (`±Inf`, `NaN`) is not
  represented: their distances are stated for non-zero standard deviations;
* a read of `skip_location[i]` past the end of the mask, on which Rcpp gives a warning
  and reads on, is reported as an error of the run, so that a returned result is one of a
  run without such a read;
* a profile index is an `Option Nat`; `none` is the unset sentinel the vector was
  initialised with, `some v` the stored 1-based query position;
* sizes and indices are natural numbers (the unsigned wrap-around of
  `data_size - window_size + 1` for `window_size > data_size + 1` is not modelled);
* vectors are lists; `tab n f` is the vector `f 0, …, f (n-1)` produced by a loop or a
  vectorised expression, and reads use `List.getD`.
-/

namespace Stomp

open Finset

set_option linter.unusedSectionVars false

variable {K : Type} [LinearOrderedField K] [FloorRing K]

/-! ## Vectors -/

/-- The vector `f 0, …, f (n-1)`. -/
def tab {α : Type} (n : Nat) (f : Nat → α) : List α := (List.range n).map f

/-- Read of a numeric vector. -/
def rd (l : List K) (j : Nat) : K := l.getD j 0

/-- Read of a distance vector. -/
def rdT (l : List (WithTop K)) (j : Nat) : WithTop K := l.getD j ⊤

/-- Read of an index vector. -/
def rdI (l : List (Option Nat)) (j : Nat) : Option Nat := l.getD j none

/-! ## Constants and small helpers -/

/-- The constant `DBL_EPSILON` of `<cfloat>`, `2^-52`. -/
def DBL_EPSILON : K := 1 / 2 ^ 52

/-- The C function `round`: nearest integer, halves away from zero. -/
def cround (x : K) : Int := if 0 ≤ x then ⌊x + 1 / 2⌋ else -⌊-x + 1 / 2⌋

/-- `round(window_size * ez + DBL_EPSILON)`, line 24 (and line 405). -/
def exclusion_zone (window_size : Nat) (ez : K) : Int :=
  cround ((window_size : K) * ez + DBL_EPSILON)

/-- `data[is_na(data)] = 0; data[is_infinite(data)] = 0`, lines 43-46. -/
def sanitize (xs : List (Option K)) : List K := xs.map (fun x => x.getD 0)

/-- The loop of lines 33-38: window `i` is flagged when one of its samples is
`NaN`/`Infinity` in the unsanitised series. -/
def skip_location (data_ref : List (Option K)) (window_size : Nat) : List Bool :=
  tab (data_ref.length - window_size + 1)
    (fun i => ((data_ref.drop i).take window_size).any (fun x => x.isNone))

/-- The values returned by `mass_pre_rcpp(data, query, window_size)` that the loop
reads. `mass_pre_rcpp` is declared in `mass.h`; its result is taken as a parameter. -/
structure MassPre (K : Type) where
  data_mean : Nat → K
  data_sd : Nat → K
  query_mean : Nat → K
  query_sd : Nat → K

/-- The `List` returned by `mass3_rcpp` / `mass3_cpp`. -/
structure MassOut (K : Type) where
  distance_profile : List K
  last_product : List K

/-- The sliding dot product `Σ_{t<w} a[j+t] * b[i+t]`. -/
def slidingDot (a b : List K) (w j i : Nat) : K :=
  ∑ t in range w, rd a (j + t) * rd b (i + t)

/-- The distance expression of lines 99-105, 202-204 and 364-366:
`2 * (w - (z - w * mean_d * mean_q) / (sd_d * sd_q))`. -/
def distFormula (w : Nat) (z mean_d sd_d mean_q sd_q : K) : K :=
  2 * ((w : K) - (z - (w : K) * mean_d * mean_q) / (sd_d * sd_q))

/-- Modelled from the spec: `mass3_rcpp` (declared in `mass.h`, not part of
`stomp.cpp`). Per §4.2 it returns, for every position `j` of the series, the dot product
of the query window with window `j` (`last_product`) and the step-4 distance computed
from it, clamped at 0 (step 6). -/
def mass3_rcpp (query_window data : List K) (data_size window_size : Nat)
    (data_mean data_sd : Nat → K) (query_mean query_sd : K) : MassOut K :=
  let last := tab (data_size - window_size + 1)
    (fun j => slidingDot data query_window window_size j 0)
  { distance_profile := tab (data_size - window_size + 1) (fun j =>
      max 0 (distFormula window_size (rd last j) (data_mean j) (data_sd j)
        query_mean query_sd))
    last_product := last }

/-! ## `stomp_rcpp` -/

/-- A failure of the call: an `Rcpp::Range(a, b)` built with `a > b` raises
`std::range_error`; a read past the end of a vector is reported as such; a logical
subscript that holds `NA` (a comparison with `NaN`) raises in the subset assignment of
line 107. -/
inductive StompError where
  | range_error
  | index_out_of_bounds
  | na_subscript
  deriving DecidableEq

/-- The result list: `matrix_profile`, `profile_index` and the flag `partial`. -/
structure StompResult (K : Type) where
  matrix_profile : List (WithTop K)
  profile_index : List (Option Nat)
  partial_flag : Bool

/-- The loop-invariant values of `stomp_rcpp`, computed before the loop (lines 24-74). -/
structure StompCtx (K : Type) where
  window_size : Nat
  exclusion_zone : Int
  matrix_profile_size : Nat
  num_queries : Nat
  skip_location : List Bool
  data : List K
  query : List K
  pre : MassPre K
  nn : MassOut K
  first_product : List K

/-- The variables the loop of `stomp_rcpp` carries from one iteration to the next. -/
structure StompState (K : Type) where
  last_product : List K
  drop_value : K
  matrix_profile : List (WithTop K)
  profile_index : List (Option Nat)

/-- Lines 94-98: the vectorised recurrence. Positions `lp_range = 1 .. data_size - w`
receive `last_product[j-1] - data[j-1] * drop_value + data[w+j-1] * query_window[w-1]`
(all read from the old vector), then position 0 receives `first_product[i]`. -/
def update_last_product (c : StompCtx K) (i : Nat) (last_product : List K)
    (drop_value : K) : List K :=
  tab c.matrix_profile_size (fun j =>
    if j = 0 then rd c.first_product i
    else rd last_product (j - 1) - rd c.data (j - 1) * drop_value
      + rd c.data (c.window_size + j - 1) * rd c.query (i + c.window_size - 1))

/-- Lines 90-106: the dot products and the unmasked distance profile of iteration `i`. -/
def raw_profile (c : StompCtx K) (i : Nat) (st : StompState K) : List K × List K :=
  if i = 0 then (c.nn.last_product, c.nn.distance_profile)
  else
    let lp := update_last_product c i st.last_product st.drop_value
    (lp, tab c.matrix_profile_size (fun j =>
      distFormula c.window_size (rd lp j) (c.pre.data_mean j) (c.pre.data_sd j)
        (c.pre.query_mean i) (c.pre.query_sd i)))

/-- Lines 107-125, read from the last assignment backwards: position `j` of the
distance profile is `R_PosInf` when `skip_location[j]` (line 125), when the current query
is flagged or has `query_sd[i] < DBL_EPSILON` (lines 121-124), when
`data_sd[j] < DBL_EPSILON` (line 119), or when the exclusion zone is positive and
`exc_st ≤ j ≤ exc_ed` (lines 112-117); otherwise it is the distance clamped at 0
(line 107). -/
def masked_profile (c : StompCtx K) (i : Nat) (skip_i : Bool) (dp : List K) :
    List (WithTop K) :=
  tab c.matrix_profile_size (fun j =>
    if c.skip_location.getD j false then ⊤
    else if skip_i || decide (c.pre.query_sd i < DBL_EPSILON) then ⊤
    else if c.pre.data_sd j < DBL_EPSILON then ⊤
    else if 0 < c.exclusion_zone ∧ i - c.exclusion_zone.toNat ≤ j
        ∧ j ≤ min (c.matrix_profile_size - 1) (i + c.exclusion_zone.toNat) then ⊤
    else if rd dp j < 0 then ((0 : K) : WithTop K) else ((rd dp j : K) : WithTop K))

/-- Lines 127-129: elementwise "replace if strictly smaller". -/
def update_profile (n i : Nat) (dp : List (WithTop K)) (st : StompState K)
    (lp : List K) (drop : K) : StompState K :=
  { last_product := lp
    drop_value := drop
    matrix_profile := tab n (fun j =>
      if rdT dp j < rdT st.matrix_profile j then rdT dp j else rdT st.matrix_profile j)
    profile_index := tab n (fun j =>
      if rdT dp j < rdT st.matrix_profile j then some (i + 1)
      else rdI st.profile_index j) }

/-- Entry `j` of the distance profile of iteration `i` is `NaN`: the quotient of lines
99-105, taken at the dot product `lp[j]`, is `0/0`, its numerator and the product of the
two standard deviations being both zero. (A zero product under a non-zero numerator gives
`±Inf`, which lines 119-124 overwrite, a standard deviation being zero.) For `i = 0` the
profile is the one returned by `mass3_rcpp`, taken to hold the same quotient. -/
def nan_at (c : StompCtx K) (i : Nat) (lp : List K) (j : Nat) : Prop :=
  c.pre.data_sd j * c.pre.query_sd i = 0 ∧
    rd lp j - (c.window_size : K) * c.pre.data_mean j * c.pre.query_mean i = 0

instance (c : StompCtx K) (i : Nat) (lp : List K) (j : Nat) : Decidable (nan_at c i lp j) := by
  unfold nan_at
  infer_instance

/-- One iteration of the loop of `stomp_rcpp` (lines 88-129) for query index `i`.
`distance_profile[distance_profile < 0] = 0` (line 107) raises when an entry of the
profile is `NaN`; `Range(exc_st, exc_ed)` raises when `exc_st > exc_ed`;
`skip_location[i]` is a read of the reference mask at the query index. -/
def stomp_iter (c : StompCtx K) (i : Nat) (st : StompState K) :
    Except StompError (StompState K) :=
  let r := raw_profile c i st
  if ∃ j, j < c.matrix_profile_size ∧ nan_at c i r.1 j then
    Except.error StompError.na_subscript
  else if 0 < c.exclusion_zone ∧
      min (c.matrix_profile_size - 1) (i + c.exclusion_zone.toNat)
        < i - c.exclusion_zone.toNat then
    Except.error StompError.range_error
  else
    match c.skip_location[i]? with
    | none => Except.error StompError.index_out_of_bounds
    | some skip_i =>
      Except.ok (update_profile c.matrix_profile_size i (masked_profile c i skip_i r.2) st
        r.1 (rd c.query i))

/-- How the loop ended: it ran through, or `checkUserInterrupt()` raised at a polled
iteration. -/
inductive LoopEnd (K : Type) where
  | finished (st : StompState K)
  | interrupted (st : StompState K)

/-- The loop of lines 81-130 over the remaining query indices `is`; `interrupt i` tells
whether a user interrupt is pending when iteration `i` polls (`i % 100 == 0`). -/
def stomp_loop (c : StompCtx K) (interrupt : Nat → Bool) :
    List Nat → StompState K → Except StompError (LoopEnd K)
  | [], st => Except.ok (LoopEnd.finished st)
  | i :: rest, st =>
    if i % 100 = 0 ∧ interrupt i = true then Except.ok (LoopEnd.interrupted st)
    else
      match stomp_iter c i st with
      | Except.error e => Except.error e
      | Except.ok st' => stomp_loop c interrupt rest st'

/-- Lines 24-74: the values computed before the loop. -/
def stomp_ctx (pre : MassPre K) (data_ref query_ref : List (Option K))
    (window_size : Nat) (ez : K) : StompCtx K :=
  let data := sanitize data_ref
  let query := sanitize query_ref
  { window_size := window_size
    exclusion_zone := exclusion_zone window_size ez
    matrix_profile_size := data_ref.length - window_size + 1
    num_queries := query_ref.length - window_size + 1
    skip_location := skip_location data_ref window_size
    data := data
    query := query
    pre := pre
    nn := mass3_rcpp (query.take window_size) data data_ref.length window_size
      pre.data_mean pre.data_sd (pre.query_mean 0) (pre.query_sd 0)
    first_product := (mass3_rcpp (data.take window_size) query query_ref.length
      window_size pre.query_mean pre.query_sd (pre.data_mean 0)
      (pre.data_sd 0)).last_product }

/-- The state before the first iteration (lines 48-49, 72-74). -/
def stomp_init (c : StompCtx K) : StompState K :=
  { last_product := []
    drop_value := rd c.query 0
    matrix_profile := tab c.matrix_profile_size (fun _ => ⊤)
    profile_index := tab c.matrix_profile_size (fun _ => none) }

/-- The function `stomp_rcpp` (lines 21-145). `sqrt` is the square root applied at
line 132; it is skipped when the loop is left through the interrupt handler.
`Range(1, data_size - window_size)` (line 69) raises when
`data_size - window_size < 1`. -/
def stomp_rcpp (sqrt : K → K) (interrupt : Nat → Bool) (pre : MassPre K)
    (data_ref query_ref : List (Option K)) (window_size : Nat) (ez : K) :
    Except StompError (StompResult K) :=
  let c := stomp_ctx pre data_ref query_ref window_size ez
  if data_ref.length - window_size < 1 then Except.error StompError.range_error
  else
    match stomp_loop c interrupt (List.range c.num_queries) (stomp_init c) with
    | Except.error e => Except.error e
    | Except.ok (LoopEnd.finished st) =>
      Except.ok { matrix_profile := st.matrix_profile.map (fun d => d.map sqrt)
                  profile_index := st.profile_index
                  partial_flag := false }
    | Except.ok (LoopEnd.interrupted st) =>
      Except.ok { matrix_profile := st.matrix_profile
                  profile_index := st.profile_index
                  partial_flag := true }

/-! ## `mass3_cpp` -/

/-- Modelled from the spec: `fft_rcpp` and `fft_rcpp_real` (declared in `fft.h`) are the
forward and inverse discrete Fourier transform. The inverse transform of the elementwise
product of the transforms of `x` and `y`, both of length `n`, is their cyclic
convolution: `z[m] = Σ_{s<n} y[s] * x[(m - s) mod n]`. -/
def cyclic_conv (n : Nat) (x y : List K) : List K :=
  tab n (fun m => ∑ s in range n, rd y s * rd x ((m + n - s) % n))

/-- Lines 176-177: `rev_query(k)` is zero-initialised and receives the reversed query
window in its first `w_size` entries. -/
def rev_query (query : List K) (w k : Nat) : List K :=
  tab k (fun s => if s < w then rd query (w - 1 - s) else 0)

/-- `std::copy(src, src + n, v.begin() + j)` into a vector of fixed size. -/
def write_block (v : List K) (j n : Nat) (src : Nat → K) : List K :=
  tab v.length (fun p => if j ≤ p ∧ p < j + n then src (p - j) else rd v p)

/-- The body shared by the block loop (lines 190-208, `len = k`) and by the final partial
block (lines 225-246, `len = d_size - j`): the chunk `data[j .. j+len)` is convolved
with the first `len` entries of `rev_query`, and the `len - w + 1` values
`z[w-1], …, z[len-1]` give the distances and the dot products written at `j`. -/
def mass3_block (rev : List K) (data : List K) (w : Nat) (data_mean data_sd : Nat → K)
    (query_mean query_sd : K) (j len : Nat) (acc : MassOut K) : MassOut K :=
  let z := cyclic_conv len ((data.drop j).take len) (rev.take len)
  { distance_profile := write_block acc.distance_profile j (len - w + 1) (fun i =>
      distFormula w (rd z (w - 1 + i)) (data_mean (j + i)) (data_sd (j + i))
        query_mean query_sd)
    last_product := write_block acc.last_product j (len - w + 1)
      (fun i => rd z (w - 1 + i)) }

/-- The loop of lines 189-209: `for (j = 0; j <= seq_end; j = j + jump)`. The first
argument bounds the number of iterations (`seq_end + 1` always suffices, as `jump ≥ 1`);
the result carries the value of `j` on exit. -/
def mass3_loop (rev : List K) (data : List K) (w : Nat) (data_mean data_sd : Nat → K)
    (query_mean query_sd : K) (k seq_end : Nat) :
    Nat → Nat → MassOut K → Nat × MassOut K
  | 0, j, acc => (j, acc)
  | fuel + 1, j, acc =>
    if j ≤ seq_end then
      mass3_loop rev data w data_mean data_sd query_mean query_sd k seq_end fuel
        (j + (k - w + 1))
        (mass3_block rev data w data_mean data_sd query_mean query_sd j k acc)
    else (j, acc)

/-- The template function `mass3_cpp` (lines 147-257). `set_k_rcpp` (declared in
`mass.h`) is a parameter. -/
def mass3_cpp (set_k_rcpp : Nat → Nat → Nat → Nat) (query data : List K)
    (data_size window_size : Nat) (data_mean data_sd : Nat → K)
    (query_mean query_sd : K) (k : Nat) : MassOut K :=
  let p_size := data_size - window_size + 1
  let k := set_k_rcpp k data_size window_size
  let rev := rev_query query window_size k
  let seq_end := data_size - k
  let init : MassOut K :=
    { distance_profile := tab p_size (fun _ => 0), last_product := tab p_size (fun _ => 0) }
  let r := mass3_loop rev data window_size data_mean data_sd query_mean query_sd k seq_end
    (seq_end + 1) 0 init
  let j := r.1
  let jump := data_size - j
  if window_size ≤ jump then
    if p_size < jump - (window_size - 1) + j then r.2
    else mass3_block rev data window_size data_mean data_sd query_mean query_sd j jump r.2
  else r.2

/-! ## `StompWorker` and `stomp_rcpp_parallel` -/

/-- The input members of `struct StompWorker` (lines 261-271); `size` is
`d_mean.size()`, the number of reference windows. -/
structure WorkerCtx (K : Type) where
  data_ref : List K
  window_ref : List K
  w_size : Nat
  d_size : Nat
  size : Nat
  d_mean : Nat → K
  d_std : Nat → K
  q_mean : Nat → K
  q_std : Nat → K
  skip_location : List Bool
  first_product : List K
  ez : Nat
  set_k_rcpp : Nat → Nat → Nat → Nat

/-- The private buffers of one call of the worker (lines 319-325). -/
structure WorkerState (K : Type) where
  distance_profile : List (WithTop K)
  matrix_profile : List (WithTop K)
  profile_index : List (Option Nat)
  last_product : List K
  drop_value : K

/-- The shared output members `mp` and `pi` (lines 275-276). -/
structure Shared (K : Type) where
  mp : List (WithTop K)
  pi : List (Option Nat)

/-- Lines 346-350, the in-place loop `for (j = size - 1; j > 0; j--)`: the call with
first argument `n` performs the iterations `j = n, n-1, …, 1`. -/
def worker_recurrence (c : WorkerCtx K) (i : Nat) (drop_value : K) :
    Nat → List K → List K
  | 0, lp => lp
  | n + 1, lp =>
    worker_recurrence c i drop_value n
      (lp.set (n + 1) (rd lp n - rd c.data_ref n * drop_value
        + rd c.data_ref (c.w_size + (n + 1) - 1) * rd c.window_ref (i + c.w_size - 1)))

/-- Lines 346-351: the recurrence loop followed by `last_product[0] = first_product[i]`. -/
def worker_last_product (c : WorkerCtx K) (i : Nat) (st : WorkerState K) : List K :=
  (worker_recurrence c i st.drop_value (c.size - 1) st.last_product).set 0
    (rd c.first_product i)

/-- Lines 353-371: the distance profile of an iteration `i ≠ begin`. With `ez > 0`,
`exc_st = i > ez ? i - ez : 0` and `exc_ed = MIN(size - 1, i + ez)`; the value is
`R_PosInf` unless `skip_location[j] == 0` and (`ez == 0` or `j` outside
`exc_st .. exc_ed`), and `(dp > 0) ? dp : 0` is stored. -/
def worker_profile (c : WorkerCtx K) (i : Nat) (lp : List K) : List (WithTop K) :=
  tab c.size (fun j =>
    if c.skip_location.getD j false = false ∧
        (c.ez = 0 ∨ j < i - c.ez ∨ min (c.size - 1) (i + c.ez) < j) then
      (if 0 < distFormula c.w_size (rd lp j) (c.d_mean j) (c.d_std j) (c.q_mean i)
            (c.q_std i)
        then ((distFormula c.w_size (rd lp j) (c.d_mean j) (c.d_std j) (c.q_mean i)
            (c.q_std i) : K) : WithTop K)
        else ((0 : K) : WithTop K))
    else ⊤)

/-- One iteration of the loop of lines 327-382 for query index `i` of the block that
starts at `begin`; `nn` is the result of the `mass3_cpp` call of lines 314-316. -/
def worker_iter (c : WorkerCtx K) (nn : MassOut K) (begin i : Nat) (st : WorkerState K) :
    WorkerState K :=
  let lp := if i = begin then tab c.size (fun j => rd nn.last_product j)
    else worker_last_product c i st
  let dp := if i = begin then tab c.size (fun j => ((rd nn.distance_profile j : K) : WithTop K))
    else worker_profile c i lp
  { distance_profile := dp
    last_product := lp
    drop_value := rd c.window_ref i
    matrix_profile := tab c.size (fun j =>
      if rdT dp j < rdT st.matrix_profile j then rdT dp j else rdT st.matrix_profile j)
    profile_index := tab c.size (fun j =>
      if rdT dp j < rdT st.matrix_profile j then some (i + 1)
      else rdI st.profile_index j) }

/-- The private buffers before the loop (lines 319-323). -/
def worker_init (c : WorkerCtx K) : WorkerState K :=
  { distance_profile := tab c.size (fun _ => ((0 : K) : WithTop K))
    matrix_profile := tab c.size (fun _ => ⊤)
    profile_index := tab c.size (fun _ => none)
    last_product := tab c.size (fun _ => 0)
    drop_value := 0 }

/-- The loop `for (i = begin; i < end; i++)` over the remaining indices. -/
def worker_loop (c : WorkerCtx K) (nn : MassOut K) (begin : Nat) :
    List Nat → WorkerState K → WorkerState K
  | [], st => st
  | i :: rest, st => worker_loop c nn begin rest (worker_iter c nn begin i st)

/-- Lines 384-391: the block's private result is merged into the shared vectors,
"replace both when strictly smaller". -/
def worker_merge (n : Nat) (matrix_profile : List (WithTop K))
    (profile_index : List (Option Nat)) (sh : Shared K) : Shared K :=
  { mp := tab n (fun j =>
      if rdT matrix_profile j < rdT sh.mp j then rdT matrix_profile j else rdT sh.mp j)
    pi := tab n (fun j =>
      if rdT matrix_profile j < rdT sh.mp j then rdI profile_index j else rdI sh.pi j) }

/-- The call `StompWorker::operator()(begin, end)` without a pending interrupt
(lines 297-398): a chunk with `end - begin ≤ w_size` is rejected; otherwise the block is
seeded by `mass3_cpp`, the loop runs on private buffers, and the result is merged. -/
def stomp_worker (c : WorkerCtx K) (begin end_ : Nat) (sh : Shared K) : Shared K :=
  if end_ - begin ≤ c.w_size then sh
  else
    let k := c.set_k_rcpp (c.w_size * 2) (end_ - begin) c.w_size
    let nn := mass3_cpp c.set_k_rcpp (c.window_ref.drop begin) c.data_ref c.d_size c.w_size
      c.d_mean c.d_std (c.q_mean begin) (c.q_std begin) k
    let st := worker_loop c nn begin (List.range' begin (end_ - begin)) (worker_init c)
    worker_merge c.size st.matrix_profile st.profile_index sh

/-- Lines 405-451: the worker built by `stomp_rcpp_parallel`. Line 405 converts the
rounded radius to `uint64_t`, which is defined for a non-negative value only; for a
negative one the model takes 0. -/
def parallel_ctx (set_k_rcpp : Nat → Nat → Nat → Nat) (pre : MassPre K)
    (data_ref query_ref : List (Option K)) (window_size : Nat) (ez : K) : WorkerCtx K :=
  let data := sanitize data_ref
  let query := sanitize query_ref
  { data_ref := data
    window_ref := query
    w_size := window_size
    d_size := data_ref.length
    size := data_ref.length - window_size + 1
    d_mean := pre.data_mean
    d_std := pre.data_sd
    q_mean := pre.query_mean
    q_std := pre.query_sd
    skip_location := skip_location data_ref window_size
    first_product := (mass3_rcpp (data.take window_size) query query_ref.length
      window_size pre.query_mean pre.query_sd (pre.data_mean 0)
      (pre.data_sd 0)).last_product
    ez := (exclusion_zone window_size ez).toNat
    set_k_rcpp := set_k_rcpp }

/-- The function `stomp_rcpp_parallel` (lines 402-470) without a pending interrupt.
`parallelFor` hands the worker the blocks `(begin, end)` of a partition of
`[0, num_queries)`; the buffers of a block are private and the merges are serialised by
the mutex, so a run is determined by the order `blocks` in which the merges happen. -/
def stomp_rcpp_parallel (sqrt : K → K) (set_k_rcpp : Nat → Nat → Nat → Nat)
    (pre : MassPre K) (data_ref query_ref : List (Option K)) (window_size : Nat) (ez : K)
    (blocks : List (Nat × Nat)) : StompResult K :=
  let c := parallel_ctx set_k_rcpp pre data_ref query_ref window_size ez
  let init : Shared K :=
    { mp := tab c.size (fun _ => ⊤), pi := tab c.size (fun _ => none) }
  let sh := blocks.foldl (fun sh b => stomp_worker c b.1 b.2 sh) init
  { matrix_profile := sh.mp.map (fun d => d.map sqrt)
    profile_index := sh.pi
    partial_flag := false }

/-- The blocks, in this order, split `[s, e)` into consecutive non-empty ranges. -/
def Contiguous : Nat → Nat → List (Nat × Nat) → Prop
  | s, e, [] => s = e
  | s, e, b :: rest => b.1 = s ∧ b.1 < b.2 ∧ Contiguous b.2 e rest

/-- The blocks, merged in the listed order, are a partition of `[0, n)` into contiguous
ranges. -/
def IsPartition (n : Nat) (blocks : List (Nat × Nat)) : Prop :=
  ∃ sorted, List.Perm blocks sorted ∧ Contiguous 0 n sorted

/-! ## Closed forms used to state and prove the properties of `stomp_rcpp` -/

/-- The clamped distance between reference window `j` and query window `i`, written with
the dot product of the two windows. -/
def cleanDist (c : StompCtx K) (i j : Nat) : K :=
  max 0 (distFormula c.window_size (slidingDot c.data c.query c.window_size j i)
    (c.pre.data_mean j) (c.pre.data_sd j) (c.pre.query_mean i) (c.pre.query_sd i))

/-- Position `j` lies in the range `exc_st .. exc_ed` that iteration `i` masks. -/
def excluded (c : StompCtx K) (i j : Nat) : Prop :=
  0 < c.exclusion_zone ∧ i - c.exclusion_zone.toNat ≤ j
    ∧ j ≤ min (c.matrix_profile_size - 1) (i + c.exclusion_zone.toNat)

instance (c : StompCtx K) (i j : Nat) : Decidable (excluded c i j) := by
  unfold excluded; infer_instance

/-- The masked distance profile of iteration `i` at position `j`, in closed form. -/
def seqDist (c : StompCtx K) (i j : Nat) : WithTop K :=
  if c.skip_location.getD j false then ⊤
  else if c.skip_location.getD i false || decide (c.pre.query_sd i < DBL_EPSILON) then ⊤
  else if c.pre.data_sd j < DBL_EPSILON then ⊤
  else if excluded c i j then ⊤
  else ((cleanDist c i j : K) : WithTop K)

/-- The running minimum at position `j` after the iterations `0 .. n-1`. -/
def seqMP (c : StompCtx K) : Nat → Nat → WithTop K
  | 0, _ => ⊤
  | n + 1, j => if seqDist c n j < seqMP c n j then seqDist c n j else seqMP c n j

/-- The stored index at position `j` after the iterations `0 .. n-1`. -/
def seqPI (c : StompCtx K) : Nat → Nat → Option Nat
  | 0, _ => none
  | n + 1, j => if seqDist c n j < seqMP c n j then some (n + 1) else seqPI c n j

/-- The loop invariant of `stomp_rcpp` before iteration `n`. -/
def SeqInv (c : StompCtx K) (n : Nat) (st : StompState K) : Prop :=
  (0 < n → st.last_product = tab c.matrix_profile_size
    (fun j => slidingDot c.data c.query c.window_size j (n - 1))) ∧
  st.drop_value = rd c.query (n - 1) ∧
  st.matrix_profile = tab c.matrix_profile_size (seqMP c n) ∧
  st.profile_index = tab c.matrix_profile_size (seqPI c n)

/-- No distance profile of the run holds a `NaN`: for no query index `i` and reference
position `j` are the product of the standard deviations and the numerator of the quotient,
taken at the dot product of the two windows, both zero. -/
def NoNaN (c : StompCtx K) : Prop :=
  ∀ i j, i < c.num_queries → j < c.matrix_profile_size →
    ¬ (c.pre.data_sd j * c.pre.query_sd i = 0 ∧
        slidingDot c.data c.query c.window_size j i
          - (c.window_size : K) * c.pre.data_mean j * c.pre.query_mean i = 0)

/-! ## Window statistics and the z-normalised distance (specification side) -/

/-- The arithmetic mean of the window of length `w` of `a` that starts at `j`. -/
def windowMean (a : List K) (w j : Nat) : K := (∑ t in range w, rd a (j + t)) / w

/-- The population variance of the window of length `w` of `a` that starts at `j`. -/
def windowVar (a : List K) (w j : Nat) : K :=
  (∑ t in range w, (rd a (j + t) - windowMean a w j) ^ 2) / w

/-- The number `s` is the population standard deviation of window `j` of `a`. -/
def IsWindowSd (s : K) (a : List K) (w j : Nat) : Prop :=
  0 ≤ s ∧ s ^ 2 = windowVar a w j

/-- The rolling statistics handed to the loop are the exact means and population
standard deviations of the windows of the two series. -/
def StatsExact (pre : MassPre K) (data query : List K) (w : Nat) : Prop :=
  (∀ j, j + w ≤ data.length →
    pre.data_mean j = windowMean data w j ∧ IsWindowSd (pre.data_sd j) data w j) ∧
  (∀ i, i + w ≤ query.length →
    pre.query_mean i = windowMean query w i ∧ IsWindowSd (pre.query_sd i) query w i)

/-- The squared z-normalised Euclidean distance between window `j` of `a` (standard
deviation `sa`) and window `i` of `b` (standard deviation `sb`). -/
def znormSqDist (a b : List K) (w j i : Nat) (sa sb : K) : K :=
  ∑ t in range w, ((rd a (j + t) - windowMean a w j) / sa
    - (rd b (i + t) - windowMean b w i) / sb) ^ 2

/-- Reference position `j` is within the exclusion radius of query index `i`; the radius
is `round(w * ez + DBL_EPSILON)` and a zero radius excludes nothing. -/
def inExclusionZone (w : Nat) (ez : K) (i j : Nat) : Prop :=
  0 < exclusion_zone w ez ∧ |(i : Int) - (j : Int)| ≤ exclusion_zone w ez

/-- Query window `i` may match reference window `j`: not excluded, neither window with
a standard deviation below `DBL_EPSILON`. -/
def Eligible (pre : MassPre K) (w : Nat) (ez : K) (i j : Nat) : Prop :=
  ¬ inExclusionZone w ez i j ∧ ¬ pre.data_sd j < DBL_EPSILON
    ∧ ¬ pre.query_sd i < DBL_EPSILON

/-- The part of the output of `mass3_cpp` below position `n` is final: the vectors have
`P` entries, and every position `p < n` holds the dot product of the query with window
`p` and the distance computed from it. -/
def MassGood (q data : List K) (w : Nat) (data_mean data_sd : Nat → K)
    (query_mean query_sd : K) (P n : Nat) (acc : MassOut K) : Prop :=
  acc.last_product.length = P ∧ acc.distance_profile.length = P ∧
  ∀ p, p < n → p < P →
    rd acc.last_product p = slidingDot data q w p 0 ∧
    rd acc.distance_profile p
      = distFormula w (slidingDot data q w p 0) (data_mean p) (data_sd p)
          query_mean query_sd

/-- The running minimum at position `j` after folding the distances `D i j` of the
iterations `i = s, …, s + n - 1` into the initial value `m0 j`. -/
def contMP (D : Nat → Nat → WithTop K) (s : Nat) (m0 : Nat → WithTop K) :
    Nat → Nat → WithTop K
  | 0, j => m0 j
  | n + 1, j =>
    if D (s + n) j < contMP D s m0 n j then D (s + n) j else contMP D s m0 n j

/-- The index stored at position `j` after the iterations `i = s, …, s + n - 1`. -/
def contPI (D : Nat → Nat → WithTop K) (s : Nat) (m0 : Nat → WithTop K)
    (i0 : Nat → Option Nat) : Nat → Nat → Option Nat
  | 0, j => i0 j
  | n + 1, j =>
    if D (s + n) j < contMP D s m0 n j then some (s + n + 1) else contPI D s m0 i0 n j

/-- The distance profile of iteration `i` of the worker block that starts at `begin`, at
position `j`, in closed form: the first iteration takes the seed of `mass3_cpp` as it is,
the later ones mask and clamp. -/
def workerDist (c : WorkerCtx K) (begin i j : Nat) : WithTop K :=
  if i = begin then
    ((distFormula c.w_size (slidingDot c.data_ref c.window_ref c.w_size j i) (c.d_mean j)
      (c.d_std j) (c.q_mean i) (c.q_std i) : K) : WithTop K)
  else if c.skip_location.getD j false = false ∧
      (c.ez = 0 ∨ j < i - c.ez ∨ min (c.size - 1) (i + c.ez) < j) then
    ((max 0 (distFormula c.w_size (slidingDot c.data_ref c.window_ref c.w_size j i)
      (c.d_mean j) (c.d_std j) (c.q_mean i) (c.q_std i)) : K) : WithTop K)
  else ⊤

/-- The loop invariant of the worker after the first `n` indices of its block. -/
def WorkerInv (c : WorkerCtx K) (begin n : Nat) (st : WorkerState K) : Prop :=
  (0 < n → st.last_product = tab c.size
    (fun j => slidingDot c.data_ref c.window_ref c.w_size j (begin + n - 1))) ∧
  (0 < n → st.drop_value = rd c.window_ref (begin + n - 1)) ∧
  st.matrix_profile = tab c.size (contMP (workerDist c begin) begin (fun _ => ⊤) n) ∧
  st.profile_index
    = tab c.size (contPI (workerDist c begin) begin (fun _ => ⊤) (fun _ => none) n)

/-- The assumptions on the members of the worker under which its loop is characterised:
a positive window size, `d_mean.size() = d_size - w_size + 1`, a block size returned by
`set_k_rcpp` between `w_size` and `d_size`, and a `first_product` holding the dot
products of the first reference window with the `nq` query windows. -/
def WorkerOk (c : WorkerCtx K) (nq : Nat) : Prop :=
  1 ≤ c.w_size ∧ c.size = c.d_size - c.w_size + 1 ∧
  (∀ k0, c.w_size ≤ c.set_k_rcpp k0 c.d_size c.w_size
    ∧ c.set_k_rcpp k0 c.d_size c.w_size ≤ c.d_size) ∧
  (∀ i, i < nq → rd c.first_product i
    = slidingDot c.data_ref c.window_ref c.w_size 0 i)

/-- The private buffers of the block `[begin, end)` when its loop ends (line 382). -/
def block_state (c : WorkerCtx K) (begin end_ : Nat) : WorkerState K :=
  worker_loop c
    (mass3_cpp c.set_k_rcpp (c.window_ref.drop begin) c.data_ref c.d_size c.w_size
      c.d_mean c.d_std (c.q_mean begin) (c.q_std begin)
      (c.set_k_rcpp (c.w_size * 2) (end_ - begin) c.w_size))
    begin (List.range' begin (end_ - begin)) (worker_init c)

/-- The effect of one worker call on the shared `mp` alone. -/
def merge_mp (c : WorkerCtx K) (m : List (WithTop K)) (b : Nat × Nat) :
    List (WithTop K) :=
  (stomp_worker c b.1 b.2 { mp := m, pi := [] }).mp

/-- The outcome of the loop of `stomp_rcpp`, whichever way it ended. -/
def LoopEnd.state : LoopEnd K → StompState K
  | LoopEnd.finished st => st
  | LoopEnd.interrupted st => st

/-- Position-wise invariant of the running `matrix_profile`/`profile_index` of
`stomp_rcpp`: an entry is either still `+∞`/unset, or it was written by an iteration `i`
satisfying `P`, at a position that is neither flagged nor degenerate, outside the
exclusion range of `i`, while query `i` itself was neither flagged by the mask entry read
for it nor degenerate. -/
def Written (c : StompCtx K) (P : Nat → Prop) (st : StompState K) : Prop :=
  ∀ j, (rdT st.matrix_profile j = ⊤ ∧ rdI st.profile_index j = none) ∨
    (j < c.matrix_profile_size ∧ rdT st.matrix_profile j ≠ ⊤ ∧
      ∃ i, P i ∧ rdI st.profile_index j = some (i + 1) ∧
        c.skip_location.getD j false = false ∧ c.skip_location.getD i false = false ∧
        ¬ c.pre.data_sd j < DBL_EPSILON ∧ ¬ c.pre.query_sd i < DBL_EPSILON ∧
        ¬ excluded c i j)

/-- The series `[1,2,3,2,1,2,3,2,1]` of the scenario of §8. -/
def scenarioSeries : List K := [1, 2, 3, 2, 1, 2, 3, 2, 1]

/-- Position-wise invariant of a `matrix_profile`/`profile_index` pair of the parallel
computation: an entry is either `+∞` with an unset index, or finite with an index `i + 1`
for a query index `lo ≤ i < hi`. -/
def IndexInv (lo hi : Nat) (mp : List (WithTop K)) (pi : List (Option Nat)) : Prop :=
  ∀ j, (rdT mp j = ⊤ ∧ rdI pi j = none) ∨
    (rdT mp j ≠ ⊤ ∧ ∃ i, lo ≤ i ∧ i < hi ∧ rdI pi j = some (i + 1))

/-- The series `0, 1, 2, …, 100, 99` (102 samples): with `w = 2` its windows `0 .. 99`
rise and window 100 falls. -/
def interruptSeries : List K := (List.range 101).map (fun (t : Nat) => (t : K)) ++ [99]

/-- The rolling statistics of `interruptSeries` for `w = 2`: the window means, and the
standard deviation `1/2` of every window. -/
def interruptStats : MassPre K :=
  { data_mean := windowMean interruptSeries 2, data_sd := fun _ => 1 / 2
    query_mean := windowMean interruptSeries 2, query_sd := fun _ => 1 / 2 }

/-! ## The blocks of `mass3_cpp` -/

/-- The control flow of the block loop of lines 181-209 without the data: the blocks it
visits, as pairs of a start `j` and a length `k`, and the value of `j` at the exit. -/
def mass3_loop_blocks (w k seq_end : Nat) : Nat → Nat → Nat × List (Nat × Nat)
  | 0, j => (j, [])
  | fuel + 1, j =>
    if j ≤ seq_end then
      ((mass3_loop_blocks w k seq_end fuel (j + (k - w + 1))).1,
        (j, k) :: (mass3_loop_blocks w k seq_end fuel (j + (k - w + 1))).2)
    else (j, [])

/-- The blocks processed by `mass3_cpp` for the block size `k` returned by `set_k_rcpp`:
the full-size blocks of the loop, then the final partial block of lines 216-248 when
`jump = d_size - j ≥ w_size` and the test of line 222 lets it pass. -/
def mass3_blocks (data_size window_size k : Nat) : List (Nat × Nat) :=
  let p_size := data_size - window_size + 1
  let seq_end := data_size - k
  let r := mass3_loop_blocks window_size k seq_end (seq_end + 1) 0
  let j := r.1
  let jump := data_size - j
  if window_size ≤ jump then
    if p_size < jump - (window_size - 1) + j then r.2
    else r.2 ++ [(j, jump)]
  else r.2

/-- Output position `p` is written by the block `b = (j, len)`: the two `std::copy` calls
of lines 207-208 (245-246) write the `len - w + 1` positions from `j` on. -/
def block_writes (w : Nat) (b : Nat × Nat) (p : Nat) : Bool :=
  decide (b.1 ≤ p ∧ p < b.1 + (b.2 - w + 1))

/-- The series `0, e, 0, e` with `e = 2^-53`: every window of length 2 has the mean
`2^-54` and the population standard deviation `2^-54`, which is below `DBL_EPSILON`. -/
def tinySeries : List K := [0, 1 / 2 ^ 53, 0, 1 / 2 ^ 53]

/-- Rolling statistics with mean `2^-54` and standard deviation `2^-54` everywhere, those
of `tinySeries` for `w = 2`. -/
def statsTiny : MassPre K :=
  { data_mean := fun _ => 1 / 2 ^ 54, data_sd := fun _ => 1 / 2 ^ 54
    query_mean := fun _ => 1 / 2 ^ 54, query_sd := fun _ => 1 / 2 ^ 54 }

/-! ## The run of the sequential loop, iteration by iteration -/

/-- The state of the loop of `stomp_rcpp` before iteration `n` of a run without interrupt;
an iteration that raises leaves the state as it is. -/
def seq_state (c : StompCtx K) : Nat → StompState K
  | 0 => stomp_init c
  | n + 1 =>
    match stomp_iter c n (seq_state c n) with
    | Except.ok st => st
    | Except.error _ => seq_state c n

/-- The masked distance profile that iteration `i` of `stomp_rcpp` folds into the
matrix profile at lines 127-129. -/
def seq_profile (c : StompCtx K) (i : Nat) : List (WithTop K) :=
  masked_profile c i (c.skip_location.getD i false) (raw_profile c i (seq_state c i)).2

/-- The series `[5, 5, 5, 5, 1]`: with `w = 4` its window 0 is the constant
`[5, 5, 5, 5]`. -/
def constSeries : List K := [5, 5, 5, 5, 1]

/-- The rolling statistics of `constSeries` for `w = 4`: window 0 has mean 5 and standard
deviation 0, window 1 has mean 4 and the standard deviation `s`, the square root of 3. -/
def constStats (s : K) : MassPre K :=
  { data_mean := fun j => if j = 0 then 5 else 4, data_sd := fun j => if j = 0 then 0 else s
    query_mean := fun j => if j = 0 then 5 else 4
    query_sd := fun j => if j = 0 then 0 else s }

/-- Rolling statistics with mean `1/2` and standard deviation `1/2` at every window:
those of any series of alternating 0 and 1 for windows of length 2. -/
def statsHalf : MassPre K :=
  { data_mean := fun _ => 1 / 2, data_sd := fun _ => 1 / 2
    query_mean := fun _ => 1 / 2, query_sd := fun _ => 1 / 2 }

/-! # Theorems -/

/-! ## Vectors -/

omit [LinearOrderedField K] [FloorRing K] in
@[simp] theorem length_tab {α : Type} (n : Nat) (f : Nat → α) : (tab n f).length = n := by
  simp [tab]

theorem getD_tab {α : Type} (n : Nat) (f : Nat → α) (j : Nat) (d : α) :
    (tab n f).getD j d = if j < n then f j else d := by
  unfold tab
  by_cases h : j < n
  · simp [List.getD_eq_getElem?_getD, List.getElem?_map, List.getElem?_range h, h]
  · have h2 : ((List.range n).map f).length ≤ j := by simpa using h
    simp [List.getD_eq_getElem?_getD, List.getElem?_eq_none h2, h]

theorem rd_tab (n : Nat) (f : Nat → K) {j : Nat} (h : j < n) : rd (tab n f) j = f j := by
  rw [rd, getD_tab, if_pos h]

theorem rdT_tab (n : Nat) (f : Nat → WithTop K) {j : Nat} (h : j < n) :
    rdT (tab n f) j = f j := by
  rw [rdT, getD_tab, if_pos h]

theorem rdI_tab (n : Nat) (f : Nat → Option Nat) {j : Nat} (h : j < n) :
    rdI (tab n f) j = f j := by
  rw [rdI, getD_tab, if_pos h]

theorem rdT_tab_ge (n : Nat) (f : Nat → WithTop K) {j : Nat} (h : n ≤ j) :
    rdT (tab n f) j = ⊤ := by
  rw [rdT, getD_tab, if_neg (not_lt.mpr h)]

theorem rdI_tab_ge (n : Nat) (f : Nat → Option Nat) {j : Nat} (h : n ≤ j) :
    rdI (tab n f) j = none := by
  rw [rdI, getD_tab, if_neg (not_lt.mpr h)]

theorem tab_congr {α : Type} {n : Nat} {f g : Nat → α} (h : ∀ j, j < n → f j = g j) :
    tab n f = tab n g := by
  unfold tab
  apply List.map_congr_left
  intro a ha
  exact h a (List.mem_range.mp ha)

theorem rd_take {l : List K} {w t : Nat} (h : t < w) : rd (l.take w) t = rd l t := by
  simp [rd, List.getD_eq_getElem?_getD, List.getElem?_take, h]

/-! ## The dot-product recurrence -/

theorem slidingDot_take_right (a b : List K) (w j : Nat) :
    slidingDot a (b.take w) w j 0 = slidingDot a b w j 0 := by
  unfold slidingDot
  apply Finset.sum_congr rfl
  intro t ht
  rw [Nat.zero_add, rd_take (Finset.mem_range.mp ht)]

theorem slidingDot_take_left (a b : List K) (w i : Nat) :
    slidingDot b (a.take w) w i 0 = slidingDot a b w 0 i := by
  unfold slidingDot
  apply Finset.sum_congr rfl
  intro t ht
  rw [Nat.zero_add, rd_take (Finset.mem_range.mp ht), mul_comm]

/-- The STOMP recurrence on dot products. -/
theorem slidingDot_succ (a b : List K) (w j i : Nat) :
    slidingDot a b w j i - rd a j * rd b i + rd a (j + w) * rd b (i + w)
      = slidingDot a b w (j + 1) (i + 1) := by
  unfold slidingDot
  have h1 := Finset.sum_range_succ (fun t => rd a (j + t) * rd b (i + t)) w
  have h2 := Finset.sum_range_succ' (fun t => rd a (j + t) * rd b (i + t)) w
  have h3 : ∀ t, rd a (j + 1 + t) * rd b (i + 1 + t)
      = rd a (j + (t + 1)) * rd b (i + (t + 1)) := by
    intro t
    rw [show j + 1 + t = j + (t + 1) by omega, show i + 1 + t = i + (t + 1) by omega]
  simp only [h3]
  simp only [Nat.add_zero] at h2
  linarith

/-! ## The loop of `stomp_rcpp` computes the closed forms -/

theorem map_tab {α β : Type} (n : Nat) (f : Nat → α) (g : α → β) :
    (tab n f).map g = tab n (fun j => g (f j)) := by
  simp [tab, List.map_map, Function.comp_def]

theorem clamp_eq (x : K) :
    (if x < 0 then ((0 : K) : WithTop K) else ((x : K) : WithTop K))
      = ((max 0 x : K) : WithTop K) := by
  by_cases h : x < 0
  · rw [if_pos h, max_eq_left (le_of_lt h)]
  · rw [if_neg h, max_eq_right (not_lt.mp h)]

theorem ctx_nn_last (pre : MassPre K) (data_ref query_ref : List (Option K))
    (w : Nat) (ez : K) :
    (stomp_ctx pre data_ref query_ref w ez).nn.last_product
      = tab (stomp_ctx pre data_ref query_ref w ez).matrix_profile_size
          (fun j => slidingDot (stomp_ctx pre data_ref query_ref w ez).data
            (stomp_ctx pre data_ref query_ref w ez).query w j 0) := by
  simp only [stomp_ctx, mass3_rcpp]
  apply tab_congr
  intro j _
  exact slidingDot_take_right _ _ _ _

theorem ctx_nn_dist (pre : MassPre K) (data_ref query_ref : List (Option K))
    (w : Nat) (ez : K) :
    (stomp_ctx pre data_ref query_ref w ez).nn.distance_profile
      = tab (stomp_ctx pre data_ref query_ref w ez).matrix_profile_size
          (fun j => cleanDist (stomp_ctx pre data_ref query_ref w ez) 0 j) := by
  simp only [stomp_ctx, mass3_rcpp, cleanDist]
  apply tab_congr
  intro j hj
  rw [rd_tab _ _ hj, slidingDot_take_right]

theorem ctx_first_product (pre : MassPre K) (data_ref query_ref : List (Option K))
    (w : Nat) (ez : K) {i : Nat}
    (hi : i < (stomp_ctx pre data_ref query_ref w ez).num_queries) :
    rd (stomp_ctx pre data_ref query_ref w ez).first_product i
      = slidingDot (stomp_ctx pre data_ref query_ref w ez).data
          (stomp_ctx pre data_ref query_ref w ez).query w 0 i := by
  simp only [stomp_ctx, mass3_rcpp] at hi ⊢
  rw [rd_tab _ _ hi, slidingDot_take_left]

theorem ctx_skip_length (pre : MassPre K) (data_ref query_ref : List (Option K))
    (w : Nat) (ez : K) :
    (stomp_ctx pre data_ref query_ref w ez).skip_location.length
      = (stomp_ctx pre data_ref query_ref w ez).matrix_profile_size := by
  simp [stomp_ctx, skip_location]

theorem ctx_window_size (pre : MassPre K) (data_ref query_ref : List (Option K))
    (w : Nat) (ez : K) : (stomp_ctx pre data_ref query_ref w ez).window_size = w := rfl

/-- The dot products after iteration `n` are those of query window `n`. -/
theorem raw_profile_last (pre : MassPre K) (data_ref query_ref : List (Option K))
    (w : Nat) (ez : K) (n : Nat) (st : StompState K)
    (hinv : SeqInv (stomp_ctx pre data_ref query_ref w ez) n st)
    (hnq : n < (stomp_ctx pre data_ref query_ref w ez).num_queries) :
    (raw_profile (stomp_ctx pre data_ref query_ref w ez) n st).1
      = tab (stomp_ctx pre data_ref query_ref w ez).matrix_profile_size
          (fun j => slidingDot (stomp_ctx pre data_ref query_ref w ez).data
            (stomp_ctx pre data_ref query_ref w ez).query w j n) := by
  obtain ⟨hlp, hdrop, -, -⟩ := hinv
  unfold raw_profile
  by_cases h0 : n = 0
  · subst h0
    rw [if_pos rfl]
    exact ctx_nn_last pre data_ref query_ref w ez
  · rw [if_neg h0]
    have hpos : 0 < n := Nat.pos_of_ne_zero h0
    simp only [update_last_product]
    apply tab_congr
    intro j hj
    by_cases hj0 : j = 0
    · subst hj0
      rw [if_pos rfl]
      exact ctx_first_product pre data_ref query_ref w ez hnq
    · rw [if_neg hj0, hlp hpos, hdrop, rd_tab _ _ (by omega), ctx_window_size]
      have h := slidingDot_succ (stomp_ctx pre data_ref query_ref w ez).data
        (stomp_ctx pre data_ref query_ref w ez).query w (j - 1) (n - 1)
      rw [show j - 1 + 1 = j by omega, show n - 1 + 1 = n by omega,
        show j - 1 + w = w + j - 1 by omega, show n - 1 + w = n + w - 1 by omega] at h
      exact h

/-- The masked distance profile of iteration `n` is the closed form `seqDist`. -/
theorem masked_profile_eq (pre : MassPre K) (data_ref query_ref : List (Option K))
    (w : Nat) (ez : K) (n : Nat) (st : StompState K)
    (hinv : SeqInv (stomp_ctx pre data_ref query_ref w ez) n st)
    (hnq : n < (stomp_ctx pre data_ref query_ref w ez).num_queries) :
    masked_profile (stomp_ctx pre data_ref query_ref w ez) n
        ((stomp_ctx pre data_ref query_ref w ez).skip_location.getD n false)
        (raw_profile (stomp_ctx pre data_ref query_ref w ez) n st).2
      = tab (stomp_ctx pre data_ref query_ref w ez).matrix_profile_size
          (seqDist (stomp_ctx pre data_ref query_ref w ez) n) := by
  have hlast := raw_profile_last pre data_ref query_ref w ez n st hinv hnq
  unfold masked_profile
  apply tab_congr
  intro j hj
  have hval : (if rd (raw_profile (stomp_ctx pre data_ref query_ref w ez) n st).2 j < 0
        then ((0 : K) : WithTop K)
        else ((rd (raw_profile (stomp_ctx pre data_ref query_ref w ez) n st).2 j : K)
          : WithTop K))
      = ((cleanDist (stomp_ctx pre data_ref query_ref w ez) n j : K) : WithTop K) := by
    rw [clamp_eq]
    congr 1
    by_cases h0 : n = 0
    · subst h0
      have : (raw_profile (stomp_ctx pre data_ref query_ref w ez) 0 st).2
          = (stomp_ctx pre data_ref query_ref w ez).nn.distance_profile := by
        simp [raw_profile]
      rw [this, ctx_nn_dist, rd_tab _ _ hj]
      simp [cleanDist]
    · have h2 : (raw_profile (stomp_ctx pre data_ref query_ref w ez) n st).2
          = tab (stomp_ctx pre data_ref query_ref w ez).matrix_profile_size (fun j =>
              distFormula w
                (rd (raw_profile (stomp_ctx pre data_ref query_ref w ez) n st).1 j)
                ((stomp_ctx pre data_ref query_ref w ez).pre.data_mean j)
                ((stomp_ctx pre data_ref query_ref w ez).pre.data_sd j)
                ((stomp_ctx pre data_ref query_ref w ez).pre.query_mean n)
                ((stomp_ctx pre data_ref query_ref w ez).pre.query_sd n)) := by
        simp [raw_profile, h0, ctx_window_size]
      rw [h2, rd_tab _ _ hj, hlast, rd_tab _ _ hj]
      rfl
  rw [hval]
  rfl

/-- No distance is `NaN` when no standard deviation is exactly zero. -/
theorem noNaN_of_sd_ne_zero (c : StompCtx K)
    (hd : ∀ j, j < c.matrix_profile_size → c.pre.data_sd j ≠ 0)
    (hq : ∀ i, i < c.num_queries → c.pre.query_sd i ≠ 0) : NoNaN c := by
  intro i j hi hj h
  rcases mul_eq_zero.mp h.1 with h0 | h0
  · exact hd j hj h0
  · exact hq i hi h0

/-- An iteration that goes through has read `skip_location[i]` inside the mask. -/
theorem stomp_iter_ok_lt (c : StompCtx K) (i : Nat) (st st' : StompState K)
    (h : stomp_iter c i st = Except.ok st') : i < c.skip_location.length := by
  by_contra hlt
  unfold stomp_iter at h
  simp only [List.getElem?_eq_none (not_lt.mp hlt)] at h
  split_ifs at h

/-- An iteration that goes through has met no `NaN`. -/
theorem stomp_iter_ok_no_nan (c : StompCtx K) (i : Nat) (st st' : StompState K)
    (h : stomp_iter c i st = Except.ok st') :
    ¬ ∃ j, j < c.matrix_profile_size ∧ nan_at c i (raw_profile c i st).1 j := by
  intro hc
  unfold stomp_iter at h
  simp only [hc, if_true] at h
  exact absurd h (by simp)

/-- One iteration from a state that satisfies the invariant, when no entry of its
distance profile is `NaN`: it goes through and re-establishes the invariant. -/
theorem stomp_iter_step (pre : MassPre K) (data_ref query_ref : List (Option K))
    (w : Nat) (ez : K) (n : Nat) (st : StompState K)
    (hinv : SeqInv (stomp_ctx pre data_ref query_ref w ez) n st)
    (hn : n < (stomp_ctx pre data_ref query_ref w ez).matrix_profile_size)
    (hnq : n < (stomp_ctx pre data_ref query_ref w ez).num_queries)
    (hnan : ¬ ∃ j, j < (stomp_ctx pre data_ref query_ref w ez).matrix_profile_size ∧
      nan_at (stomp_ctx pre data_ref query_ref w ez) n
        (raw_profile (stomp_ctx pre data_ref query_ref w ez) n st).1 j) :
    ∃ st', stomp_iter (stomp_ctx pre data_ref query_ref w ez) n st = Except.ok st'
      ∧ SeqInv (stomp_ctx pre data_ref query_ref w ez) (n + 1) st' := by
  have hlast := raw_profile_last pre data_ref query_ref w ez n st hinv hnq
  have hmask := masked_profile_eq pre data_ref query_ref w ez n st hinv hnq
  have hlen := ctx_skip_length pre data_ref query_ref w ez
  have hskip : (stomp_ctx pre data_ref query_ref w ez).skip_location[n]?
      = some ((stomp_ctx pre data_ref query_ref w ez).skip_location.getD n false) := by
    rw [List.getD_eq_getElem?_getD, List.getElem?_eq_getElem (by omega)]
    rfl
  have hrange : ¬ (0 < (stomp_ctx pre data_ref query_ref w ez).exclusion_zone ∧
      min ((stomp_ctx pre data_ref query_ref w ez).matrix_profile_size - 1)
          (n + (stomp_ctx pre data_ref query_ref w ez).exclusion_zone.toNat)
        < n - (stomp_ctx pre data_ref query_ref w ez).exclusion_zone.toNat) := by
    rintro ⟨-, h⟩
    rcases min_lt_iff.mp h with h | h <;> omega
  refine ⟨update_profile (stomp_ctx pre data_ref query_ref w ez).matrix_profile_size n
    (masked_profile (stomp_ctx pre data_ref query_ref w ez) n
      ((stomp_ctx pre data_ref query_ref w ez).skip_location.getD n false)
      (raw_profile (stomp_ctx pre data_ref query_ref w ez) n st).2) st
    (raw_profile (stomp_ctx pre data_ref query_ref w ez) n st).1
    (rd (stomp_ctx pre data_ref query_ref w ez).query n), ?_, ?_⟩
  · unfold stomp_iter
    simp only [hnan, hrange, if_false, hskip]
  · obtain ⟨-, -, hmp, hpi⟩ := hinv
    refine ⟨fun _ => ?_, ?_, ?_, ?_⟩
    · simpa using hlast
    · simp [update_profile]
    · simp only [update_profile, hmask, hmp]
      apply tab_congr
      intro j hj
      rw [rdT_tab _ _ hj, rdT_tab _ _ hj]
      rfl
    · simp only [update_profile, hmask, hmp, hpi]
      apply tab_congr
      intro j hj
      rw [rdT_tab _ _ hj, rdT_tab _ _ hj, rdI_tab _ _ hj]
      rfl

/-- From a state that satisfies the invariant, the `NaN` test of the iteration reads the
dot products of the windows. -/
theorem nan_check_iff (pre : MassPre K) (data_ref query_ref : List (Option K))
    (w : Nat) (ez : K) (n : Nat) (st : StompState K)
    (hinv : SeqInv (stomp_ctx pre data_ref query_ref w ez) n st)
    (hnq : n < (stomp_ctx pre data_ref query_ref w ez).num_queries) :
    (∃ j, j < (stomp_ctx pre data_ref query_ref w ez).matrix_profile_size ∧
      nan_at (stomp_ctx pre data_ref query_ref w ez) n
        (raw_profile (stomp_ctx pre data_ref query_ref w ez) n st).1 j)
    ↔ ∃ j, j < (stomp_ctx pre data_ref query_ref w ez).matrix_profile_size ∧
        (pre.data_sd j * pre.query_sd n = 0 ∧
          slidingDot (stomp_ctx pre data_ref query_ref w ez).data
              (stomp_ctx pre data_ref query_ref w ez).query w j n
            - (w : K) * pre.data_mean j * pre.query_mean n = 0) := by
  have hlast := raw_profile_last pre data_ref query_ref w ez n st hinv hnq
  constructor
  · rintro ⟨j, hj, h1, h2⟩
    rw [hlast, rd_tab _ _ hj] at h2
    exact ⟨j, hj, h1, h2⟩
  · rintro ⟨j, hj, h1, h2⟩
    refine ⟨j, hj, h1, ?_⟩
    rw [hlast, rd_tab _ _ hj]
    exact h2

/-- One iteration of a run without `NaN`, from a state that satisfies the invariant. -/
theorem stomp_iter_inv (pre : MassPre K) (data_ref query_ref : List (Option K))
    (w : Nat) (ez : K) (n : Nat) (st : StompState K)
    (hinv : SeqInv (stomp_ctx pre data_ref query_ref w ez) n st)
    (hn : n < (stomp_ctx pre data_ref query_ref w ez).matrix_profile_size)
    (hnq : n < (stomp_ctx pre data_ref query_ref w ez).num_queries)
    (hnan : NoNaN (stomp_ctx pre data_ref query_ref w ez)) :
    ∃ st', stomp_iter (stomp_ctx pre data_ref query_ref w ez) n st = Except.ok st'
      ∧ SeqInv (stomp_ctx pre data_ref query_ref w ez) (n + 1) st' := by
  apply stomp_iter_step pre data_ref query_ref w ez n st hinv hn hnq
  rw [nan_check_iff pre data_ref query_ref w ez n st hinv hnq]
  rintro ⟨j, hj, h⟩
  exact hnan n j hnq hj h

/-- An iteration that went through, from a state that satisfies the invariant, has
re-established the invariant. -/
theorem stomp_iter_inv_of_ok (pre : MassPre K) (data_ref query_ref : List (Option K))
    (w : Nat) (ez : K) (n : Nat) (st st' : StompState K)
    (hinv : SeqInv (stomp_ctx pre data_ref query_ref w ez) n st)
    (hnq : n < (stomp_ctx pre data_ref query_ref w ez).num_queries)
    (hok : stomp_iter (stomp_ctx pre data_ref query_ref w ez) n st = Except.ok st') :
    SeqInv (stomp_ctx pre data_ref query_ref w ez) (n + 1) st' := by
  have hn := stomp_iter_ok_lt _ n st st' hok
  rw [ctx_skip_length] at hn
  obtain ⟨st2, h1, h2⟩ := stomp_iter_step pre data_ref query_ref w ez n st hinv hn hnq
    (stomp_iter_ok_no_nan _ n st st' hok)
  rw [hok] at h1
  simp only [Except.ok.injEq] at h1
  rw [h1]
  exact h2

theorem stomp_init_inv (c : StompCtx K) : SeqInv c 0 (stomp_init c) := by
  refine ⟨fun h => absurd h (lt_irrefl 0), rfl, ?_, ?_⟩
  · exact tab_congr (fun j _ => rfl)
  · exact tab_congr (fun j _ => rfl)

/-- The loop either runs through all remaining indices, or stops at the first polled
index with a pending interrupt; the invariant holds at the point it stops. -/
theorem stomp_loop_inv (pre : MassPre K) (data_ref query_ref : List (Option K))
    (w : Nat) (ez : K) (interrupt : Nat → Bool)
    (hnan : NoNaN (stomp_ctx pre data_ref query_ref w ez)) :
    ∀ (len s : Nat) (st : StompState K),
      SeqInv (stomp_ctx pre data_ref query_ref w ez) s st →
      s + len ≤ (stomp_ctx pre data_ref query_ref w ez).matrix_profile_size →
      s + len ≤ (stomp_ctx pre data_ref query_ref w ez).num_queries →
      (∃ st', stomp_loop (stomp_ctx pre data_ref query_ref w ez) interrupt
            (List.range' s len) st = Except.ok (LoopEnd.finished st')
          ∧ SeqInv (stomp_ctx pre data_ref query_ref w ez) (s + len) st'
          ∧ ∀ m, s ≤ m → m < s + len → ¬ (m % 100 = 0 ∧ interrupt m = true))
      ∨ (∃ m st', s ≤ m ∧ m < s + len ∧ m % 100 = 0 ∧ interrupt m = true
          ∧ (∀ m', s ≤ m' → m' < m → ¬ (m' % 100 = 0 ∧ interrupt m' = true))
          ∧ stomp_loop (stomp_ctx pre data_ref query_ref w ez) interrupt
            (List.range' s len) st = Except.ok (LoopEnd.interrupted st')
          ∧ SeqInv (stomp_ctx pre data_ref query_ref w ez) m st') := by
  intro len
  induction len with
  | zero =>
    intro s st hinv _ _
    left
    exact ⟨st, rfl, hinv, fun m h1 h2 => absurd h2 (by omega)⟩
  | succ len ih =>
    intro s st hinv h1 h2
    rw [List.range'_succ]
    by_cases hint : s % 100 = 0 ∧ interrupt s = true
    · right
      refine ⟨s, st, le_refl s, by omega, hint.1, hint.2,
        fun m' h3 h4 => absurd h4 (by omega), ?_, hinv⟩
      simp only [stomp_loop, hint, and_self, if_true]
    · obtain ⟨st1, hst1, hinv1⟩ := stomp_iter_inv pre data_ref query_ref w ez s st hinv
        (by omega) (by omega) hnan
      have hstep : stomp_loop (stomp_ctx pre data_ref query_ref w ez) interrupt
          (s :: List.range' (s + 1) len) st
          = stomp_loop (stomp_ctx pre data_ref query_ref w ez) interrupt
            (List.range' (s + 1) len) st1 := by
        simp only [stomp_loop, hint, if_false, hst1]
      rw [hstep]
      rcases ih (s + 1) st1 hinv1 (by omega) (by omega) with
        ⟨st', hl, hi, hno⟩ | ⟨m, st', hm1, hm2, hm3, hm4, hm5, hl, hi⟩
      · left
        refine ⟨st', hl, ?_, ?_⟩
        · rw [show s + (len + 1) = s + 1 + len by omega]; exact hi
        · intro m hm1 hm2
          by_cases hms : m = s
          · subst hms; exact hint
          · exact hno m (by omega) (by omega)
      · right
        refine ⟨m, st', by omega, by omega, hm3, hm4, ?_, hl, hi⟩
        intro m' h3 h4
        by_cases hms : m' = s
        · subst hms; exact hint
        · exact hm5 m' (by omega) h4

/-- **Refinement of the sequential code.** When `window_size < len(reference)`,
`window_size ≤ len(query) ≤ len(reference)` and no distance is `NaN`, the uninterrupted
call returns, and its result is the square root of the running minimum `seqMP` with the
index `seqPI`. -/
theorem stomp_rcpp_eq (sqrt : K → K) (pre : MassPre K)
    (data_ref query_ref : List (Option K)) (w : Nat) (ez : K)
    (hw : w < data_ref.length) (hq : w ≤ query_ref.length)
    (hqd : query_ref.length ≤ data_ref.length)
    (hnan : NoNaN (stomp_ctx pre data_ref query_ref w ez)) :
    stomp_rcpp sqrt (fun _ => false) pre data_ref query_ref w ez
      = Except.ok
        { matrix_profile := tab (data_ref.length - w + 1) (fun j =>
            (seqMP (stomp_ctx pre data_ref query_ref w ez)
              (query_ref.length - w + 1) j).map sqrt)
          profile_index := tab (data_ref.length - w + 1)
            (seqPI (stomp_ctx pre data_ref query_ref w ez) (query_ref.length - w + 1))
          partial_flag := false } := by
  have hmps : (stomp_ctx pre data_ref query_ref w ez).matrix_profile_size
      = data_ref.length - w + 1 := rfl
  have hnq : (stomp_ctx pre data_ref query_ref w ez).num_queries
      = query_ref.length - w + 1 := rfl
  have hloop := stomp_loop_inv pre data_ref query_ref w ez (fun _ => false) hnan
    (query_ref.length - w + 1) 0 (stomp_init _) (stomp_init_inv _)
    (by rw [hmps]; omega) (by rw [hnq]; omega)
  rcases hloop with ⟨st', hl, hi, -⟩ | ⟨m, st', -, -, -, hm4, -⟩
  · unfold stomp_rcpp
    have hnot : ¬ (data_ref.length - w < 1) := by omega
    simp only [hnot, if_false, hnq, List.range_eq_range', hl]
    obtain ⟨-, -, hmp, hpi⟩ := hi
    rw [hmp, hpi, map_tab, hmps, Nat.zero_add]
  · exact absurd hm4 (by simp)

/-- A loop that returned, from a state that satisfies the invariant: it ran through all
remaining indices or stopped at the first polled index with a pending interrupt; every
iteration it ran read the mask inside its length, and the invariant holds at the point it
stopped. -/
theorem stomp_loop_ok_inv (pre : MassPre K) (data_ref query_ref : List (Option K))
    (w : Nat) (ez : K) (interrupt : Nat → Bool) :
    ∀ (len s : Nat) (st : StompState K) (le : LoopEnd K),
      SeqInv (stomp_ctx pre data_ref query_ref w ez) s st →
      s + len ≤ (stomp_ctx pre data_ref query_ref w ez).num_queries →
      stomp_loop (stomp_ctx pre data_ref query_ref w ez) interrupt (List.range' s len) st
        = Except.ok le →
      (∃ st', le = LoopEnd.finished st'
          ∧ SeqInv (stomp_ctx pre data_ref query_ref w ez) (s + len) st'
          ∧ (∀ m, s ≤ m → m < s + len →
              m < (stomp_ctx pre data_ref query_ref w ez).matrix_profile_size)
          ∧ ∀ m, s ≤ m → m < s + len → ¬ (m % 100 = 0 ∧ interrupt m = true))
      ∨ (∃ m st', le = LoopEnd.interrupted st' ∧ s ≤ m ∧ m < s + len ∧ m % 100 = 0
          ∧ interrupt m = true
          ∧ (∀ m', s ≤ m' → m' < m → ¬ (m' % 100 = 0 ∧ interrupt m' = true))
          ∧ (∀ m', s ≤ m' → m' < m →
              m' < (stomp_ctx pre data_ref query_ref w ez).matrix_profile_size)
          ∧ SeqInv (stomp_ctx pre data_ref query_ref w ez) m st') := by
  intro len
  induction len with
  | zero =>
    intro s st le hinv _ h
    left
    simp only [List.range'_zero, stomp_loop, Except.ok.injEq] at h
    exact ⟨st, h.symm, hinv, fun m h1 h2 => absurd h2 (by omega),
      fun m h1 h2 => absurd h2 (by omega)⟩
  | succ len ih =>
    intro s st le hinv h2 h
    rw [List.range'_succ] at h
    simp only [stomp_loop] at h
    by_cases hint : s % 100 = 0 ∧ interrupt s = true
    · right
      rw [if_pos hint] at h
      simp only [Except.ok.injEq] at h
      exact ⟨s, st, h.symm, le_refl s, by omega, hint.1, hint.2,
        fun m' h3 h4 => absurd h4 (by omega), fun m' h3 h4 => absurd h4 (by omega), hinv⟩
    · rw [if_neg hint] at h
      cases hit : stomp_iter (stomp_ctx pre data_ref query_ref w ez) s st with
      | error e => rw [hit] at h; simp at h
      | ok st1 =>
        rw [hit] at h
        simp only [] at h
        have hs := stomp_iter_ok_lt _ s st st1 hit
        rw [ctx_skip_length] at hs
        have hinv1 := stomp_iter_inv_of_ok pre data_ref query_ref w ez s st st1 hinv
          (by omega) hit
        rcases ih (s + 1) st1 le hinv1 (by omega) h with
          ⟨st', hle, hi, hb, hno⟩ | ⟨m, st', hle, hm1, hm2, hm3, hm4, hm5, hb, hi⟩
        · left
          refine ⟨st', hle, ?_, ?_, ?_⟩
          · rw [show s + (len + 1) = s + 1 + len by omega]; exact hi
          · intro m hm1 hm2
            by_cases hms : m = s
            · subst hms; exact hs
            · exact hb m (by omega) (by omega)
          · intro m hm1 hm2
            by_cases hms : m = s
            · subst hms; exact hint
            · exact hno m (by omega) (by omega)
        · right
          refine ⟨m, st', hle, by omega, by omega, hm3, hm4, ?_, ?_, hi⟩
          · intro m' h3 h4
            by_cases hms : m' = s
            · subst hms; exact hint
            · exact hm5 m' (by omega) h4
          · intro m' h3 h4
            by_cases hms : m' = s
            · subst hms; exact hs
            · exact hb m' (by omega) h4

/-- **Every returned result of `stomp_rcpp`.** A call that returns has
`window_size < len(reference)`; either no polled iteration saw an interrupt, the query has
no more windows than the reference, and the result is the square root of the running
minimum `seqMP` over all query indices with the index `seqPI`; or the loop stopped at the
first polled iteration `m` with a pending interrupt, and the result is the running
minimum after the iterations `0 .. m-1`, returned as it is with `partial = true`. -/
theorem stomp_rcpp_ok_run (sqrt : K → K) (interrupt : Nat → Bool) (pre : MassPre K)
    (data_ref query_ref : List (Option K)) (w : Nat) (ez : K) (r : StompResult K)
    (hr : stomp_rcpp sqrt interrupt pre data_ref query_ref w ez = Except.ok r) :
    1 ≤ data_ref.length - w ∧
    ((query_ref.length - w + 1 ≤ data_ref.length - w + 1 ∧
      (∀ m, m < query_ref.length - w + 1 → ¬ (m % 100 = 0 ∧ interrupt m = true)) ∧
      r = { matrix_profile := tab (data_ref.length - w + 1) (fun j =>
              (seqMP (stomp_ctx pre data_ref query_ref w ez)
                (query_ref.length - w + 1) j).map sqrt)
            profile_index := tab (data_ref.length - w + 1)
              (seqPI (stomp_ctx pre data_ref query_ref w ez) (query_ref.length - w + 1))
            partial_flag := false }) ∨
    (∃ m, m < query_ref.length - w + 1 ∧ m ≤ data_ref.length - w + 1 ∧ m % 100 = 0
      ∧ interrupt m = true
      ∧ (∀ m', m' < m → ¬ (m' % 100 = 0 ∧ interrupt m' = true)) ∧
      r = { matrix_profile := tab (data_ref.length - w + 1)
              (seqMP (stomp_ctx pre data_ref query_ref w ez) m)
            profile_index := tab (data_ref.length - w + 1)
              (seqPI (stomp_ctx pre data_ref query_ref w ez) m)
            partial_flag := true })) := by
  have hmps : (stomp_ctx pre data_ref query_ref w ez).matrix_profile_size
      = data_ref.length - w + 1 := rfl
  have hnq : (stomp_ctx pre data_ref query_ref w ez).num_queries
      = query_ref.length - w + 1 := rfl
  unfold stomp_rcpp at hr
  by_cases hsz : data_ref.length - w < 1
  · simp only [hsz, if_true] at hr
    exact absurd hr (by simp)
  · refine ⟨by omega, ?_⟩
    simp only [hsz, if_false, hnq, List.range_eq_range'] at hr
    cases hl : stomp_loop (stomp_ctx pre data_ref query_ref w ez) interrupt
        (List.range' 0 (query_ref.length - w + 1))
        (stomp_init (stomp_ctx pre data_ref query_ref w ez)) with
    | error e => rw [hl] at hr; exact absurd hr (by simp)
    | ok le =>
      rw [hl] at hr
      rcases stomp_loop_ok_inv pre data_ref query_ref w ez interrupt
        (query_ref.length - w + 1) 0 (stomp_init _) le (stomp_init_inv _)
        (by rw [hnq]; omega) hl with
        ⟨st', hle, hinv, hb, hno⟩ | ⟨m, st', hle, -, hm2, hm3, hm4, hm5, hb, hinv⟩
      · left
        subst hle
        simp only [Except.ok.injEq] at hr
        have hbound := hb (query_ref.length - w) (Nat.zero_le _) (by omega)
        rw [hmps] at hbound
        refine ⟨by omega, fun m hm => hno m (Nat.zero_le m) (by omega), ?_⟩
        obtain ⟨-, -, hmp, hpi⟩ := hinv
        rw [← hr, hmp, hpi, map_tab, hmps, Nat.zero_add]
      · right
        subst hle
        simp only [Except.ok.injEq] at hr
        have hbound : m ≤ data_ref.length - w + 1 := by
          rcases Nat.eq_zero_or_pos m with h0 | h0
          · omega
          · have := hb (m - 1) (Nat.zero_le _) (by omega)
            rw [hmps] at this
            omega
        refine ⟨m, by omega, hbound, hm3, hm4, fun m' h => hm5 m' (Nat.zero_le m') h, ?_⟩
        obtain ⟨-, -, hmp, hpi⟩ := hinv
        rw [← hr, hmp, hpi, hmps]

/-- No distance is `NaN` when no window of the two series has a standard deviation of
exactly zero. -/
theorem noNaN_of_windows (pre : MassPre K) (data query : List K) (w : Nat) (ez : K)
    (hwd : w ≤ data.length) (hwq : w ≤ query.length)
    (hd : ∀ j, j + w ≤ data.length → pre.data_sd j ≠ 0)
    (hq : ∀ i, i + w ≤ query.length → pre.query_sd i ≠ 0) :
    NoNaN (stomp_ctx pre (data.map some) (query.map some) w ez) := by
  apply noNaN_of_sd_ne_zero
  · intro j hj
    have hj2 : j < (data.map some).length - w + 1 := hj
    rw [List.length_map] at hj2
    exact hd j (by omega)
  · intro i hi
    have hi2 : i < (query.map some).length - w + 1 := hi
    rw [List.length_map] at hi2
    exact hq i (by omega)

/-- The statistics `statsHalf` never give a `NaN`. -/
theorem statsHalf_noNaN (data_ref query_ref : List (Option K)) (w : Nat) (ez : K) :
    NoNaN (stomp_ctx (statsHalf : MassPre K) data_ref query_ref w ez) := by
  apply noNaN_of_sd_ne_zero
  · intro j _
    simp [stomp_ctx, statsHalf]
  · intro i _
    simp [stomp_ctx, statsHalf]

/-! ## The states of the run -/

theorem seq_state_succ_of_ok (c : StompCtx K) (i : Nat) (st' : StompState K)
    (h : stomp_iter c i (seq_state c i) = Except.ok st') : seq_state c (i + 1) = st' := by
  simp only [seq_state, h]

/-- The states of a run whose first `n` iterations went through satisfy the invariant. -/
theorem seq_state_inv_of_ok (pre : MassPre K) (data_ref query_ref : List (Option K))
    (w : Nat) (ez : K) : ∀ n : Nat,
    n ≤ (stomp_ctx pre data_ref query_ref w ez).num_queries →
    (∀ i, i < n → ∃ st', stomp_iter (stomp_ctx pre data_ref query_ref w ez) i
      (seq_state (stomp_ctx pre data_ref query_ref w ez) i) = Except.ok st') →
    SeqInv (stomp_ctx pre data_ref query_ref w ez) n
      (seq_state (stomp_ctx pre data_ref query_ref w ez) n) := by
  intro n
  induction n with
  | zero => intro _ _; exact stomp_init_inv _
  | succ n ih =>
    intro h1 hok
    obtain ⟨st', he⟩ := hok n (Nat.lt_succ_self n)
    have hinv := ih (by omega) (fun i hi => hok i (by omega))
    rw [seq_state_succ_of_ok _ n st' he]
    exact stomp_iter_inv_of_ok pre data_ref query_ref w ez n _ st' hinv (by omega) he

/-- The states of a run without `NaN` satisfy the invariant. -/
theorem seq_state_inv (pre : MassPre K) (data_ref query_ref : List (Option K))
    (w : Nat) (ez : K) (hnan : NoNaN (stomp_ctx pre data_ref query_ref w ez)) :
    ∀ n : Nat,
    n ≤ (stomp_ctx pre data_ref query_ref w ez).matrix_profile_size →
    n ≤ (stomp_ctx pre data_ref query_ref w ez).num_queries →
    SeqInv (stomp_ctx pre data_ref query_ref w ez) n
      (seq_state (stomp_ctx pre data_ref query_ref w ez) n) := by
  intro n
  induction n with
  | zero => intro _ _; exact stomp_init_inv _
  | succ n ih =>
    intro h1 h2
    obtain ⟨st', he, hinv⟩ := stomp_iter_inv pre data_ref query_ref w ez n _
      (ih (by omega) (by omega)) (by omega) (by omega) hnan
    rw [seq_state_succ_of_ok _ n st' he]
    exact hinv

/-- The distance profile of iteration `n` of the run is the closed form `seqDist`. -/
theorem seq_profile_eq_of_inv (pre : MassPre K) (data_ref query_ref : List (Option K))
    (w : Nat) (ez : K) (n : Nat)
    (hinv : SeqInv (stomp_ctx pre data_ref query_ref w ez) n
      (seq_state (stomp_ctx pre data_ref query_ref w ez) n))
    (h2 : n < (stomp_ctx pre data_ref query_ref w ez).num_queries) :
    seq_profile (stomp_ctx pre data_ref query_ref w ez) n
      = tab (stomp_ctx pre data_ref query_ref w ez).matrix_profile_size
          (seqDist (stomp_ctx pre data_ref query_ref w ez) n) :=
  masked_profile_eq pre data_ref query_ref w ez n _ hinv h2

theorem seq_profile_eq (pre : MassPre K) (data_ref query_ref : List (Option K))
    (w : Nat) (ez : K) (hnan : NoNaN (stomp_ctx pre data_ref query_ref w ez)) (n : Nat)
    (h1 : n < (stomp_ctx pre data_ref query_ref w ez).matrix_profile_size)
    (h2 : n < (stomp_ctx pre data_ref query_ref w ez).num_queries) :
    seq_profile (stomp_ctx pre data_ref query_ref w ez) n
      = tab (stomp_ctx pre data_ref query_ref w ez).matrix_profile_size
          (seqDist (stomp_ctx pre data_ref query_ref w ez) n) :=
  seq_profile_eq_of_inv pre data_ref query_ref w ez n
    (seq_state_inv pre data_ref query_ref w ez hnan n (by omega) (by omega)) h2

/-- A distance profile has no entry past the last reference position. -/
theorem seq_profile_ge (c : StompCtx K) (i j : Nat) (hj : c.matrix_profile_size ≤ j) :
    rdT (seq_profile c i) j = ⊤ := by
  unfold seq_profile masked_profile
  exact rdT_tab_ge _ _ hj

/-- In a loop that returned, started from the state of the run, every iteration before
the first polled interrupt went through. -/
theorem stomp_loop_seq_state (c : StompCtx K) (interrupt : Nat → Bool) :
    ∀ (len s : Nat) (le : LoopEnd K),
      stomp_loop c interrupt (List.range' s len) (seq_state c s) = Except.ok le →
      ∀ i, s ≤ i → i < s + len →
        (∀ m', s ≤ m' → m' ≤ i → ¬ (m' % 100 = 0 ∧ interrupt m' = true)) →
        ∃ st', stomp_iter c i (seq_state c i) = Except.ok st' := by
  intro len
  induction len with
  | zero => intro s le _ i h1 h2; exact absurd h2 (by omega)
  | succ len ih =>
    intro s le h i h1 h2 hno
    rw [List.range'_succ] at h
    simp only [stomp_loop] at h
    rw [if_neg (hno s (le_refl s) h1)] at h
    cases hit : stomp_iter c s (seq_state c s) with
    | error e => rw [hit] at h; simp at h
    | ok st1 =>
      rw [hit] at h
      simp only [] at h
      by_cases his : i = s
      · subst his; exact ⟨st1, hit⟩
      · rw [← seq_state_succ_of_ok c s st1 hit] at h
        exact ih (s + 1) le h i (by omega) (by omega)
          (fun m' hm1 hm2 => hno m' (by omega) hm2)

/-! ## The running minimum -/

/-- What the running minimum and the stored index are after `n` iterations: either no
iteration had a finite distance at `j` and both still hold their initial value, or the
stored index is the first iteration that attains the least distance. -/
theorem seq_spec (c : StompCtx K) (j : Nat) : ∀ n : Nat,
    (seqPI c n j = none ∧ seqMP c n j = ⊤ ∧ ∀ i, i < n → seqDist c i j = ⊤) ∨
    (∃ i, i < n ∧ seqPI c n j = some (i + 1) ∧ seqMP c n j = seqDist c i j
      ∧ seqDist c i j ≠ ⊤ ∧ (∀ i', i' < n → seqDist c i j ≤ seqDist c i' j)
      ∧ (∀ i', i' < i → seqDist c i j < seqDist c i' j)) := by
  intro n
  induction n with
  | zero => left; exact ⟨rfl, rfl, fun i hi => absurd hi (Nat.not_lt_zero i)⟩
  | succ n ih =>
    by_cases hlt : seqDist c n j < seqMP c n j
    · right
      refine ⟨n, Nat.lt_succ_self n, by simp [seqPI, hlt], by simp [seqMP, hlt],
        ne_top_of_lt hlt, ?_, ?_⟩
      · intro i' hi'
        rcases Nat.lt_succ_iff_lt_or_eq.mp hi' with h | h
        · rcases ih with ⟨-, -, h3⟩ | ⟨i, hi, -, h2, -, h4, -⟩
          · rw [h3 i' h]; exact le_top
          · exact le_trans (le_of_lt (h2 ▸ hlt)) (h4 i' h)
        · rw [h]
      · intro i' hi'
        rcases ih with ⟨-, -, h3⟩ | ⟨i, hi, -, h2, -, h4, -⟩
        · rw [h3 i' hi']; exact lt_of_lt_of_le hlt le_top
        · exact lt_of_lt_of_le (h2 ▸ hlt) (h4 i' hi')
    · have hmp : seqMP c (n + 1) j = seqMP c n j := by simp [seqMP, hlt]
      have hpi : seqPI c (n + 1) j = seqPI c n j := by simp [seqPI, hlt]
      rcases ih with ⟨h1, h2, h3⟩ | ⟨i, hi, h1, h2, h3, h4, h5⟩
      · left
        refine ⟨hpi ▸ h1, hmp ▸ h2, ?_⟩
        intro i hi
        rcases Nat.lt_succ_iff_lt_or_eq.mp hi with h | h
        · exact h3 i h
        · rw [h]; rw [h2] at hlt; exact not_lt_top_iff.mp hlt
      · right
        refine ⟨i, Nat.lt_succ_of_lt hi, hpi ▸ h1, hmp ▸ h2, h3, ?_, h5⟩
        intro i' hi'
        rcases Nat.lt_succ_iff_lt_or_eq.mp hi' with h | h
        · exact h4 i' h
        · rw [h]; rw [h2] at hlt; exact not_lt.mp hlt

theorem seqDist_nonneg (c : StompCtx K) (i j : Nat) : (0 : WithTop K) ≤ seqDist c i j := by
  unfold seqDist
  split_ifs
  · exact le_top
  · exact le_top
  · exact le_top
  · exact le_top
  · exact WithTop.coe_le_coe.mpr (le_max_left 0 _)

/-- When query window 0 is at distance 0 of reference window `j`, it is the match that
the loop stores, with distance 0. -/
theorem seq_first_zero (c : StompCtx K) (j n : Nat) (hn : 0 < n)
    (h0 : seqDist c 0 j = ((0 : K) : WithTop K)) :
    seqPI c n j = some 1 ∧ seqMP c n j = ((0 : K) : WithTop K) := by
  rcases seq_spec c j n with ⟨-, -, h3⟩ | ⟨i, hi, h1, h2, -, h4, h5⟩
  · have := h3 0 hn
    rw [h0] at this
    exact absurd this WithTop.coe_ne_top
  · by_cases hi0 : i = 0
    · subst hi0
      exact ⟨h1, by rw [h2, h0]⟩
    · have h := h5 0 (Nat.pos_of_ne_zero hi0)
      rw [h0] at h
      exact absurd h (not_lt.mpr (seqDist_nonneg c i j))

/-! ## Inputs without `NaN`/`Infinity` -/

theorem sanitize_map_some (xs : List K) : sanitize (xs.map some) = xs := by
  simp [sanitize, List.map_map, Function.comp_def]

theorem skip_location_map_some (xs : List K) (w j : Nat) :
    (skip_location (xs.map some) w).getD j false = false := by
  unfold skip_location
  rw [getD_tab]
  split
  · rw [List.any_eq_false]
    intro x hx
    have h1 := List.mem_of_mem_drop (List.mem_of_mem_take hx)
    obtain ⟨y, -, rfl⟩ := List.mem_map.mp h1
    simp
  · rfl

/-! ## The distance formula is the squared z-normalised distance -/

theorem dist_identity (w : Nat) (hw : 0 < w) (a b : Nat → K) (ma mb sa sb : K)
    (hma : ma = (∑ t in range w, a t) / w) (hmb : mb = (∑ t in range w, b t) / w)
    (hsa : sa ^ 2 = (∑ t in range w, (a t - ma) ^ 2) / w)
    (hsb : sb ^ 2 = (∑ t in range w, (b t - mb) ^ 2) / w)
    (hsa0 : sa ≠ 0) (hsb0 : sb ≠ 0) :
    2 * ((w : K) - ((∑ t in range w, a t * b t) - (w : K) * ma * mb) / (sa * sb))
      = ∑ t in range w, ((a t - ma) / sa - (b t - mb) / sb) ^ 2 := by
  have hw0 : (w : K) ≠ 0 := by exact_mod_cast hw.ne'
  have hA : ∑ t in range w, a t = w * ma := by rw [hma]; field_simp
  have hB : ∑ t in range w, b t = w * mb := by rw [hmb]; field_simp
  have hAA : ∑ t in range w, (a t - ma) ^ 2 = w * sa ^ 2 := by rw [hsa]; field_simp
  have hBB : ∑ t in range w, (b t - mb) ^ 2 = w * sb ^ 2 := by rw [hsb]; field_simp
  have hAB : ∑ t in range w, (a t - ma) * (b t - mb)
      = (∑ t in range w, a t * b t) - w * ma * mb := by
    have : ∀ t, (a t - ma) * (b t - mb) = a t * b t - mb * a t - ma * b t + ma * mb := by
      intro t; ring
    simp only [this, Finset.sum_add_distrib, Finset.sum_sub_distrib, ← Finset.mul_sum, hA,
      hB, Finset.sum_const, Finset.card_range, nsmul_eq_mul]
    ring
  have hexp : ∀ t, ((a t - ma) / sa - (b t - mb) / sb) ^ 2
      = (1 / sa ^ 2) * (a t - ma) ^ 2 - (2 / (sa * sb)) * ((a t - ma) * (b t - mb))
        + (1 / sb ^ 2) * (b t - mb) ^ 2 := by
    intro t; field_simp; ring
  simp only [hexp, Finset.sum_add_distrib, Finset.sum_sub_distrib, ← Finset.mul_sum, hAA,
    hBB, hAB]
  field_simp
  ring

theorem DBL_EPSILON_pos : (0 : K) < DBL_EPSILON := by
  unfold DBL_EPSILON; positivity

theorem znormSqDist_nonneg (a b : List K) (w j i : Nat) (sa sb : K) :
    0 ≤ znormSqDist a b w j i sa sb :=
  Finset.sum_nonneg (fun _ _ => sq_nonneg _)

/-- With exact statistics and non-degenerate windows, the distance expression of the
code is the squared z-normalised distance. -/
theorem distFormula_eq_znorm (pre : MassPre K) (data query : List K) (w : Nat)
    (hw : 0 < w) (hstats : StatsExact pre data query w) {i j : Nat}
    (hj : j + w ≤ data.length) (hi : i + w ≤ query.length)
    (hdj : ¬ pre.data_sd j < DBL_EPSILON) (hqi : ¬ pre.query_sd i < DBL_EPSILON) :
    distFormula w (slidingDot data query w j i) (pre.data_mean j) (pre.data_sd j)
        (pre.query_mean i) (pre.query_sd i)
      = znormSqDist data query w j i (pre.data_sd j) (pre.query_sd i) := by
  obtain ⟨hmj, -, hsj⟩ := hstats.1 j hj
  obtain ⟨hmi, -, hsi⟩ := hstats.2 i hi
  have hsj0 : pre.data_sd j ≠ 0 :=
    ne_of_gt (lt_of_lt_of_le DBL_EPSILON_pos (not_lt.mp hdj))
  have hsi0 : pre.query_sd i ≠ 0 :=
    ne_of_gt (lt_of_lt_of_le DBL_EPSILON_pos (not_lt.mp hqi))
  have hid := dist_identity w hw (fun t => rd data (j + t)) (fun t => rd query (i + t))
    (pre.data_mean j) (pre.query_mean i) (pre.data_sd j) (pre.query_sd i)
    (by rw [hmj]; rfl) (by rw [hmi]; rfl)
    (by rw [hsj, hmj]; rfl) (by rw [hsi, hmi]; rfl) hsj0 hsi0
  have hz : znormSqDist data query w j i (pre.data_sd j) (pre.query_sd i)
      = ∑ t in range w, ((rd data (j + t) - pre.data_mean j) / pre.data_sd j
          - (rd query (i + t) - pre.query_mean i) / pre.query_sd i) ^ 2 := by
    rw [hmj, hmi]; rfl
  rw [hz, ← hid]
  rfl

/-- With exact statistics and non-degenerate windows, the clamped distance of the code is
the squared z-normalised distance. -/
theorem cleanDist_eq_znorm (pre : MassPre K) (data query : List K) (w : Nat) (ez : K)
    (hw : 0 < w) (hstats : StatsExact pre data query w) {i j : Nat}
    (hj : j + w ≤ data.length) (hi : i + w ≤ query.length)
    (hdj : ¬ pre.data_sd j < DBL_EPSILON) (hqi : ¬ pre.query_sd i < DBL_EPSILON) :
    cleanDist (stomp_ctx pre (data.map some) (query.map some) w ez) i j
      = znormSqDist data query w j i (pre.data_sd j) (pre.query_sd i) := by
  have hc : cleanDist (stomp_ctx pre (data.map some) (query.map some) w ez) i j
      = max 0 (distFormula w (slidingDot data query w j i) (pre.data_mean j)
          (pre.data_sd j) (pre.query_mean i) (pre.query_sd i)) := by
    simp only [cleanDist, stomp_ctx, sanitize_map_some]
  rw [hc, distFormula_eq_znorm pre data query w hw hstats hj hi hdj hqi]
  exact max_eq_right (znormSqDist_nonneg _ _ _ _ _ _ _)

theorem excluded_iff (pre : MassPre K) (data_ref query_ref : List (Option K))
    (w : Nat) (ez : K) (i j : Nat) (hj : j < data_ref.length - w + 1) :
    excluded (stomp_ctx pre data_ref query_ref w ez) i j ↔ inExclusionZone w ez i j := by
  unfold excluded inExclusionZone
  simp only [stomp_ctx]
  rw [abs_le, le_min_iff]
  constructor
  · rintro ⟨h1, h2, h3, h4⟩
    refine ⟨h1, ?_, ?_⟩ <;> omega
  · rintro ⟨h1, h2, h3⟩
    refine ⟨h1, ?_, ?_, ?_⟩ <;> omega

/-! ## C1: the sequential matrix profile is the least z-normalised distance -/

theorem seqDist_of_eligible (pre : MassPre K) (data query : List K) (w : Nat) (ez : K)
    (hw : 0 < w) (hstats : StatsExact pre data query w) {i j : Nat}
    (hj : j + w ≤ data.length) (hi : i + w ≤ query.length)
    (hel : Eligible pre w ez i j) :
    seqDist (stomp_ctx pre (data.map some) (query.map some) w ez) i j
      = ((znormSqDist data query w j i (pre.data_sd j) (pre.query_sd i) : K)
          : WithTop K) := by
  obtain ⟨hex, hdj, hqi⟩ := hel
  have hjm : j < (data.map some).length - w + 1 := by rw [List.length_map]; omega
  have hex2 : ¬ excluded (stomp_ctx pre (data.map some) (query.map some) w ez) i j :=
    fun h => hex ((excluded_iff pre _ _ w ez i j hjm).mp h)
  have hskip : ∀ m, (stomp_ctx pre (data.map some) (query.map some) w ez).skip_location.getD
      m false = false := fun m => skip_location_map_some data w m
  have hpre : (stomp_ctx pre (data.map some) (query.map some) w ez).pre = pre := rfl
  unfold seqDist
  rw [hskip j, hskip i, hpre]
  simp only [Bool.false_eq_true, if_false, Bool.false_or, decide_eq_true_eq, hqi, hdj, hex2]
  rw [cleanDist_eq_znorm pre data query w ez hw hstats hj hi hdj hqi]

theorem seqDist_of_not_eligible (pre : MassPre K) (data query : List K) (w : Nat) (ez : K)
    {i j : Nat} (hj : j + w ≤ data.length) (hel : ¬ Eligible pre w ez i j) :
    seqDist (stomp_ctx pre (data.map some) (query.map some) w ez) i j = ⊤ := by
  have hjm : j < (data.map some).length - w + 1 := by rw [List.length_map]; omega
  have hpre : (stomp_ctx pre (data.map some) (query.map some) w ez).pre = pre := rfl
  unfold seqDist
  rw [hpre]
  by_cases h1 : pre.query_sd i < DBL_EPSILON
  · simp [h1]
  by_cases h2 : pre.data_sd j < DBL_EPSILON
  · simp [h2]
  by_cases h3 : excluded (stomp_ctx pre (data.map some) (query.map some) w ez) i j
  · simp [h3]
  · exact absurd ⟨fun h => h3 ((excluded_iff pre _ _ w ez i j hjm).mpr h), h2, h1⟩ hel

/-- C1 (amended): for a reference and a query free of NaN/Infinity, exact rolling
statistics and `2 ≤ w ≤ len(query)`: in every result that the uninterrupted `stomp_rcpp`
returns, every `MatrixProfile[j]` is `≥ 0`, is at most the z-normalised Euclidean distance
(the square root of the squared one) to every eligible query window, equals that distance
for some eligible query window when there is one, and is `+∞` when there is none; and the
call returns when `w < len(reference)`, `len(query) ≤ len(reference)` and no window has a
standard deviation of exactly zero. -/
theorem stomp_rcpp_matrix_profile_is_min (sqrt : K → K)
    (hs0 : ∀ x, 0 ≤ x → 0 ≤ sqrt x) (hsm : ∀ x y, 0 ≤ x → x ≤ y → sqrt x ≤ sqrt y)
    (pre : MassPre K) (data query : List K) (w : Nat) (ez : K)
    (hw2 : 2 ≤ w) (hq : w ≤ query.length) (hstats : StatsExact pre data query w) :
    (∀ r, stomp_rcpp sqrt (fun _ => false) pre (data.map some) (query.map some) w ez
        = Except.ok r →
      r.matrix_profile.length = data.length - w + 1
      ∧ ∀ j, j < data.length - w + 1 →
        (0 : WithTop K) ≤ rdT r.matrix_profile j
        ∧ (∀ i, i < query.length - w + 1 → Eligible pre w ez i j →
            rdT r.matrix_profile j ≤
              ((sqrt (znormSqDist data query w j i (pre.data_sd j) (pre.query_sd i)) : K)
                : WithTop K))
        ∧ ((∃ i, i < query.length - w + 1 ∧ Eligible pre w ez i j) →
            ∃ i, i < query.length - w + 1 ∧ Eligible pre w ez i j ∧
              rdT r.matrix_profile j =
                ((sqrt (znormSqDist data query w j i (pre.data_sd j) (pre.query_sd i))
                  : K) : WithTop K))
        ∧ ((∀ i, i < query.length - w + 1 → ¬ Eligible pre w ez i j) →
            rdT r.matrix_profile j = ⊤))
    ∧ (w < data.length → query.length ≤ data.length →
        (∀ j, j + w ≤ data.length → pre.data_sd j ≠ 0) →
        (∀ i, i + w ≤ query.length → pre.query_sd i ≠ 0) →
        ∃ r, stomp_rcpp sqrt (fun _ => false) pre (data.map some) (query.map some) w ez
          = Except.ok r) := by
  refine ⟨fun r hr => ?_, fun hw hqd hd0 hq0 => ?_⟩
  swap
  · exact ⟨_, stomp_rcpp_eq sqrt pre (data.map some) (query.map some) w ez
      (by rw [List.length_map]; exact hw) (by rw [List.length_map]; exact hq)
      (by rw [List.length_map, List.length_map]; exact hqd)
      (noNaN_of_windows pre data query w ez (le_of_lt hw) hq hd0 hq0)⟩
  obtain ⟨hsz, hrun⟩ := stomp_rcpp_ok_run sqrt (fun _ => false) pre (data.map some)
    (query.map some) w ez r hr
  rw [List.length_map] at hsz
  rcases hrun with ⟨-, -, heq⟩ | ⟨m, -, -, -, hm, -⟩
  swap
  · exact absurd hm (by simp)
  rw [List.length_map, List.length_map] at heq
  rw [heq]
  refine ⟨by simp, ?_⟩
  intro j hj
  have hjw : j + w ≤ data.length := by omega
  have hw0 : 0 < w := by omega
  simp only [rdT_tab _ _ hj]
  have hel : ∀ i, i < query.length - w + 1 → Eligible pre w ez i j →
      seqDist (stomp_ctx pre (data.map some) (query.map some) w ez) i j
        = ((znormSqDist data query w j i (pre.data_sd j) (pre.query_sd i) : K)
            : WithTop K) :=
    fun i hi h => seqDist_of_eligible pre data query w ez hw0 hstats hjw (by omega) h
  have hnel : ∀ i, ¬ Eligible pre w ez i j →
      seqDist (stomp_ctx pre (data.map some) (query.map some) w ez) i j = ⊤ :=
    fun i h => seqDist_of_not_eligible pre data query w ez hjw h
  rcases seq_spec (stomp_ctx pre (data.map some) (query.map some) w ez) j
      (query.length - w + 1) with ⟨-, h2, h3⟩ | ⟨i0, hi0, -, h2, h3, h4, -⟩
  · have hnone : ∀ i, i < query.length - w + 1 → ¬ Eligible pre w ez i j := by
      intro i hi h
      have := h3 i hi
      rw [hel i hi h] at this
      exact WithTop.coe_ne_top this
    rw [h2, WithTop.map_top]
    refine ⟨le_top, fun i hi h => absurd h (hnone i hi), ?_, fun _ => rfl⟩
    rintro ⟨i, hi, h⟩
    exact absurd h (hnone i hi)
  · have hel0 : Eligible pre w ez i0 j := by
      by_contra h
      exact h3 (hnel i0 h)
    rw [h2, hel i0 hi0 hel0, WithTop.map_coe]
    refine ⟨?_, ?_, fun _ => ⟨i0, hi0, hel0, rfl⟩, ?_⟩
    · exact WithTop.coe_le_coe.mpr (hs0 _ (znormSqDist_nonneg _ _ _ _ _ _ _))
    · intro i hi h
      have h5 := h4 i hi
      rw [hel i0 hi0 hel0, hel i hi h, WithTop.coe_le_coe] at h5
      exact WithTop.coe_le_coe.mpr (hsm _ _ (znormSqDist_nonneg _ _ _ _ _ _ _) h5)
    · intro h
      exact absurd hel0 (h i0 hi0)

theorem statsHalf_exact : StatsExact (statsHalf : MassPre ℝ) [0, 1, 0] [0, 1] 2 := by
  constructor
  · intro j hj
    have hj2 : j < 2 := by simp at hj; omega
    interval_cases j <;>
      simp [statsHalf, IsWindowSd, windowVar, windowMean, rd, Finset.sum_range_succ] <;>
      norm_num
  · intro i hi
    have hi2 : i < 1 := by simp at hi; omega
    interval_cases i
    simp [statsHalf, IsWindowSd, windowVar, windowMean, rd, Finset.sum_range_succ]
    norm_num

/-! ## `mass3_cpp` computes the sliding dot products -/

theorem rd_drop (l : List K) (j t : Nat) : rd (l.drop j) t = rd l (j + t) := by
  simp [rd, List.getD_eq_getElem?_getD, List.getElem?_drop]

theorem rd_drop_take (l : List K) (j len t : Nat) (h : t < len) :
    rd ((l.drop j).take len) t = rd l (j + t) := by
  rw [rd_take h, rd_drop]

theorem rd_of_length_le (l : List K) (j : Nat) (h : l.length ≤ j) : rd l j = 0 := by
  simp [rd, List.getD_eq_getElem?_getD, List.getElem?_eq_none h]

theorem rd_rev_query (q : List K) (w k s : Nat) :
    rd (rev_query q w k) s = if s < k ∧ s < w then rd q (w - 1 - s) else 0 := by
  unfold rev_query
  by_cases hk : s < k
  · rw [rd_tab _ _ hk]
    by_cases hw : s < w <;> simp [hk, hw]
  · rw [rd_of_length_le _ _ (by simpa using hk)]
    simp [hk]

/-- No wrap-around term of the cyclic convolution reaches the entries
`z[w-1], …, z[len-1]`: entry `w - 1 + i` is the dot product of the query with the chunk
at offset `i`. -/
theorem cyclic_conv_at (q x : List K) (w k len i : Nat) (hw : 1 ≤ w) (hlk : len ≤ k)
    (hi : i + w ≤ len) :
    rd (cyclic_conv len x ((rev_query q w k).take len)) (w - 1 + i)
      = ∑ t in range w, rd x (i + t) * rd q t := by
  unfold cyclic_conv
  rw [rd_tab _ _ (by omega)]
  have hsub : range w ⊆ range len := Finset.range_subset.mpr (by omega)
  rw [← Finset.sum_subset hsub]
  · rw [← Finset.sum_range_reflect (fun t => rd x (i + t) * rd q t) w]
    apply Finset.sum_congr rfl
    intro s hs
    have hs' : s < w := Finset.mem_range.mp hs
    rw [rd_take (by omega), rd_rev_query, if_pos ⟨by omega, hs'⟩]
    have hidx : (w - 1 + i + len - s) % len = i + (w - 1 - s) := by
      rw [show w - 1 + i + len - s = i + (w - 1 - s) + len by omega, Nat.add_mod_right]
      exact Nat.mod_eq_of_lt (by omega)
    rw [hidx, mul_comm]
  · intro s hs hns
    have hs1 : s < len := Finset.mem_range.mp hs
    have hs2 : ¬ s < w := fun h => hns (Finset.mem_range.mpr h)
    rw [rd_take hs1, rd_rev_query]
    simp [hs2]

theorem rd_write_block (v : List K) (j n : Nat) (src : Nat → K) (p : Nat)
    (hp : p < v.length) :
    rd (write_block v j n src) p = if j ≤ p ∧ p < j + n then src (p - j) else rd v p := by
  unfold write_block
  rw [rd_tab _ _ hp]

omit [FloorRing K] in
@[simp] theorem length_write_block (v : List K) (j n : Nat) (src : Nat → K) :
    (write_block v j n src).length = v.length := by
  simp [write_block]


theorem mass3_block_good (q data : List K) (w k : Nat) (data_mean data_sd : Nat → K)
    (query_mean query_sd : K) (P j len : Nat) (acc : MassOut K)
    (hw : 1 ≤ w) (hwl : w ≤ len) (hlk : len ≤ k)
    (hacc : MassGood q data w data_mean data_sd query_mean query_sd P j acc) :
    MassGood q data w data_mean data_sd query_mean query_sd P (j + (len - w + 1))
      (mass3_block (rev_query q w k) data w data_mean data_sd query_mean query_sd j len
        acc) := by
  obtain ⟨hl1, hl2, hval⟩ := hacc
  have hz : ∀ p, j ≤ p → p < j + (len - w + 1) →
      rd (cyclic_conv len ((data.drop j).take len) ((rev_query q w k).take len))
          (w - 1 + (p - j)) = slidingDot data q w p 0 := by
    intro p hp1 hp2
    rw [cyclic_conv_at q _ w k len (p - j) hw hlk (by omega)]
    unfold slidingDot
    apply Finset.sum_congr rfl
    intro t ht
    have ht' : t < w := Finset.mem_range.mp ht
    rw [rd_drop_take _ _ _ _ (by omega), Nat.zero_add,
      show j + (p - j + t) = p + t by omega]
  refine ⟨by simp [mass3_block, hl1], by simp [mass3_block, hl2], ?_⟩
  intro p hp hpP
  simp only [mass3_block]
  rw [rd_write_block _ _ _ _ _ (by omega), rd_write_block _ _ _ _ _ (by omega)]
  by_cases hin : j ≤ p ∧ p < j + (len - w + 1)
  · rw [if_pos hin, if_pos hin, hz p hin.1 hin.2, show j + (p - j) = p by omega]
    exact ⟨rfl, rfl⟩
  · rw [if_neg hin, if_neg hin]
    exact hval p (by omega) hpP

/-- The block loop keeps the finished part of the output final, leaves with
`seq_end < j` when given `seq_end + 1 - j` iterations, and never passes
`seq_end + jump`. -/
theorem mass3_loop_good (q data : List K) (w k : Nat) (data_mean data_sd : Nat → K)
    (query_mean query_sd : K) (P seq_end : Nat) (hw : 1 ≤ w) (hwk : w ≤ k) :
    ∀ (fuel j : Nat) (acc : MassOut K),
      MassGood q data w data_mean data_sd query_mean query_sd P j acc →
      j ≤ seq_end + (k - w + 1) → seq_end + 1 - j ≤ fuel →
      MassGood q data w data_mean data_sd query_mean query_sd P
          (mass3_loop (rev_query q w k) data w data_mean data_sd query_mean query_sd k
            seq_end fuel j acc).1
          (mass3_loop (rev_query q w k) data w data_mean data_sd query_mean query_sd k
            seq_end fuel j acc).2
        ∧ seq_end < (mass3_loop (rev_query q w k) data w data_mean data_sd query_mean
            query_sd k seq_end fuel j acc).1
        ∧ (mass3_loop (rev_query q w k) data w data_mean data_sd query_mean
            query_sd k seq_end fuel j acc).1 ≤ seq_end + (k - w + 1) := by
  intro fuel
  induction fuel with
  | zero =>
    intro j acc hacc hj hf
    exact ⟨hacc, by simp only [mass3_loop]; omega, hj⟩
  | succ fuel ih =>
    intro j acc hacc hj hf
    by_cases hle : j ≤ seq_end
    · simp only [mass3_loop, hle, if_true]
      exact ih (j + (k - w + 1)) _
        (mass3_block_good q data w k data_mean data_sd query_mean query_sd P j k acc hw hwk
          (le_refl k) hacc) (by omega) (by omega)
    · simp only [mass3_loop, hle, if_false]
      exact ⟨hacc, by omega, hj⟩

/-- **Correctness of `mass3_cpp`** for a block size `k` with `w ≤ k ≤ d_size`: every
output position holds the dot product of the query with the corresponding window of the
data, and the distance of lines 202-204 computed from it. -/
theorem mass3_cpp_good (set_k_rcpp : Nat → Nat → Nat → Nat) (q data : List K)
    (d w : Nat) (data_mean data_sd : Nat → K) (query_mean query_sd : K) (k0 : Nat)
    (hw : 1 ≤ w) (hwk : w ≤ set_k_rcpp k0 d w) (hkd : set_k_rcpp k0 d w ≤ d) :
    MassGood q data w data_mean data_sd query_mean query_sd (d - w + 1) (d - w + 1)
      (mass3_cpp set_k_rcpp q data d w data_mean data_sd query_mean query_sd k0) := by
  have hinit : MassGood q data w data_mean data_sd query_mean query_sd (d - w + 1) 0
      { distance_profile := tab (d - w + 1) (fun _ => 0),
        last_product := tab (d - w + 1) (fun _ => 0) } :=
    ⟨by simp, by simp, fun p hp _ => absurd hp (Nat.not_lt_zero p)⟩
  obtain ⟨hg, hlt, hle⟩ := mass3_loop_good q data w (set_k_rcpp k0 d w) data_mean data_sd
    query_mean query_sd (d - w + 1) (d - set_k_rcpp k0 d w) hw hwk
    (d - set_k_rcpp k0 d w + 1) 0 _ hinit (by omega) (by omega)
  unfold mass3_cpp
  simp only []
  generalize mass3_loop (rev_query q w (set_k_rcpp k0 d w)) data w data_mean data_sd
    query_mean query_sd (set_k_rcpp k0 d w) (d - set_k_rcpp k0 d w)
    (d - set_k_rcpp k0 d w + 1) 0 _ = r at hg hlt hle ⊢
  by_cases hj : w ≤ d - r.1
  · have hchk : ¬ d - w + 1 < d - r.1 - (w - 1) + r.1 := by omega
    rw [if_pos hj, if_neg hchk]
    have hb := mass3_block_good q data w (set_k_rcpp k0 d w) data_mean data_sd query_mean
      query_sd (d - w + 1) r.1 (d - r.1) r.2 hw hj (by omega) hg
    rw [show r.1 + (d - r.1 - w + 1) = d - w + 1 by omega] at hb
    exact hb
  · rw [if_neg hj]
    refine ⟨hg.1, hg.2.1, fun p _ hpP => hg.2.2 p (by omega) hpP⟩

/-! ## The in-place recurrence loop of the worker -/

theorem rd_set (l : List K) (i p : Nat) (v : K) :
    rd (l.set i v) p = if i = p ∧ i < l.length then v else rd l p := by
  unfold rd
  rw [List.getD_eq_getElem?_getD, List.getD_eq_getElem?_getD, List.getElem?_set]
  by_cases h1 : i = p
  · subst h1
    by_cases h2 : i < l.length
    · simp [h2]
    · simp [h2, List.getElem?_eq_none (not_lt.mp h2)]
  · simp [h1]

theorem getElem?_eq_rd {l : List K} {p : Nat} (h : p < l.length) :
    l[p]? = some (rd l p) := by
  simp [rd, List.getD_eq_getElem?_getD, List.getElem?_eq_getElem h]

theorem eq_tab_of_rd (l : List K) (n : Nat) (f : Nat → K) (hl : l.length = n)
    (h : ∀ p, p < n → rd l p = f p) : l = tab n f := by
  apply List.ext_getElem?
  intro p
  by_cases hp : p < n
  · rw [getElem?_eq_rd (hl ▸ hp), h p hp]
    simp [tab, List.getElem?_map, List.getElem?_range hp]
  · have hp' : n ≤ p := not_lt.mp hp
    rw [List.getElem?_eq_none (by rw [hl]; exact hp'),
      List.getElem?_eq_none (by rw [length_tab]; exact hp')]

/-- The descending in-place loop reads only entries it has not yet overwritten: after
the iterations `j = n, …, 1` every position `1 ≤ p ≤ n` holds the recurrence value built
from the old vector, and the other positions are untouched. -/
theorem worker_recurrence_spec (c : WorkerCtx K) (i : Nat) (drop : K) :
    ∀ (n : Nat) (lp : List K), n < lp.length →
      (worker_recurrence c i drop n lp).length = lp.length ∧
      ∀ p, rd (worker_recurrence c i drop n lp) p
        = if 1 ≤ p ∧ p ≤ n then
            rd lp (p - 1) - rd c.data_ref (p - 1) * drop
              + rd c.data_ref (c.w_size + p - 1) * rd c.window_ref (i + c.w_size - 1)
          else rd lp p := by
  intro n
  induction n with
  | zero =>
    intro lp _
    refine ⟨rfl, fun p => ?_⟩
    have : ¬ (1 ≤ p ∧ p ≤ 0) := by omega
    simp only [worker_recurrence, this, if_false]
  | succ n ih =>
    intro lp hn
    simp only [worker_recurrence]
    obtain ⟨hlen, hval⟩ := ih (lp.set (n + 1) (rd lp n - rd c.data_ref n * drop
      + rd c.data_ref (c.w_size + (n + 1) - 1) * rd c.window_ref (i + c.w_size - 1)))
      (by rw [List.length_set]; omega)
    refine ⟨by rw [hlen, List.length_set], fun p => ?_⟩
    rw [hval p]
    by_cases h1 : 1 ≤ p ∧ p ≤ n
    · have h2 : 1 ≤ p ∧ p ≤ n + 1 := ⟨h1.1, by omega⟩
      have h3 : ¬ (n + 1 = p - 1 ∧ n + 1 < lp.length) := by omega
      rw [if_pos h1, if_pos h2, rd_set, if_neg h3]
    · rw [if_neg h1, rd_set]
      by_cases h4 : p = n + 1
      · subst h4
        have h5 : 1 ≤ n + 1 ∧ n + 1 ≤ n + 1 := by omega
        rw [if_pos ⟨rfl, hn⟩, if_pos h5]
        simp
      · have h6 : ¬ (n + 1 = p ∧ n + 1 < lp.length) := by omega
        have h7 : ¬ (1 ≤ p ∧ p ≤ n + 1) := by omega
        rw [if_neg h6, if_neg h7]

/-- The in-place update of the worker (lines 346-351) in closed form. -/
theorem worker_last_product_eq (c : WorkerCtx K) (i : Nat) (st : WorkerState K)
    (hlen : st.last_product.length = c.size) (hsize : 0 < c.size) :
    worker_last_product c i st = tab c.size (fun j =>
      if j = 0 then rd c.first_product i
      else rd st.last_product (j - 1) - rd c.data_ref (j - 1) * st.drop_value
        + rd c.data_ref (c.w_size + j - 1) * rd c.window_ref (i + c.w_size - 1)) := by
  obtain ⟨hl, hval⟩ := worker_recurrence_spec c i st.drop_value (c.size - 1)
    st.last_product (by omega)
  unfold worker_last_product
  apply eq_tab_of_rd _ _ _ (by rw [List.length_set, hl, hlen])
  intro p hp
  rw [rd_set, hval p]
  by_cases hp0 : p = 0
  · subst hp0
    have : (0 : Nat) = 0 ∧ 0 < (worker_recurrence c i st.drop_value (c.size - 1)
        st.last_product).length := ⟨rfl, by rw [hl, hlen]; exact hsize⟩
    rw [if_pos this, if_pos rfl]
  · have h1 : ¬ ((0 : Nat) = p ∧ 0 < (worker_recurrence c i st.drop_value (c.size - 1)
        st.last_product).length) := fun h => hp0 h.1.symm
    have h2 : 1 ≤ p ∧ p ≤ c.size - 1 := by omega
    rw [if_neg h1, if_pos h2, if_neg hp0]

/-! ## The loop of the worker computes the closed forms -/

theorem slidingDot_drop (a b : List K) (w j s : Nat) :
    slidingDot a (b.drop s) w j 0 = slidingDot a b w j s := by
  unfold slidingDot
  apply Finset.sum_congr rfl
  intro t _
  rw [rd_drop, Nat.zero_add]

theorem clamp_pos_eq (x : K) :
    (if 0 < x then ((x : K) : WithTop K) else ((0 : K) : WithTop K))
      = ((max 0 x : K) : WithTop K) := by
  by_cases h : 0 < x
  · rw [if_pos h, max_eq_right (le_of_lt h)]
  · rw [if_neg h, max_eq_left (not_lt.mp h)]

/-- The seed of a block: the vectors returned by `mass3_cpp` for the block's first
query window. -/
theorem worker_seed (c : WorkerCtx K) (nq begin k : Nat) (hok : WorkerOk c nq) :
    MassGood (c.window_ref.drop begin) c.data_ref c.w_size c.d_mean c.d_std
      (c.q_mean begin) (c.q_std begin) c.size c.size
      (mass3_cpp c.set_k_rcpp (c.window_ref.drop begin) c.data_ref c.d_size c.w_size
        c.d_mean c.d_std (c.q_mean begin) (c.q_std begin) k) := by
  obtain ⟨hw, hsize, hset, -⟩ := hok
  rw [hsize]
  exact mass3_cpp_good c.set_k_rcpp _ _ _ _ _ _ _ _ k hw (hset k).1 (hset k).2

theorem worker_iter_inv (c : WorkerCtx K) (nq begin k n : Nat) (st : WorkerState K)
    (hok : WorkerOk c nq) (hn : begin + n < nq)
    (hinv : WorkerInv c begin n st) :
    WorkerInv c begin (n + 1)
      (worker_iter c (mass3_cpp c.set_k_rcpp (c.window_ref.drop begin) c.data_ref c.d_size
        c.w_size c.d_mean c.d_std (c.q_mean begin) (c.q_std begin) k) begin (begin + n)
        st) := by
  obtain ⟨-, -, hseed⟩ := worker_seed c nq begin k hok
  obtain ⟨hw, hsize, hset, hfp⟩ := hok
  obtain ⟨hlp, hdrop, hmp, hpi⟩ := hinv
  have hpos : 0 < c.size := by omega
  -- the dot products and the distance profile of this iteration
  have hlast : (worker_iter c (mass3_cpp c.set_k_rcpp (c.window_ref.drop begin) c.data_ref
      c.d_size c.w_size c.d_mean c.d_std (c.q_mean begin) (c.q_std begin) k) begin
      (begin + n) st).last_product
      = tab c.size (fun j => slidingDot c.data_ref c.window_ref c.w_size j (begin + n)) := by
    by_cases h0 : n = 0
    · subst h0
      simp only [worker_iter, Nat.add_zero, if_true]
      apply tab_congr
      intro j hj
      rw [(hseed j hj hj).1, slidingDot_drop]
    · have hne : begin + n ≠ begin := by omega
      have hn0 : 0 < n := Nat.pos_of_ne_zero h0
      simp only [worker_iter, hne, if_false]
      rw [worker_last_product_eq c _ st (by rw [hlp hn0, length_tab]) hpos]
      apply tab_congr
      intro j hj
      by_cases hj0 : j = 0
      · subst hj0
        rw [if_pos rfl]
        exact hfp _ hn
      · rw [if_neg hj0, hlp hn0, hdrop hn0, rd_tab _ _ (by omega)]
        have h := slidingDot_succ c.data_ref c.window_ref c.w_size (j - 1) (begin + n - 1)
        rw [show j - 1 + 1 = j by omega, show begin + n - 1 + 1 = begin + n by omega,
          show j - 1 + c.w_size = c.w_size + j - 1 by omega,
          show begin + n - 1 + c.w_size = begin + n + c.w_size - 1 by omega] at h
        exact h
  have hdist : (worker_iter c (mass3_cpp c.set_k_rcpp (c.window_ref.drop begin) c.data_ref
      c.d_size c.w_size c.d_mean c.d_std (c.q_mean begin) (c.q_std begin) k) begin
      (begin + n) st).distance_profile
      = tab c.size (workerDist c begin (begin + n)) := by
    by_cases h0 : n = 0
    · subst h0
      simp only [worker_iter, Nat.add_zero, if_true]
      apply tab_congr
      intro j hj
      rw [(hseed j hj hj).2, slidingDot_drop]
      simp only [workerDist, if_true]
    · have hne : begin + n ≠ begin := by omega
      have hl2 := hlast
      simp only [worker_iter, hne, if_false] at hl2 ⊢
      rw [hl2]
      unfold worker_profile
      apply tab_congr
      intro j hj
      rw [rd_tab _ _ hj, clamp_pos_eq]
      simp only [workerDist, hne, if_false]
  refine ⟨fun _ => ?_, fun _ => ?_, ?_, ?_⟩
  · rw [hlast, show begin + (n + 1) - 1 = begin + n by omega]
  · simp only [worker_iter]
    rw [show begin + (n + 1) - 1 = begin + n by omega]
  · have : (worker_iter c (mass3_cpp c.set_k_rcpp (c.window_ref.drop begin) c.data_ref
        c.d_size c.w_size c.d_mean c.d_std (c.q_mean begin) (c.q_std begin) k) begin
        (begin + n) st).matrix_profile
        = tab c.size (fun j =>
            if rdT (worker_iter c (mass3_cpp c.set_k_rcpp (c.window_ref.drop begin)
                c.data_ref c.d_size c.w_size c.d_mean c.d_std (c.q_mean begin)
                (c.q_std begin) k) begin (begin + n) st).distance_profile j
                < rdT st.matrix_profile j
            then rdT (worker_iter c (mass3_cpp c.set_k_rcpp (c.window_ref.drop begin)
                c.data_ref c.d_size c.w_size c.d_mean c.d_std (c.q_mean begin)
                (c.q_std begin) k) begin (begin + n) st).distance_profile j
            else rdT st.matrix_profile j) := rfl
    rw [this, hdist, hmp]
    apply tab_congr
    intro j hj
    rw [rdT_tab _ _ hj, rdT_tab _ _ hj]
    rfl
  · have : (worker_iter c (mass3_cpp c.set_k_rcpp (c.window_ref.drop begin) c.data_ref
        c.d_size c.w_size c.d_mean c.d_std (c.q_mean begin) (c.q_std begin) k) begin
        (begin + n) st).profile_index
        = tab c.size (fun j =>
            if rdT (worker_iter c (mass3_cpp c.set_k_rcpp (c.window_ref.drop begin)
                c.data_ref c.d_size c.w_size c.d_mean c.d_std (c.q_mean begin)
                (c.q_std begin) k) begin (begin + n) st).distance_profile j
                < rdT st.matrix_profile j
            then some (begin + n + 1)
            else rdI st.profile_index j) := rfl
    rw [this, hdist, hmp, hpi]
    apply tab_congr
    intro j hj
    rw [rdT_tab _ _ hj, rdT_tab _ _ hj, rdI_tab _ _ hj]
    rfl

theorem worker_init_inv (c : WorkerCtx K) (begin : Nat) :
    WorkerInv c begin 0 (worker_init c) :=
  ⟨fun h => absurd h (lt_irrefl 0), fun h => absurd h (lt_irrefl 0),
    tab_congr (fun _ _ => rfl), tab_congr (fun _ _ => rfl)⟩

theorem worker_loop_inv (c : WorkerCtx K) (nq begin k : Nat) (hok : WorkerOk c nq) :
    ∀ (len n : Nat) (st : WorkerState K), WorkerInv c begin n st →
      begin + n + len ≤ nq →
      WorkerInv c begin (n + len)
        (worker_loop c (mass3_cpp c.set_k_rcpp (c.window_ref.drop begin) c.data_ref
          c.d_size c.w_size c.d_mean c.d_std (c.q_mean begin) (c.q_std begin) k) begin
          (List.range' (begin + n) len) st) := by
  intro len
  induction len with
  | zero => intro n st hinv _; exact hinv
  | succ len ih =>
    intro n st hinv hle
    rw [List.range'_succ]
    simp only [worker_loop]
    have h1 := worker_iter_inv c nq begin k n st hok (by omega) hinv
    have h2 := ih (n + 1) _ h1 (by omega)
    rw [show begin + (n + 1) = begin + n + 1 by omega,
      show n + 1 + len = n + (len + 1) by omega] at h2
    exact h2

/-- **Refinement of the worker.** A block `[begin, end)` longer than the window merges
into the shared vectors the running minimum of its own distances `workerDist`. -/
theorem stomp_worker_eq (c : WorkerCtx K) (nq begin end_ : Nat) (sh : Shared K)
    (hok : WorkerOk c nq) (hlong : c.w_size < end_ - begin) (hend : end_ ≤ nq) :
    stomp_worker c begin end_ sh
      = worker_merge c.size
          (tab c.size (contMP (workerDist c begin) begin (fun _ => ⊤) (end_ - begin)))
          (tab c.size (contPI (workerDist c begin) begin (fun _ => ⊤) (fun _ => none)
            (end_ - begin))) sh := by
  have hrej : ¬ end_ - begin ≤ c.w_size := by omega
  have h := worker_loop_inv c nq begin
    (c.set_k_rcpp (c.w_size * 2) (end_ - begin) c.w_size) hok (end_ - begin) 0
    (worker_init c) (worker_init_inv c begin) (by omega)
  obtain ⟨-, -, hmp, hpi⟩ := h
  rw [Nat.add_zero, Nat.zero_add] at hmp hpi
  unfold stomp_worker
  simp only [hrej, if_false]
  rw [hmp, hpi]

/-! ## Merging block results -/

theorem upd_merge {α β : Type} [LinearOrder α] (d y x : α) (a b c : β) :
    (if (if d < y then d else y) < x then (if d < y then a else b) else c)
      = (if d < (if y < x then y else x) then a else (if y < x then b else c)) := by
  by_cases h1 : d < y <;> by_cases h2 : y < x <;> by_cases h3 : d < x <;>
    simp only [h1, h2, h3, if_true, if_false]
  · exact absurd (lt_trans h1 h2) h3
  · exact absurd (lt_of_lt_of_le h3 (not_lt.mp h2)) h1

theorem ite_lt_eq_min {α : Type} [LinearOrder α] (a b : α) :
    (if a < b then a else b) = min a b := by
  by_cases h : a < b
  · rw [if_pos h, min_eq_left (le_of_lt h)]
  · rw [if_neg h, min_eq_right (not_lt.mp h)]

/-- Merging the result of a block that ran on fresh buffers into a shared state is the
same as running the block's iterations on the shared state. -/
theorem cont_merge (D : Nat → Nat → WithTop K) (s : Nat) (m0 : Nat → WithTop K)
    (i0 : Nat → Option Nat) (j : Nat) : ∀ n : Nat,
    (if contMP D s (fun _ => ⊤) n j < m0 j then contMP D s (fun _ => ⊤) n j else m0 j)
        = contMP D s m0 n j ∧
    (if contMP D s (fun _ => ⊤) n j < m0 j
        then contPI D s (fun _ => ⊤) (fun _ => none) n j else i0 j)
        = contPI D s m0 i0 n j := by
  intro n
  induction n with
  | zero =>
    have h : ¬ (⊤ : WithTop K) < m0 j := not_top_lt
    simp only [contMP, contPI, h, if_false, and_self]
  | succ n ih =>
    obtain ⟨ih1, ih2⟩ := ih
    simp only [contMP, contPI]
    rw [← ih1, ← ih2]
    exact ⟨upd_merge _ _ _ _ _ _, upd_merge _ _ _ _ _ _⟩

theorem cont_append (D : Nat → Nat → WithTop K) (s n1 : Nat) (m0 : Nat → WithTop K)
    (i0 : Nat → Option Nat) (j : Nat) : ∀ n2 : Nat,
    contMP D s m0 (n1 + n2) j = contMP D (s + n1) (contMP D s m0 n1) n2 j ∧
    contPI D s m0 i0 (n1 + n2) j
      = contPI D (s + n1) (contMP D s m0 n1) (contPI D s m0 i0 n1) n2 j := by
  intro n2
  induction n2 with
  | zero => exact ⟨rfl, rfl⟩
  | succ n2 ih =>
    obtain ⟨ih1, ih2⟩ := ih
    rw [← Nat.add_assoc]
    simp only [contMP, contPI]
    rw [ih1, ih2, Nat.add_assoc s n1 n2]
    exact ⟨rfl, rfl⟩

theorem cont_congr (D D' : Nat → Nat → WithTop K) (s : Nat) (m0 : Nat → WithTop K)
    (i0 : Nat → Option Nat) (j : Nat) : ∀ n : Nat,
    (∀ i, s ≤ i → i < s + n → D i j = D' i j) →
    contMP D s m0 n j = contMP D' s m0 n j ∧ contPI D s m0 i0 n j = contPI D' s m0 i0 n j := by
  intro n
  induction n with
  | zero => intro _; exact ⟨rfl, rfl⟩
  | succ n ih =>
    intro h
    obtain ⟨ih1, ih2⟩ := ih (fun i h1 h2 => h i h1 (by omega))
    simp only [contMP, contPI]
    rw [ih1, ih2, h (s + n) (by omega) (by omega)]
    exact ⟨rfl, rfl⟩

theorem seq_eq_cont (c : StompCtx K) (j : Nat) : ∀ n : Nat,
    seqMP c n j = contMP (seqDist c) 0 (fun _ => ⊤) n j ∧
    seqPI c n j = contPI (seqDist c) 0 (fun _ => ⊤) (fun _ => none) n j := by
  intro n
  induction n with
  | zero => exact ⟨rfl, rfl⟩
  | succ n ih =>
    obtain ⟨ih1, ih2⟩ := ih
    simp only [seqMP, seqPI, contMP, contPI, Nat.zero_add]
    rw [ih1, ih2]
    exact ⟨rfl, rfl⟩

/-- The merge of lines 384-391 on vectors given by their entries. -/
theorem worker_merge_tab (n : Nat) (bm M : Nat → WithTop K) (bp I : Nat → Option Nat) :
    worker_merge n (tab n bm) (tab n bp) { mp := tab n M, pi := tab n I }
      = { mp := tab n (fun j => if bm j < M j then bm j else M j)
          pi := tab n (fun j => if bm j < M j then bp j else I j) } := by
  unfold worker_merge
  congr 1
  · apply tab_congr
    intro j hj
    simp only [rdT_tab _ _ hj]
  · apply tab_congr
    intro j hj
    simp only [rdT_tab _ _ hj, rdI_tab _ _ hj]

/-! ## The merge order does not change the shared `mp` -/

theorem stomp_worker_mp (c : WorkerCtx K) (begin end_ : Nat) (sh : Shared K) :
    (stomp_worker c begin end_ sh).mp
      = if end_ - begin ≤ c.w_size then sh.mp
        else tab c.size (fun j =>
          min (rdT (block_state c begin end_).matrix_profile j) (rdT sh.mp j)) := by
  unfold stomp_worker
  by_cases h : end_ - begin ≤ c.w_size
  · simp only [h, if_true]
  · simp only [h, if_false, worker_merge, block_state, ite_lt_eq_min]

theorem merge_mp_eq (c : WorkerCtx K) (m : List (WithTop K)) (b : Nat × Nat) :
    merge_mp c m b
      = if b.2 - b.1 ≤ c.w_size then m
        else tab c.size (fun j =>
          min (rdT (block_state c b.1 b.2).matrix_profile j) (rdT m j)) := by
  unfold merge_mp
  rw [stomp_worker_mp]

theorem merge_mp_comm (c : WorkerCtx K) (m : List (WithTop K)) (x y : Nat × Nat) :
    merge_mp c (merge_mp c m x) y = merge_mp c (merge_mp c m y) x := by
  simp only [merge_mp_eq]
  by_cases hx : x.2 - x.1 ≤ c.w_size <;> by_cases hy : y.2 - y.1 ≤ c.w_size <;>
    simp only [hx, hy, if_true, if_false]
  apply tab_congr
  intro j hj
  rw [rdT_tab _ _ hj, rdT_tab _ _ hj, min_left_comm]

theorem foldl_worker_mp (c : WorkerCtx K) : ∀ (blocks : List (Nat × Nat)) (sh : Shared K),
    (blocks.foldl (fun sh b => stomp_worker c b.1 b.2 sh) sh).mp
      = blocks.foldl (merge_mp c) sh.mp := by
  intro blocks
  induction blocks with
  | nil => intro sh; rfl
  | cons b rest ih =>
    intro sh
    simp only [List.foldl_cons]
    rw [ih]
    congr 1
    rw [merge_mp_eq, stomp_worker_mp]

/-- Whatever the order in which the blocks are merged, the shared `mp` is the same. -/
theorem foldl_worker_mp_perm (c : WorkerCtx K) (blocks sorted : List (Nat × Nat))
    (hperm : List.Perm blocks sorted) (sh : Shared K) :
    (blocks.foldl (fun sh b => stomp_worker c b.1 b.2 sh) sh).mp
      = (sorted.foldl (fun sh b => stomp_worker c b.1 b.2 sh) sh).mp := by
  rw [foldl_worker_mp, foldl_worker_mp]
  exact List.Perm.foldl_eq' hperm (fun x _ y _ z => merge_mp_comm c z x y) sh.mp

/-! ## C2: the parallel computation against the sequential one -/

theorem contiguous_le : ∀ (l : List (Nat × Nat)) (s e : Nat), Contiguous s e l → s ≤ e := by
  intro l
  induction l with
  | nil => intro s e h; exact le_of_eq h
  | cons b rest ih =>
    intro s e h
    obtain ⟨h1, h2, h3⟩ := h
    have := ih b.2 e h3
    omega

theorem contiguous_mem : ∀ (l : List (Nat × Nat)) (s e : Nat), Contiguous s e l →
    ∀ b, b ∈ l → s ≤ b.1 ∧ b.1 < b.2 ∧ b.2 ≤ e := by
  intro l
  induction l with
  | nil => intro s e _ b hb; exact absurd hb (List.not_mem_nil b)
  | cons a rest ih =>
    intro s e h b hb
    obtain ⟨h1, h2, h3⟩ := h
    rcases List.mem_cons.mp hb with rfl | hb'
    · exact ⟨le_of_eq h1.symm, h2, contiguous_le rest _ e h3⟩
    · obtain ⟨g1, g2, g3⟩ := ih a.2 e h3 b hb'
      exact ⟨by omega, g2, g3⟩

theorem parallel_ctx_ok (set_k_rcpp : Nat → Nat → Nat → Nat) (pre : MassPre K)
    (data_ref query_ref : List (Option K)) (w : Nat) (ez : K) (hw : 1 ≤ w)
    (hset : ∀ k0, w ≤ set_k_rcpp k0 data_ref.length w
      ∧ set_k_rcpp k0 data_ref.length w ≤ data_ref.length) :
    WorkerOk (parallel_ctx set_k_rcpp pre data_ref query_ref w ez)
      (query_ref.length - w + 1) :=
  ⟨hw, rfl, hset, fun _ hi => ctx_first_product pre data_ref query_ref w ez hi⟩

/-- Without NaN/Infinity, with exact statistics, no degenerate window and a zero
exclusion radius, every iteration of a worker block sees the same distances as the
sequential loop. -/
theorem workerDist_eq_seqDist (set_k_rcpp : Nat → Nat → Nat → Nat) (pre : MassPre K)
    (data query : List K) (w : Nat) (ez : K) (hw : 0 < w)
    (hstats : StatsExact pre data query w)
    (hdsd : ∀ j, j + w ≤ data.length → ¬ pre.data_sd j < DBL_EPSILON)
    (hqsd : ∀ i, i + w ≤ query.length → ¬ pre.query_sd i < DBL_EPSILON)
    (hez : exclusion_zone w ez ≤ 0) (begin : Nat) {i j : Nat}
    (hj : j + w ≤ data.length) (hi : i + w ≤ query.length) :
    workerDist (parallel_ctx set_k_rcpp pre (data.map some) (query.map some) w ez)
        begin i j
      = seqDist (stomp_ctx pre (data.map some) (query.map some) w ez) i j := by
  have hel : Eligible pre w ez i j :=
    ⟨fun h => absurd h.1 (not_lt.mpr hez), hdsd j hj, hqsd i hi⟩
  rw [seqDist_of_eligible pre data query w ez hw hstats hj hi hel]
  have hF := distFormula_eq_znorm pre data query w hw hstats hj hi (hdsd j hj) (hqsd i hi)
  have hskip : (skip_location (data.map some) w).getD j false = false :=
    skip_location_map_some data w j
  have hez0 : (exclusion_zone w ez).toNat = 0 := Int.toNat_eq_zero.mpr hez
  simp only [workerDist, parallel_ctx, sanitize_map_some, hF, hskip, hez0, true_or,
    and_self, if_true]
  rw [max_eq_right (znormSqDist_nonneg _ _ _ _ _ _ _)]
  simp

/-- Merged in ascending order, the blocks of a partition into blocks longer than the
window reproduce the state of the sequential loop. -/
theorem parallel_fold_sorted (set_k_rcpp : Nat → Nat → Nat → Nat) (pre : MassPre K)
    (data query : List K) (w : Nat) (ez : K) (hw : 0 < w) (hwd : w ≤ data.length)
    (hwq : w ≤ query.length) (hstats : StatsExact pre data query w)
    (hdsd : ∀ j, j + w ≤ data.length → ¬ pre.data_sd j < DBL_EPSILON)
    (hqsd : ∀ i, i + w ≤ query.length → ¬ pre.query_sd i < DBL_EPSILON)
    (hez : exclusion_zone w ez ≤ 0)
    (hset : ∀ k0, w ≤ set_k_rcpp k0 data.length w ∧ set_k_rcpp k0 data.length w
      ≤ data.length) (e : Nat) (he : e ≤ query.length - w + 1) :
    ∀ (blocks : List (Nat × Nat)) (s : Nat), Contiguous s e blocks →
      (∀ b, b ∈ blocks → w < b.2 - b.1) →
      blocks.foldl (fun sh b => stomp_worker
          (parallel_ctx set_k_rcpp pre (data.map some) (query.map some) w ez) b.1 b.2 sh)
        { mp := tab (data.length - w + 1)
            (contMP (seqDist (stomp_ctx pre (data.map some) (query.map some) w ez)) 0
              (fun _ => ⊤) s)
          pi := tab (data.length - w + 1)
            (contPI (seqDist (stomp_ctx pre (data.map some) (query.map some) w ez)) 0
              (fun _ => ⊤) (fun _ => none) s) }
      = { mp := tab (data.length - w + 1)
            (contMP (seqDist (stomp_ctx pre (data.map some) (query.map some) w ez)) 0
              (fun _ => ⊤) e)
          pi := tab (data.length - w + 1)
            (contPI (seqDist (stomp_ctx pre (data.map some) (query.map some) w ez)) 0
              (fun _ => ⊤) (fun _ => none) e) } := by
  have hok := parallel_ctx_ok set_k_rcpp pre (data.map some) (query.map some) w ez hw
    (by rw [List.length_map]; exact hset)
  rw [List.length_map] at hok
  have hsize : (parallel_ctx set_k_rcpp pre (data.map some) (query.map some) w ez).size
      = data.length - w + 1 := by
    simp [parallel_ctx]
  intro blocks
  induction blocks with
  | nil =>
    intro s hc _
    have : s = e := hc
    subst this
    rfl
  | cons b rest ih =>
    intro s hc hlong
    obtain ⟨h1, h2, h3⟩ := hc
    have hb2 : b.2 ≤ e := contiguous_le rest _ e h3
    simp only [List.foldl_cons]
    rw [stomp_worker_eq _ (query.length - w + 1) b.1 b.2 _ hok
      (hlong b (List.mem_cons_self b rest)) (by omega), hsize, worker_merge_tab]
    have hstep : ∀ j, j < data.length - w + 1 →
        contMP (workerDist (parallel_ctx set_k_rcpp pre (data.map some) (query.map some)
            w ez) b.1) b.1 (fun _ => ⊤) (b.2 - b.1) j
          = contMP (seqDist (stomp_ctx pre (data.map some) (query.map some) w ez)) b.1
              (fun _ => ⊤) (b.2 - b.1) j ∧
        contPI (workerDist (parallel_ctx set_k_rcpp pre (data.map some) (query.map some)
            w ez) b.1) b.1 (fun _ => ⊤) (fun _ => none) (b.2 - b.1) j
          = contPI (seqDist (stomp_ctx pre (data.map some) (query.map some) w ez)) b.1
              (fun _ => ⊤) (fun _ => none) (b.2 - b.1) j := by
      intro j hj
      apply cont_congr
      intro i _ hi2
      exact workerDist_eq_seqDist set_k_rcpp pre data query w ez hw hstats hdsd hqsd hez
        b.1 (by omega) (by omega)
    have hgoal := ih b.2 h3 (fun b' hb' => hlong b' (List.mem_cons_of_mem b hb'))
    rw [← hgoal]
    congr 2
    · apply tab_congr
      intro j hj
      rw [(hstep j hj).1]
      have hm := (cont_merge (seqDist (stomp_ctx pre (data.map some) (query.map some) w ez))
        b.1 (contMP (seqDist (stomp_ctx pre (data.map some) (query.map some) w ez)) 0
          (fun _ => ⊤) s) (contPI (seqDist (stomp_ctx pre (data.map some) (query.map some)
          w ez)) 0 (fun _ => ⊤) (fun _ => none) s) j (b.2 - b.1)).1
      have ha := (cont_append (seqDist (stomp_ctx pre (data.map some) (query.map some) w
        ez)) 0 s (fun _ => ⊤) (fun _ => none) j (b.2 - b.1)).1
      rw [hm, show b.2 = s + (b.2 - b.1) by omega, ha, Nat.zero_add, h1]
      rw [show s + (b.2 - s) - s = b.2 - s by omega]
    · apply tab_congr
      intro j hj
      rw [(hstep j hj).1, (hstep j hj).2]
      have hm := (cont_merge (seqDist (stomp_ctx pre (data.map some) (query.map some) w ez))
        b.1 (contMP (seqDist (stomp_ctx pre (data.map some) (query.map some) w ez)) 0
          (fun _ => ⊤) s) (contPI (seqDist (stomp_ctx pre (data.map some) (query.map some)
          w ez)) 0 (fun _ => ⊤) (fun _ => none) s) j (b.2 - b.1)).2
      have ha := (cont_append (seqDist (stomp_ctx pre (data.map some) (query.map some) w
        ez)) 0 s (fun _ => ⊤) (fun _ => none) j (b.2 - b.1)).2
      rw [hm, show b.2 = s + (b.2 - b.1) by omega, ha, Nat.zero_add, h1]
      rw [show s + (b.2 - s) - s = b.2 - s by omega]

theorem exclusion_zone_zero (w : Nat) : exclusion_zone w (0 : K) = 0 := by
  unfold exclusion_zone cround
  have h1 : (0 : K) ≤ (w : K) * 0 + DBL_EPSILON := by
    rw [mul_zero, zero_add]; exact le_of_lt DBL_EPSILON_pos
  rw [if_pos h1, Int.floor_eq_zero_iff]
  constructor
  · have := DBL_EPSILON_pos (K := K)
    linarith
  · have : (DBL_EPSILON : K) < 1 / 2 := by
      unfold DBL_EPSILON
      norm_num
    linarith

/-- C2 (amended): for a reference and a query free of NaN/Infinity with exact
statistics and no window of standard deviation below `DBL_EPSILON`,
`2 ≤ w < len(reference)`, `w ≤ len(query) ≤ len(reference)`, a zero exclusion radius, a
block size of `set_k_rcpp` between `w` and `len(reference)`, and a partition of
`[0, numQueries)` into contiguous blocks each longer than `w`: `stomp_rcpp_parallel`
returns the same MatrixProfile as `stomp_rcpp` whatever the order of the merges, and the
same ProfileIndex when the blocks are merged in ascending order. -/
theorem stomp_rcpp_parallel_eq_sequential (sqrt : K → K)
    (set_k_rcpp : Nat → Nat → Nat → Nat) (pre : MassPre K) (data query : List K)
    (w : Nat) (ez : K) (sorted blocks : List (Nat × Nat))
    (hw2 : 2 ≤ w) (hw : w < data.length) (hq : w ≤ query.length)
    (hqd : query.length ≤ data.length) (hstats : StatsExact pre data query w)
    (hdsd : ∀ j, j + w ≤ data.length → ¬ pre.data_sd j < DBL_EPSILON)
    (hqsd : ∀ i, i + w ≤ query.length → ¬ pre.query_sd i < DBL_EPSILON)
    (hez : exclusion_zone w ez ≤ 0)
    (hset : ∀ k0, w ≤ set_k_rcpp k0 data.length w
      ∧ set_k_rcpp k0 data.length w ≤ data.length)
    (hcont : Contiguous 0 (query.length - w + 1) sorted)
    (hlong : ∀ b, b ∈ sorted → w < b.2 - b.1)
    (hperm : List.Perm blocks sorted) :
    ∃ r, stomp_rcpp sqrt (fun _ => false) pre (data.map some) (query.map some) w ez
        = Except.ok r
      ∧ (stomp_rcpp_parallel sqrt set_k_rcpp pre (data.map some) (query.map some) w ez
          blocks).matrix_profile = r.matrix_profile
      ∧ (stomp_rcpp_parallel sqrt set_k_rcpp pre (data.map some) (query.map some) w ez
          sorted).profile_index = r.profile_index := by
  have heq := stomp_rcpp_eq sqrt pre (data.map some) (query.map some) w ez
    (by rw [List.length_map]; exact hw) (by rw [List.length_map]; exact hq)
    (by rw [List.length_map, List.length_map]; exact hqd)
    (noNaN_of_windows pre data query w ez (le_of_lt hw) hq
      (fun j hj h0 => hdsd j hj (by rw [h0]; exact DBL_EPSILON_pos))
      (fun i hi h0 => hqsd i hi (by rw [h0]; exact DBL_EPSILON_pos)))
  rw [List.length_map, List.length_map] at heq
  have hsize : (parallel_ctx set_k_rcpp pre (data.map some) (query.map some) w ez).size
      = data.length - w + 1 := by
    simp [parallel_ctx]
  have hfold := parallel_fold_sorted set_k_rcpp pre data query w ez (by omega) (by omega)
    hq hstats hdsd hqsd hez hset (query.length - w + 1) (le_refl _) sorted 0 hcont hlong
  have hinit : ({ mp := tab (data.length - w + 1) (fun _ => ⊤),
                  pi := tab (data.length - w + 1) (fun _ => none) } : Shared K)
      = { mp := tab (data.length - w + 1)
            (contMP (seqDist (stomp_ctx pre (data.map some) (query.map some) w ez)) 0
              (fun _ => ⊤) 0)
          pi := tab (data.length - w + 1)
            (contPI (seqDist (stomp_ctx pre (data.map some) (query.map some) w ez)) 0
              (fun _ => ⊤) (fun _ => none) 0) } := rfl
  have hseqmp : tab (data.length - w + 1) (fun j =>
      (seqMP (stomp_ctx pre (data.map some) (query.map some) w ez)
        (query.length - w + 1) j).map sqrt)
      = (tab (data.length - w + 1)
          (contMP (seqDist (stomp_ctx pre (data.map some) (query.map some) w ez)) 0
            (fun _ => ⊤) (query.length - w + 1))).map (fun d => d.map sqrt) := by
    rw [map_tab]
    apply tab_congr
    intro j _
    rw [(seq_eq_cont _ j _).1]
  have hseqpi : tab (data.length - w + 1)
      (seqPI (stomp_ctx pre (data.map some) (query.map some) w ez) (query.length - w + 1))
      = tab (data.length - w + 1)
          (contPI (seqDist (stomp_ctx pre (data.map some) (query.map some) w ez)) 0
            (fun _ => ⊤) (fun _ => none) (query.length - w + 1)) := by
    apply tab_congr
    intro j _
    rw [(seq_eq_cont _ j _).2]
  refine ⟨_, heq, ?_, ?_⟩
  · simp only [stomp_rcpp_parallel]
    rw [foldl_worker_mp_perm _ blocks sorted hperm, hsize, hinit, hfold, hseqmp]
  · simp only [stomp_rcpp_parallel]
    rw [hsize, hinit, hfold, hseqpi]

theorem statsHalf_exact4 :
    StatsExact (statsHalf : MassPre ℝ) [0, 1, 0, 1] [0, 1, 0, 1] 2 := by
  constructor <;>
  · intro j hj
    have hj2 : j < 3 := by simp at hj; omega
    interval_cases j <;>
      simp [statsHalf, IsWindowSd, windowVar, windowMean, rd, Finset.sum_range_succ] <;>
      norm_num

theorem statsHalf_sd_ok (j : Nat) : ¬ (statsHalf : MassPre ℝ).data_sd j < DBL_EPSILON := by
  simp only [statsHalf, DBL_EPSILON]
  norm_num

theorem statsHalf_qsd_ok (i : Nat) :
    ¬ (statsHalf : MassPre ℝ).query_sd i < DBL_EPSILON := by
  simp only [statsHalf, DBL_EPSILON]
  norm_num

/-- Witness of `stomp_rcpp_parallel_eq_sequential`: reference and query `[0, 1, 0, 1]`,
`w = 2`, `ez = 0`, the single block `[0, 3)`. -/
theorem stomp_rcpp_parallel_eq_sequential_witness :
    Contiguous 0 3 [((0 : Nat), (3 : Nat))] ∧
    ∃ r, stomp_rcpp Real.sqrt (fun _ => false) (statsHalf : MassPre ℝ)
        ([0, 1, 0, 1].map some) ([0, 1, 0, 1].map some) 2 0 = Except.ok r
      ∧ (stomp_rcpp_parallel Real.sqrt (fun _ d _ => d) (statsHalf : MassPre ℝ)
          ([0, 1, 0, 1].map some) ([0, 1, 0, 1].map some) 2 0
          [(0, 3)]).matrix_profile = r.matrix_profile
      ∧ (stomp_rcpp_parallel Real.sqrt (fun _ d _ => d) (statsHalf : MassPre ℝ)
          ([0, 1, 0, 1].map some) ([0, 1, 0, 1].map some) 2 0
          [(0, 3)]).profile_index = r.profile_index :=
  ⟨⟨rfl, by decide, rfl⟩,
    stomp_rcpp_parallel_eq_sequential Real.sqrt (fun _ d _ => d) (statsHalf : MassPre ℝ)
      [0, 1, 0, 1] [0, 1, 0, 1] 2 0 [(0, 3)] [(0, 3)] (le_refl 2) (by simp) (by simp)
      (by simp) statsHalf_exact4 (fun j _ => statsHalf_sd_ok j)
      (fun i _ => statsHalf_qsd_ok i) (le_of_eq (exclusion_zone_zero 2))
      (fun _ => ⟨by simp, by simp⟩) ⟨rfl, by decide, rfl⟩ (by simp) (List.Perm.refl _)⟩

theorem statsHalf_exact3 : StatsExact (statsHalf : MassPre ℝ) [0, 1, 0] [0, 1, 0] 2 := by
  constructor <;>
  · intro j hj
    have hj2 : j < 2 := by simp at hj; omega
    interval_cases j <;>
      simp [statsHalf, IsWindowSd, windowVar, windowMean, rd, Finset.sum_range_succ] <;>
      norm_num

theorem stomp_worker_rejected (c : WorkerCtx K) (begin end_ : Nat) (sh : Shared K)
    (h : end_ - begin ≤ c.w_size) : stomp_worker c begin end_ sh = sh := by
  unfold stomp_worker
  rw [if_pos h]

theorem foldl_rejected (c : WorkerCtx K) : ∀ (blocks : List (Nat × Nat)) (sh : Shared K),
    (∀ b, b ∈ blocks → b.2 - b.1 ≤ c.w_size) →
    blocks.foldl (fun sh b => stomp_worker c b.1 b.2 sh) sh = sh := by
  intro blocks
  induction blocks with
  | nil => intro sh _; rfl
  | cons b rest ih =>
    intro sh h
    simp only [List.foldl_cons]
    rw [stomp_worker_rejected c b.1 b.2 sh (h b (List.mem_cons_self b rest))]
    exact ih sh (fun b' hb' => h b' (List.mem_cons_of_mem b hb'))

/-- When every block handed to the worker has `end - begin ≤ w`, the parallel result is
the initial one: `+∞` and unset everywhere. -/
theorem parallel_all_rejected (sqrt : K → K) (set_k_rcpp : Nat → Nat → Nat → Nat)
    (pre : MassPre K) (data_ref query_ref : List (Option K)) (w : Nat) (ez : K)
    (blocks : List (Nat × Nat)) (h : ∀ b, b ∈ blocks → b.2 - b.1 ≤ w) :
    stomp_rcpp_parallel sqrt set_k_rcpp pre data_ref query_ref w ez blocks
      = { matrix_profile := tab (data_ref.length - w + 1) (fun _ => ⊤)
          profile_index := tab (data_ref.length - w + 1) (fun _ => none)
          partial_flag := false } := by
  unfold stomp_rcpp_parallel
  simp only []
  rw [foldl_rejected _ blocks _ h, map_tab]
  rfl

/-- C2 as stated fails: for reference = query = `[0, 1, 0]`, `w = 2`, `ez = 0` there are
two query windows, so the block `[0, 2)` of the one-block partition has
`end - begin ≤ w` and the worker rejects it (line 306): the parallel MatrixProfile stays
`+∞` everywhere while the sequential one is finite at position 0. -/
theorem stomp_rcpp_parallel_rejected_block_differs :
    IsPartition 2 [((0 : Nat), (2 : Nat))] ∧
    ∃ r, stomp_rcpp Real.sqrt (fun _ => false) (statsHalf : MassPre ℝ)
        ([0, 1, 0].map some) ([0, 1, 0].map some) 2 0 = Except.ok r
      ∧ (stomp_rcpp_parallel Real.sqrt (fun _ d _ => d) (statsHalf : MassPre ℝ)
          ([0, 1, 0].map some) ([0, 1, 0].map some) 2 0
          [(0, 2)]).matrix_profile ≠ r.matrix_profile := by
  refine ⟨⟨[(0, 2)], List.Perm.refl _, rfl, by decide, rfl⟩, ?_⟩
  have heq := stomp_rcpp_eq Real.sqrt (statsHalf : MassPre ℝ) ([0, 1, 0].map some)
    ([0, 1, 0].map some) 2 0 (by simp) (by simp) (by simp) (statsHalf_noNaN _ _ _ _)
  refine ⟨_, heq, ?_⟩
  rw [parallel_all_rejected Real.sqrt (fun _ d _ => d) (statsHalf : MassPre ℝ) _ _ 2 0
    [(0, 2)] (by simp)]
  intro hcontra
  have h0 : rdT (tab (([0, 1, 0].map (some : ℝ → Option ℝ)).length - 2 + 1)
        (fun _ => (⊤ : WithTop ℝ))) 0
      = rdT (tab (([0, 1, 0].map (some : ℝ → Option ℝ)).length - 2 + 1) (fun j =>
          (seqMP (stomp_ctx (statsHalf : MassPre ℝ) ([0, 1, 0].map some)
            ([0, 1, 0].map some) 2 0)
            (([0, 1, 0].map (some : ℝ → Option ℝ)).length - 2 + 1) j).map Real.sqrt)) 0 :=
    congrArg (fun l => rdT l 0) hcontra
  rw [rdT_tab _ _ (by simp), rdT_tab _ _ (by simp)] at h0
  have hel : Eligible (statsHalf : MassPre ℝ) 2 (0 : ℝ) 0 0 :=
    ⟨fun h => absurd h.1 (by rw [exclusion_zone_zero]; exact lt_irrefl 0),
      statsHalf_sd_ok 0, statsHalf_qsd_ok 0⟩
  have hd := seqDist_of_eligible (statsHalf : MassPre ℝ) [0, 1, 0] [0, 1, 0] 2 0
    (by norm_num) statsHalf_exact3 (i := 0) (j := 0) (by simp) (by simp) hel
  have hseq : seqMP (stomp_ctx (statsHalf : MassPre ℝ) ([0, 1, 0].map some)
      ([0, 1, 0].map some) 2 0)
      (([0, 1, 0].map (some : ℝ → Option ℝ)).length - 2 + 1) 0 ≠ ⊤ := by
    rcases seq_spec (stomp_ctx (statsHalf : MassPre ℝ) ([0, 1, 0].map some)
      ([0, 1, 0].map some) 2 0) 0 (([0, 1, 0].map (some : ℝ → Option ℝ)).length - 2 + 1)
      with ⟨-, -, h3⟩ | ⟨i, -, -, h2, h3, -, -⟩
    · have := h3 0 (by simp)
      rw [hd] at this
      exact absurd this WithTop.coe_ne_top
    · rw [h2]; exact h3
  obtain ⟨x, hx⟩ := WithTop.ne_top_iff_exists.mp hseq
  rw [← hx, WithTop.map_coe] at h0
  exact WithTop.coe_ne_top h0.symm

/-! ## Runs of `stomp_rcpp` with an arbitrary interrupt -/

/-- Every run of `stomp_rcpp` on series with `w < len(reference)` and
`w ≤ len(query) ≤ len(reference)` in which no distance is `NaN` returns: either no polled iteration saw an interrupt
and the result is the completed one, or the loop stopped at the first polled iteration
`m` with a pending interrupt, and the result is the state reached after the iterations
`0 .. m-1`, returned as it is with `partial = true`. -/
theorem stomp_rcpp_run (sqrt : K → K) (interrupt : Nat → Bool) (pre : MassPre K)
    (data_ref query_ref : List (Option K)) (w : Nat) (ez : K)
    (hw : w < data_ref.length) (hq : w ≤ query_ref.length)
    (hqd : query_ref.length ≤ data_ref.length)
    (hnan : NoNaN (stomp_ctx pre data_ref query_ref w ez)) :
    ((∀ m, m < query_ref.length - w + 1 → ¬ (m % 100 = 0 ∧ interrupt m = true)) ∧
      stomp_rcpp sqrt interrupt pre data_ref query_ref w ez
        = Except.ok
          { matrix_profile := tab (data_ref.length - w + 1) (fun j =>
              (seqMP (stomp_ctx pre data_ref query_ref w ez)
                (query_ref.length - w + 1) j).map sqrt)
            profile_index := tab (data_ref.length - w + 1)
              (seqPI (stomp_ctx pre data_ref query_ref w ez) (query_ref.length - w + 1))
            partial_flag := false }) ∨
    (∃ m, m < query_ref.length - w + 1 ∧ m % 100 = 0 ∧ interrupt m = true ∧
      (∀ m', m' < m → ¬ (m' % 100 = 0 ∧ interrupt m' = true)) ∧
      stomp_rcpp sqrt interrupt pre data_ref query_ref w ez
        = Except.ok
          { matrix_profile := tab (data_ref.length - w + 1)
              (seqMP (stomp_ctx pre data_ref query_ref w ez) m)
            profile_index := tab (data_ref.length - w + 1)
              (seqPI (stomp_ctx pre data_ref query_ref w ez) m)
            partial_flag := true }) := by
  have hmps : (stomp_ctx pre data_ref query_ref w ez).matrix_profile_size
      = data_ref.length - w + 1 := rfl
  have hnq : (stomp_ctx pre data_ref query_ref w ez).num_queries
      = query_ref.length - w + 1 := rfl
  have hloop := stomp_loop_inv pre data_ref query_ref w ez interrupt hnan
    (query_ref.length - w + 1) 0 (stomp_init _) (stomp_init_inv _)
    (by rw [hmps]; omega) (by rw [hnq]; omega)
  have hnot : ¬ (data_ref.length - w < 1) := by omega
  rcases hloop with ⟨st', hl, hi, hno⟩ | ⟨m, st', -, hm2, hm3, hm4, hm5, hl, hi⟩
  · left
    refine ⟨fun m hm => hno m (Nat.zero_le m) (by omega), ?_⟩
    unfold stomp_rcpp
    simp only [hnot, if_false, hnq, List.range_eq_range', hl]
    obtain ⟨-, -, hmp, hpi⟩ := hi
    rw [hmp, hpi, map_tab, hmps, Nat.zero_add]
  · right
    refine ⟨m, by omega, hm3, hm4, fun m' h => hm5 m' (Nat.zero_le m') h, ?_⟩
    unfold stomp_rcpp
    simp only [hnot, if_false, hnq, List.range_eq_range', hl]
    obtain ⟨-, -, hmp, hpi⟩ := hi
    rw [hmp, hpi, hmps]

/-- A finite entry of the masked distance profile passed every mask. -/
theorem seqDist_ne_top (c : StompCtx K) (i j : Nat) (h : seqDist c i j ≠ ⊤) :
    c.skip_location.getD j false = false ∧ c.skip_location.getD i false = false
      ∧ ¬ c.pre.query_sd i < DBL_EPSILON ∧ ¬ c.pre.data_sd j < DBL_EPSILON
      ∧ ¬ excluded c i j := by
  unfold seqDist at h
  by_cases h1 : c.skip_location.getD j false = true
  · rw [if_pos h1] at h; exact absurd rfl h
  rw [if_neg h1] at h
  by_cases h2 : (c.skip_location.getD i false || decide (c.pre.query_sd i < DBL_EPSILON))
      = true
  · rw [if_pos h2] at h; exact absurd rfl h
  rw [if_neg h2] at h
  by_cases h3 : c.pre.data_sd j < DBL_EPSILON
  · rw [if_pos h3] at h; exact absurd rfl h
  rw [if_neg h3] at h
  by_cases h4 : excluded c i j
  · rw [if_pos h4] at h; exact absurd rfl h
  simp only [Bool.or_eq_true, decide_eq_true_eq, not_or, Bool.not_eq_true] at h1 h2
  exact ⟨h1, h2.1, h2.2, h3, h4⟩

/-- A stored index of the running state names an iteration whose distance at that
position was finite. -/
theorem seqPI_some (c : StompCtx K) (n j v : Nat) (h : seqPI c n j = some v) :
    ∃ i, i < n ∧ v = i + 1 ∧ seqDist c i j ≠ ⊤ ∧ seqMP c n j = seqDist c i j := by
  rcases seq_spec c j n with ⟨h1, -, -⟩ | ⟨i, hi, h1, h2, h3, -, -⟩
  · rw [h1] at h; exact absurd h (by simp)
  · rw [h1] at h
    exact ⟨i, hi, (Option.some.inj h).symm, h3, h2⟩

theorem rdI_tab_some (n : Nat) (f : Nat → Option Nat) (j v : Nat)
    (h : rdI (tab n f) j = some v) : j < n ∧ f j = some v := by
  unfold rdI at h
  rw [getD_tab] at h
  by_cases hj : j < n
  · rw [if_pos hj] at h; exact ⟨hj, h⟩
  · rw [if_neg hj] at h; exact absurd h (by simp)

theorem cround_mono {x y : K} (hx : 0 ≤ x) (hxy : x ≤ y) : cround x ≤ cround y := by
  unfold cround
  rw [if_pos hx, if_pos (le_trans hx hxy)]
  exact Int.floor_mono (by linarith)

/-! ## C3: exclusion zone of a self-join -/

/-- C3 (amended): for every self-join run through `stomp_rcpp` with `ez > 0` and a
positive exclusion radius `round(w * ez + DBL_EPSILON)`: in every result the call returns
(interrupted or not), every set `ProfileIndex[j] = v` has `v ≥ 1` and
`|j - (v - 1)| > round(w * ez)`; and the call returns when `w < len(reference)` and no
window has a standard deviation of exactly zero. -/
theorem stomp_rcpp_self_join_exclusion (sqrt : K → K) (interrupt : Nat → Bool)
    (pre : MassPre K) (data_ref : List (Option K)) (w : Nat) (ez : K)
    (hez : 0 < ez) (hR : 0 < exclusion_zone w ez) :
    (∀ r, stomp_rcpp sqrt interrupt pre data_ref data_ref w ez = Except.ok r →
      ∀ j v, rdI r.profile_index j = some v →
        1 ≤ v ∧ cround ((w : K) * ez) < |(j : Int) - ((v : Int) - 1)|)
    ∧ (w < data_ref.length →
        (∀ j, j + w ≤ data_ref.length → pre.data_sd j ≠ 0 ∧ pre.query_sd j ≠ 0) →
        ∃ r, stomp_rcpp sqrt interrupt pre data_ref data_ref w ez = Except.ok r) := by
  have hle : cround ((w : K) * ez) ≤ exclusion_zone w ez := by
    unfold exclusion_zone
    apply cround_mono
    · exact mul_nonneg (Nat.cast_nonneg w) (le_of_lt hez)
    · have := DBL_EPSILON_pos (K := K)
      linarith
  have key : ∀ m j v,
      rdI (tab (data_ref.length - w + 1)
        (seqPI (stomp_ctx pre data_ref data_ref w ez) m)) j = some v →
      1 ≤ v ∧ cround ((w : K) * ez) < |(j : Int) - ((v : Int) - 1)| := by
    intro m j v h
    obtain ⟨hj, hv⟩ := rdI_tab_some _ _ _ _ h
    obtain ⟨i, -, rfl, hne, -⟩ := seqPI_some _ _ _ _ hv
    obtain ⟨-, -, -, -, hex⟩ := seqDist_ne_top _ _ _ hne
    have hex2 : ¬ inExclusionZone w ez i j :=
      fun h => hex ((excluded_iff pre data_ref data_ref w ez i j hj).mpr h)
    unfold inExclusionZone at hex2
    have h3 : exclusion_zone w ez < |(i : Int) - (j : Int)| := by
      by_contra hcon
      exact hex2 ⟨hR, not_lt.mp hcon⟩
    refine ⟨Nat.succ_le_succ (Nat.zero_le i), ?_⟩
    rw [abs_sub_comm] at h3
    have h4 : ((i + 1 : Nat) : Int) - 1 = (i : Int) := by push_cast; ring
    rw [h4]
    exact lt_of_le_of_lt hle h3
  refine ⟨fun r hr => ?_, fun hw hsd => ?_⟩
  · rcases (stomp_rcpp_ok_run sqrt interrupt pre data_ref data_ref w ez r hr).2 with
      ⟨-, -, h⟩ | ⟨m, -, -, -, -, -, h⟩
    · rw [h]; exact fun j v hv => key _ j v hv
    · rw [h]; exact fun j v hv => key _ j v hv
  · have hnan : NoNaN (stomp_ctx pre data_ref data_ref w ez) :=
      noNaN_of_sd_ne_zero _
        (fun j hj => (hsd j (by
          have : j < data_ref.length - w + 1 := hj
          omega)).1)
        (fun i hi => (hsd i (by
          have : i < data_ref.length - w + 1 := hi
          omega)).2)
    rcases stomp_rcpp_run sqrt interrupt pre data_ref data_ref w ez hw (le_of_lt hw)
      (le_refl _) hnan with ⟨-, h⟩ | ⟨m, -, -, -, -, h⟩
    · exact ⟨_, h⟩
    · exact ⟨_, h⟩

theorem exclusion_zone_two_half : exclusion_zone 2 ((1 : ℝ) / 2) = 1 := by
  unfold exclusion_zone cround
  have hpos := DBL_EPSILON_pos (K := ℝ)
  have hlt : (DBL_EPSILON : ℝ) < 1 / 2 := by unfold DBL_EPSILON; norm_num
  rw [if_pos (by push_cast; linarith), Int.floor_eq_iff]
  push_cast
  constructor <;> linarith

/-- Witness of `stomp_rcpp_self_join_exclusion`: the self-join of `[0, 1, 0, 1]` with
`w = 2`, `ez = 1/2` (radius 1). -/
theorem stomp_rcpp_self_join_exclusion_witness :
    (0 : Int) < exclusion_zone 2 ((1 : ℝ) / 2) ∧
    ∃ r, stomp_rcpp Real.sqrt (fun _ => false) (statsHalf : MassPre ℝ)
        ([0, 1, 0, 1].map some) ([0, 1, 0, 1].map some) 2 (1 / 2) = Except.ok r ∧
      ∀ j v, rdI r.profile_index j = some v →
        1 ≤ v ∧ cround (((2 : Nat) : ℝ) * (1 / 2)) < |(j : Int) - ((v : Int) - 1)| :=
  ⟨by rw [exclusion_zone_two_half]; exact Int.one_pos,
    let hT := stomp_rcpp_self_join_exclusion Real.sqrt (fun _ => false)
      (statsHalf : MassPre ℝ) ([0, 1, 0, 1].map some) 2 (1 / 2) (by norm_num)
      (by rw [exclusion_zone_two_half]; exact Int.one_pos)
    let ⟨r, hr⟩ := hT.2 (by simp) (fun j _ => by simp [statsHalf])
    ⟨r, hr, hT.1 r hr⟩⟩

theorem exclusion_zone_two_fifth : exclusion_zone 2 ((1 : ℝ) / 5) = 0 := by
  unfold exclusion_zone cround
  have hpos := DBL_EPSILON_pos (K := ℝ)
  have hlt : (DBL_EPSILON : ℝ) < 1 / 10 := by unfold DBL_EPSILON; norm_num
  rw [if_pos (by push_cast; linarith), Int.floor_eq_zero_iff]
  push_cast
  constructor <;> linarith

theorem znormSqDist_self (a : List K) (w j : Nat) (s : K) :
    znormSqDist a a w j j s s = 0 := by
  simp [znormSqDist]

/-- In the self-join of `[0, 1, 0]` with `w = 2` and a zero exclusion radius, position 0
is matched with query window 0 (itself), the first window at distance 0. -/
theorem seq_010 (ez : ℝ) (hez : exclusion_zone 2 ez = 0) :
    seqPI (stomp_ctx (statsHalf : MassPre ℝ) ([0, 1, 0].map some) ([0, 1, 0].map some) 2 ez)
      (([0, 1, 0].map (some : ℝ → Option ℝ)).length - 2 + 1) 0 = some 1 ∧
    seqMP (stomp_ctx (statsHalf : MassPre ℝ) ([0, 1, 0].map some) ([0, 1, 0].map some) 2 ez)
      (([0, 1, 0].map (some : ℝ → Option ℝ)).length - 2 + 1) 0 = ((0 : ℝ) : WithTop ℝ) := by
  have hel : Eligible (statsHalf : MassPre ℝ) 2 ez 0 0 :=
    ⟨fun h => absurd h.1 (by rw [hez]; exact lt_irrefl 0),
      statsHalf_sd_ok 0, statsHalf_qsd_ok 0⟩
  have hd0 := seqDist_of_eligible (statsHalf : MassPre ℝ) [0, 1, 0] [0, 1, 0] 2 ez
    (by norm_num) statsHalf_exact3 (i := 0) (j := 0) (by simp) (by simp) hel
  have hz : znormSqDist [0, 1, 0] [0, 1, 0] 2 0 0 ((statsHalf : MassPre ℝ).data_sd 0)
      ((statsHalf : MassPre ℝ).query_sd 0) = 0 := znormSqDist_self [0, 1, 0] 2 0 (1 / 2)
  rw [hz] at hd0
  exact seq_first_zero _ 0 _ (by simp) hd0

theorem seqPI_010 (ez : ℝ) (hez : exclusion_zone 2 ez = 0) :
    seqPI (stomp_ctx (statsHalf : MassPre ℝ) ([0, 1, 0].map some) ([0, 1, 0].map some) 2 ez)
      (([0, 1, 0].map (some : ℝ → Option ℝ)).length - 2 + 1) 0 = some 1 :=
  (seq_010 ez hez).1

/-- C3 as stated fails for a positive `ez` whose radius rounds to 0: in the self-join of
`[0, 1, 0]` with `w = 2`, `ez = 1/5`, `round(w * ez) = 0`, the guard
`exclusion_zone > 0` (line 112) is false and position 0 is matched with itself:
`ProfileIndex[0] = 1`, so `|0 - (1 - 1)| > 0` does not hold. -/
theorem stomp_rcpp_self_match_at_zero_radius :
    (0 : ℝ) < 1 / 5 ∧
    ∃ r, stomp_rcpp Real.sqrt (fun _ => false) (statsHalf : MassPre ℝ)
        ([0, 1, 0].map some) ([0, 1, 0].map some) 2 (1 / 5) = Except.ok r ∧
      rdI r.profile_index 0 = some 1 ∧
      ¬ cround (((2 : Nat) : ℝ) * (1 / 5)) < |((0 : Nat) : Int) - (((1 : Nat) : Int) - 1)| := by
  refine ⟨by norm_num, ?_⟩
  have heq := stomp_rcpp_eq Real.sqrt (statsHalf : MassPre ℝ) ([0, 1, 0].map some)
    ([0, 1, 0].map some) 2 (1 / 5) (by simp) (by simp) (by simp) (statsHalf_noNaN _ _ _ _)
  refine ⟨_, heq, ?_, ?_⟩
  · rw [rdI_tab _ _ (by simp)]
    exact seqPI_010 (1 / 5) exclusion_zone_two_fifth
  · have hc : cround (((2 : Nat) : ℝ) * (1 / 5)) = 0 := by
      unfold cround
      rw [if_pos (by norm_num), Int.floor_eq_zero_iff]
      constructor <;> norm_num
    rw [hc]
    norm_num

/-! ## What any successful iteration of `stomp_rcpp` can write -/

/-- A finite entry of the masked distance profile of the code passed every mask. -/
theorem masked_profile_ne_top (c : StompCtx K) (i : Nat) (skip_i : Bool) (dp : List K)
    (j : Nat) (hj : j < c.matrix_profile_size)
    (h : rdT (masked_profile c i skip_i dp) j ≠ ⊤) :
    c.skip_location.getD j false = false ∧ skip_i = false
      ∧ ¬ c.pre.query_sd i < DBL_EPSILON ∧ ¬ c.pre.data_sd j < DBL_EPSILON
      ∧ ¬ excluded c i j := by
  unfold masked_profile at h
  rw [rdT_tab _ _ hj] at h
  by_cases h1 : c.skip_location.getD j false = true
  · rw [if_pos h1] at h; exact absurd rfl h
  rw [if_neg h1] at h
  by_cases h2 : (skip_i || decide (c.pre.query_sd i < DBL_EPSILON)) = true
  · rw [if_pos h2] at h; exact absurd rfl h
  rw [if_neg h2] at h
  by_cases h3 : c.pre.data_sd j < DBL_EPSILON
  · rw [if_pos h3] at h; exact absurd rfl h
  rw [if_neg h3] at h
  by_cases h4 : excluded c i j
  · unfold excluded at h4; rw [if_pos h4] at h; exact absurd rfl h
  simp only [Bool.or_eq_true, decide_eq_true_eq, not_or, Bool.not_eq_true] at h1 h2
  exact ⟨h1, h2.1, h2.2, h3, h4⟩

theorem stomp_iter_written (c : StompCtx K) (P : Nat → Prop) (i : Nat)
    (st st' : StompState K) (h : stomp_iter c i st = Except.ok st')
    (hst : Written c P st) : Written c (fun i' => P i' ∨ i' = i) st' := by
  unfold stomp_iter at h
  simp only [] at h
  split at h
  · exact absurd h (by simp)
  split at h
  · exact absurd h (by simp)
  split at h
  · exact absurd h (by simp)
  rename_i skip_i hskip
  have hst' := (Except.ok.inj h).symm
  have hskip_i : c.skip_location.getD i false = skip_i := by
    rw [List.getD_eq_getElem?_getD, hskip]; rfl
  intro j
  by_cases hj : j < c.matrix_profile_size
  · have hmp : rdT st'.matrix_profile j
        = if rdT (masked_profile c i skip_i (raw_profile c i st).2) j
              < rdT st.matrix_profile j
          then rdT (masked_profile c i skip_i (raw_profile c i st).2) j
          else rdT st.matrix_profile j := by
      rw [hst']; simp only [update_profile]; rw [rdT_tab _ _ hj]
    have hpi : rdI st'.profile_index j
        = if rdT (masked_profile c i skip_i (raw_profile c i st).2) j
              < rdT st.matrix_profile j
          then some (i + 1) else rdI st.profile_index j := by
      rw [hst']; simp only [update_profile]; rw [rdI_tab _ _ hj]
    by_cases hlt : rdT (masked_profile c i skip_i (raw_profile c i st).2) j
        < rdT st.matrix_profile j
    · rw [if_pos hlt] at hmp hpi
      obtain ⟨g1, g2, g3, g4, g5⟩ := masked_profile_ne_top c i skip_i _ j hj
        (ne_top_of_lt hlt)
      right
      exact ⟨hj, by rw [hmp]; exact ne_top_of_lt hlt,
        i, Or.inr rfl, hpi, g1, by rw [hskip_i]; exact g2, g4, g3, g5⟩
    · rw [if_neg hlt] at hmp hpi
      rcases hst j with ⟨a1, a2⟩ | ⟨a1, a2, i0, a3, a4, a5⟩
      · left; exact ⟨by rw [hmp]; exact a1, by rw [hpi]; exact a2⟩
      · right
        exact ⟨a1, by rw [hmp]; exact a2, i0, Or.inl a3, by rw [hpi]; exact a4, a5⟩
  · left
    rw [hst']
    simp only [update_profile]
    exact ⟨rdT_tab_ge _ _ (not_lt.mp hj), rdI_tab_ge _ _ (not_lt.mp hj)⟩

theorem written_mono (c : StompCtx K) (P Q : Nat → Prop) (st : StompState K)
    (hPQ : ∀ i, P i → Q i) (h : Written c P st) : Written c Q st := by
  intro j
  rcases h j with h1 | ⟨a1, a2, i0, a3, a4⟩
  · exact Or.inl h1
  · exact Or.inr ⟨a1, a2, i0, hPQ i0 a3, a4⟩

theorem stomp_loop_written (c : StompCtx K) (interrupt : Nat → Bool) :
    ∀ (l : List Nat) (P : Nat → Prop) (st : StompState K) (e : LoopEnd K),
      stomp_loop c interrupt l st = Except.ok e → Written c P st →
      Written c (fun i => P i ∨ i ∈ l) e.state := by
  intro l
  induction l with
  | nil =>
    intro P st e h hst
    simp only [stomp_loop] at h
    rw [← Except.ok.inj h]
    exact written_mono c P _ st (fun i hi => Or.inl hi) hst
  | cons i rest ih =>
    intro P st e h hst
    simp only [stomp_loop] at h
    split at h
    · rw [← Except.ok.inj h]
      exact written_mono c P _ st (fun i hi => Or.inl hi) hst
    · split at h
      · exact absurd h (by simp)
      · rename_i st' hiter
        have h1 := stomp_iter_written c P i st st' hiter hst
        have h2 := ih _ st' e h h1
        apply written_mono c _ _ _ _ h2
        intro i' hi'
        rcases hi' with (h3 | h3) | h3
        · exact Or.inl h3
        · exact Or.inr (by rw [h3]; exact List.mem_cons_self i rest)
        · exact Or.inr (List.mem_cons_of_mem i h3)

theorem stomp_init_written (c : StompCtx K) : Written c (fun _ => False) (stomp_init c) := by
  intro j
  left
  unfold stomp_init
  by_cases hj : j < c.matrix_profile_size
  · exact ⟨rdT_tab _ _ hj, rdI_tab _ _ hj⟩
  · exact ⟨rdT_tab_ge _ _ (not_lt.mp hj), rdI_tab_ge _ _ (not_lt.mp hj)⟩

theorem rdT_map (l : List (WithTop K)) (f : K → K) (j : Nat) :
    rdT (l.map (fun d => d.map f)) j = (rdT l j).map f := by
  unfold rdT
  rw [List.getD_eq_getElem?_getD, List.getD_eq_getElem?_getD, List.getElem?_map]
  cases l[j]? <;> rfl

/-- **Every result returned by `stomp_rcpp`**, for any input and any interrupt: the
state it was built from satisfies `Written` for the query indices below `num_queries`. -/
theorem stomp_rcpp_written (sqrt : K → K) (interrupt : Nat → Bool) (pre : MassPre K)
    (data_ref query_ref : List (Option K)) (w : Nat) (ez : K) (r : StompResult K)
    (h : stomp_rcpp sqrt interrupt pre data_ref query_ref w ez = Except.ok r) :
    ∃ st, Written (stomp_ctx pre data_ref query_ref w ez)
        (fun i => i < query_ref.length - w + 1) st
      ∧ r.profile_index = st.profile_index
      ∧ ∀ j, (rdT r.matrix_profile j = ⊤ ↔ rdT st.matrix_profile j = ⊤) := by
  unfold stomp_rcpp at h
  simp only [] at h
  split at h
  · exact absurd h (by simp)
  split at h
  · exact absurd h (by simp)
  · rename_i st hloop
    have hw := stomp_loop_written _ interrupt _ _ _ _ hloop (stomp_init_written _)
    refine ⟨st, written_mono _ _ _ _ ?_ hw, ?_, ?_⟩
    · intro i hi
      rcases hi with hi | hi
      · exact absurd hi id
      · exact List.mem_range.mp hi
    · rw [← Except.ok.inj h]
    · intro j
      rw [← Except.ok.inj h]
      simp only [rdT_map]
      cases rdT st.matrix_profile j <;> simp
  · rename_i st hloop
    have hw := stomp_loop_written _ interrupt _ _ _ _ hloop (stomp_init_written _)
    refine ⟨st, written_mono _ _ _ _ ?_ hw, ?_, ?_⟩
    · intro i hi
      rcases hi with hi | hi
      · exact absurd hi id
      · exact List.mem_range.mp hi
    · rw [← Except.ok.inj h]
    · intro j
      rw [← Except.ok.inj h]

/-! ## C1: inputs on which the claim as stated fails -/

/-- C1 as stated fails, in two ways. At `w = len(reference)` (reference `[0, 1]`, query
`[0, 1]`, `w = 2`) line 69 builds `Range(1, 0)` and the call raises instead of returning
a profile. And with a zero radius nothing is excluded, not even `i = j`: in the
self-join of `[0, 1, 0]` with `w = 2`, `ez = 0` (`round(w * ez) = 0`) the call returns
`MatrixProfile[0] = 0`, the distance of window 0 to itself, while the only query window
at an index distance above the radius, window 1, is at squared distance 8. -/
theorem stomp_rcpp_min_claim_fails :
    (¬ ∃ r, stomp_rcpp Real.sqrt (fun _ => false) (statsHalf : MassPre ℝ)
        ([0, 1].map some) ([0, 1].map some) 2 0 = Except.ok r) ∧
    (∃ r, stomp_rcpp Real.sqrt (fun _ => false) (statsHalf : MassPre ℝ)
        ([0, 1, 0].map some) ([0, 1, 0].map some) 2 0 = Except.ok r
      ∧ rdT r.matrix_profile 0 = ((0 : ℝ) : WithTop ℝ)
      ∧ cround (((2 : Nat) : ℝ) * 0) = 0
      ∧ znormSqDist [0, 1, 0] [0, 1, 0] 2 0 1 ((statsHalf : MassPre ℝ).data_sd 0)
          ((statsHalf : MassPre ℝ).query_sd 1) = 8) := by
  refine ⟨?_, ?_⟩
  · rintro ⟨r, hr⟩
    simp [stomp_rcpp] at hr
  · have heq := stomp_rcpp_eq Real.sqrt (statsHalf : MassPre ℝ) ([0, 1, 0].map some)
      ([0, 1, 0].map some) 2 0 (by simp) (by simp) (by simp) (statsHalf_noNaN _ _ _ _)
    refine ⟨_, heq, ?_, ?_, ?_⟩
    · simp only []
      rw [rdT_tab _ _ (by simp), (seq_010 0 (exclusion_zone_zero 2)).2, WithTop.map_coe,
        Real.sqrt_zero]
    · unfold cround
      rw [if_pos (by norm_num), Int.floor_eq_zero_iff]
      constructor <;> norm_num
    · simp [znormSqDist, windowMean, statsHalf, rd, Finset.sum_range_succ]
      norm_num

/-! ## C4: windows with NaN/Infinity -/

/-- C4, evaluation at the failing input: reference `[0, 1, 0]`, query `[NaN, 1, 0]`,
`w = 2`, `ez = 0`. Query window 0 contained a NaN; the mask entry read for it is
`skip_location[0]` of the reference, which is clear, so the sanitised window `[0, 1]` is
compared and stored as the match of reference position 0: `ProfileIndex[0] = 1`. -/
theorem stomp_rcpp_nan_query_window_matched :
    ∃ r, stomp_rcpp Real.sqrt (fun _ => false) (statsHalf : MassPre ℝ)
        [some 0, some 1, some 0] [none, some 1, some 0] 2 0 = Except.ok r
      ∧ rdI r.profile_index 0 = some 1 := by
  have hctx : stomp_ctx (statsHalf : MassPre ℝ) [some 0, some 1, some 0]
      [none, some 1, some 0] 2 0
      = stomp_ctx (statsHalf : MassPre ℝ) ([0, 1, 0].map some) ([0, 1, 0].map some) 2 0 := by
    simp [stomp_ctx, sanitize]
  have heq := stomp_rcpp_eq Real.sqrt (statsHalf : MassPre ℝ) [some 0, some 1, some 0]
    [none, some 1, some 0] 2 0 (by simp) (by simp) (by simp) (statsHalf_noNaN _ _ _ _)
  refine ⟨_, heq, ?_⟩
  rw [rdI_tab _ _ (by simp), hctx]
  exact seqPI_010 0 (exclusion_zone_zero 2)

/-! ## C5: constant reference windows -/

theorem rd_sanitize (xs : List (Option K)) (p : Nat) (x : K)
    (h : xs.getD p none = some x) : rd (sanitize xs) p = x := by
  unfold rd sanitize
  rw [List.getD_eq_getElem?_getD] at h
  rw [List.getD_eq_getElem?_getD, List.getElem?_map]
  cases hx : xs[p]? with
  | none => rw [hx] at h; exact absurd h (by simp)
  | some y =>
    rw [hx] at h
    simp only [Option.getD_some] at h
    subst h
    rfl

/-- The population standard deviation of a constant window is 0. -/
theorem sd_of_constant (a : List K) (w j : Nat) (cval s : K) (hw : 0 < w)
    (hconst : ∀ t, t < w → rd a (j + t) = cval) (hs : IsWindowSd s a w j) : s = 0 := by
  have hw0 : (w : K) ≠ 0 := by exact_mod_cast hw.ne'
  have hmean : windowMean a w j = cval := by
    unfold windowMean
    rw [Finset.sum_congr rfl (fun t ht => hconst t (Finset.mem_range.mp ht))]
    simp only [Finset.sum_const, Finset.card_range, nsmul_eq_mul]
    field_simp
  have hvar : windowVar a w j = 0 := by
    unfold windowVar
    rw [hmean, Finset.sum_congr rfl (fun t ht => by
      rw [hconst t (Finset.mem_range.mp ht), sub_self])]
    simp
  have h2 : s ^ 2 = 0 := by rw [hs.2, hvar]
  exact pow_eq_zero_iff (by norm_num) |>.mp h2

/-- Every result that `stomp_rcpp` returns (any query, any `ez`, interrupted or not) has
`MatrixProfile[j] = +∞` and `ProfileIndex[j]` unset at a position whose standard deviation
is below `DBL_EPSILON` (line 119). -/
theorem stomp_rcpp_small_sd_masked (sqrt : K → K) (interrupt : Nat → Bool)
    (pre : MassPre K) (data_ref query_ref : List (Option K)) (w : Nat) (ez : K)
    (j : Nat) (hlt : pre.data_sd j < DBL_EPSILON) (r : StompResult K)
    (hr : stomp_rcpp sqrt interrupt pre data_ref query_ref w ez = Except.ok r) :
    rdT r.matrix_profile j = ⊤ ∧ rdI r.profile_index j = none := by
  obtain ⟨st, hwr, hpi, hmp⟩ := stomp_rcpp_written sqrt interrupt pre data_ref query_ref
    w ez r hr
  rcases hwr j with ⟨h1, h2⟩ | ⟨-, -, i, -, -, -, -, h3, -⟩
  · exact ⟨(hmp j).mpr h1, by rw [hpi]; exact h2⟩
  · exact absurd hlt h3

/-- An iteration whose distance profile holds a `NaN` raises at line 107. -/
theorem stomp_iter_nan (c : StompCtx K) (i : Nat) (st : StompState K) (j : Nat)
    (hj : j < c.matrix_profile_size) (h : nan_at c i (raw_profile c i st).1 j) :
    stomp_iter c i st = Except.error StompError.na_subscript := by
  unfold stomp_iter
  simp only []
  rw [if_pos ⟨j, hj, h⟩]

/-- When the distance profile of the first iteration holds a `NaN`, the uninterrupted
call raises. -/
theorem stomp_rcpp_nan_first (sqrt : K → K) (pre : MassPre K)
    (data_ref query_ref : List (Option K)) (w : Nat) (ez : K) (j : Nat)
    (hw : w < data_ref.length) (hj : j < data_ref.length - w + 1)
    (h1 : pre.data_sd j * pre.query_sd 0 = 0)
    (h2 : slidingDot (stomp_ctx pre data_ref query_ref w ez).data
        (stomp_ctx pre data_ref query_ref w ez).query w j 0
      - (w : K) * pre.data_mean j * pre.query_mean 0 = 0) :
    stomp_rcpp sqrt (fun _ => false) pre data_ref query_ref w ez
      = Except.error StompError.na_subscript := by
  have hnq : (stomp_ctx pre data_ref query_ref w ez).num_queries
      = query_ref.length - w + 1 := rfl
  have hc := (nan_check_iff pre data_ref query_ref w ez 0 (stomp_init _) (stomp_init_inv _)
    (by rw [hnq]; omega)).mpr ⟨j, hj, h1, h2⟩
  obtain ⟨j', hj', hn⟩ := hc
  have hit := stomp_iter_nan _ 0 (stomp_init (stomp_ctx pre data_ref query_ref w ez)) j'
    hj' hn
  unfold stomp_rcpp
  have hnot : ¬ (data_ref.length - w < 1) := by omega
  simp only [hnot, if_false, hnq, List.range_eq_range', List.range'_succ, stomp_loop,
    Bool.false_eq_true, and_false, hit]

/-- With exact statistics, a constant reference window makes the uninterrupted call
raise: its standard deviation is 0 and the numerator of the quotient is 0 against every
query window, so the distance is `0/0`. -/
theorem constant_window_raises (sqrt : K → K) (pre : MassPre K) (data query : List K)
    (w : Nat) (ez : K) (j : Nat) (cval : K) (hw : 1 ≤ w) (hwd : w < data.length)
    (hwq : w ≤ query.length) (hj : j + w ≤ data.length)
    (hconst : ∀ t, t < w → rd data (j + t) = cval)
    (hstats : StatsExact pre data query w) :
    stomp_rcpp sqrt (fun _ => false) pre (data.map some) (query.map some) w ez
      = Except.error StompError.na_subscript := by
  have hw0 : (w : K) ≠ 0 := by exact_mod_cast (by omega : w ≠ 0)
  obtain ⟨hmj, hsj⟩ := hstats.1 j hj
  obtain ⟨hmq, -⟩ := hstats.2 0 (by omega)
  have hzero : pre.data_sd j = 0 := sd_of_constant data w j cval _ (by omega) hconst hsj
  have hmean : pre.data_mean j = cval := by
    rw [hmj]
    unfold windowMean
    rw [Finset.sum_congr rfl (fun t ht => hconst t (Finset.mem_range.mp ht))]
    simp only [Finset.sum_const, Finset.card_range, nsmul_eq_mul]
    field_simp
  apply stomp_rcpp_nan_first sqrt pre (data.map some) (query.map some) w ez j
    (by rw [List.length_map]; exact hwd) (by rw [List.length_map]; omega)
  · rw [hzero, zero_mul]
  · have hd : (stomp_ctx pre (data.map some) (query.map some) w ez).data = data :=
      sanitize_map_some data
    have hq : (stomp_ctx pre (data.map some) (query.map some) w ez).query = query :=
      sanitize_map_some query
    rw [hd, hq, hmean, hmq]
    unfold slidingDot windowMean
    rw [Finset.sum_congr rfl (fun t ht => by rw [hconst t (Finset.mem_range.mp ht)]),
      ← Finset.mul_sum]
    field_simp
    ring

/-! ## The scenario `[1,2,3,2,1,2,3,2,1]`, `w = 4`, `ez = 0` -/

theorem scenario_stats (j : Nat) (hj : j + 4 ≤ 9) :
    windowMean (scenarioSeries : List K) 4 j = 2 ∧
    windowVar (scenarioSeries : List K) 4 j = 1 / 2 := by
  have hj6 : j < 6 := by omega
  interval_cases j <;>
    simp [windowVar, windowMean, scenarioSeries, rd, Finset.sum_range_succ] <;>
    norm_num

theorem scenario_sd_ok (s : K) (j : Nat) (hj : j + 4 ≤ 9)
    (hs : IsWindowSd s (scenarioSeries : List K) 4 j) : ¬ s < DBL_EPSILON := by
  intro hlt
  have h2 : s ^ 2 = 1 / 2 := by rw [hs.2, (scenario_stats j hj).2]
  have hpos := DBL_EPSILON_pos (K := K)
  have heps : (DBL_EPSILON : K) < 1 / 2 := by unfold DBL_EPSILON; norm_num
  nlinarith [hs.1]

/-- All windows of the scenario series have the same standard deviation. -/
theorem scenario_sd_eq (s s' : K) (j i : Nat) (hj : j + 4 ≤ 9) (hi : i + 4 ≤ 9)
    (hs : IsWindowSd s (scenarioSeries : List K) 4 j)
    (hs' : IsWindowSd s' (scenarioSeries : List K) 4 i) : s = s' :=
  (sq_eq_sq₀ hs.1 hs'.1).mp (by
    rw [hs.2, hs'.2, (scenario_stats j hj).2, (scenario_stats i hi).2])

/-- In exact arithmetic, with exact statistics, the loop of `stomp_rcpp` on the scenario
holds the distance 0 at position 0 both in iteration 0 (window 0 against itself, nothing
being excluded at `ez = 0`) and in iteration 4 (the equal window `[1, 2, 3, 2]`): the two
query indices tie for the minimum at position 0. -/
theorem scenario_tie (pre : MassPre K)
    (hstats : StatsExact pre (scenarioSeries : List K) scenarioSeries 4) :
    rdT (seq_profile (stomp_ctx pre ((scenarioSeries : List K).map some)
        (scenarioSeries.map some) 4 0) 0) 0 = ((0 : K) : WithTop K)
      ∧ rdT (seq_profile (stomp_ctx pre ((scenarioSeries : List K).map some)
        (scenarioSeries.map some) 4 0) 4) 0 = ((0 : K) : WithTop K) := by
  have hlen : (scenarioSeries : List K).length = 9 := rfl
  have hmps : (stomp_ctx pre ((scenarioSeries : List K).map some)
      (scenarioSeries.map some) 4 0).matrix_profile_size = 6 := rfl
  have hnq : (stomp_ctx pre ((scenarioSeries : List K).map some)
      (scenarioSeries.map some) 4 0).num_queries = 6 := rfl
  have hdok : ∀ j, j + 4 ≤ 9 → ¬ pre.data_sd j < DBL_EPSILON := fun j hj =>
    scenario_sd_ok _ j hj (hstats.1 j (by rw [hlen]; exact hj)).2
  have hqok : ∀ i, i + 4 ≤ 9 → ¬ pre.query_sd i < DBL_EPSILON := fun i hi =>
    scenario_sd_ok _ i hi (hstats.2 i (by rw [hlen]; exact hi)).2
  have hnan : NoNaN (stomp_ctx pre ((scenarioSeries : List K).map some)
      (scenarioSeries.map some) 4 0) :=
    noNaN_of_windows pre scenarioSeries scenarioSeries 4 0 (by rw [hlen]; norm_num)
      (by rw [hlen]; norm_num)
      (fun j hj h0 => hdok j (by rw [hlen] at hj; exact hj)
        (by rw [h0]; exact DBL_EPSILON_pos))
      (fun i hi h0 => hqok i (by rw [hlen] at hi; exact hi)
        (by rw [h0]; exact DBL_EPSILON_pos))
  have key : ∀ i, i + 4 ≤ 9 → (∀ t, t < 4 →
        rd (scenarioSeries : List K) (0 + t) = rd (scenarioSeries : List K) (i + t)) →
      rdT (seq_profile (stomp_ctx pre ((scenarioSeries : List K).map some)
        (scenarioSeries.map some) 4 0) i) 0 = ((0 : K) : WithTop K) := by
    intro i hi hsame
    have hel : Eligible pre 4 (0 : K) i 0 :=
      ⟨fun h => absurd h.1 (by rw [exclusion_zone_zero]; exact lt_irrefl 0),
        hdok 0 (by norm_num), hqok i hi⟩
    rw [seq_profile_eq _ _ _ 4 0 hnan i (by rw [hmps]; omega) (by rw [hnq]; omega),
      rdT_tab _ _ (by rw [hmps]; norm_num),
      seqDist_of_eligible pre scenarioSeries scenarioSeries 4 0 (by norm_num) hstats
        (by rw [hlen]; norm_num) (by rw [hlen]; exact hi) hel]
    apply congrArg
    have hs := scenario_sd_eq _ _ 0 i (by norm_num) hi
      (hstats.1 0 (by rw [hlen]; norm_num)).2 (hstats.2 i (by rw [hlen]; exact hi)).2
    unfold znormSqDist
    apply Finset.sum_eq_zero
    intro t ht
    rw [(scenario_stats 0 (by norm_num)).1, (scenario_stats i hi).1,
      hsame t (Finset.mem_range.mp ht), hs, sub_self]
    norm_num
  refine ⟨key 0 (by norm_num) (fun t _ => rfl), key 4 (by norm_num) ?_⟩
  intro t ht
  interval_cases t <;> simp [scenarioSeries, rd]

/-! ## C7: range of the stored indices -/

theorem indexInv_tab_init (n lo hi : Nat) :
    IndexInv lo hi (tab n (fun _ => (⊤ : WithTop K))) (tab n (fun _ => none)) := by
  intro j
  left
  by_cases hj : j < n
  · exact ⟨rdT_tab _ _ hj, rdI_tab _ _ hj⟩
  · exact ⟨rdT_tab_ge _ _ (not_lt.mp hj), rdI_tab_ge _ _ (not_lt.mp hj)⟩

theorem indexInv_mono (lo hi lo' hi' : Nat) (mp : List (WithTop K))
    (pi : List (Option Nat)) (h1 : lo' ≤ lo) (h2 : hi ≤ hi') (h : IndexInv lo hi mp pi) :
    IndexInv lo' hi' mp pi := by
  intro j
  rcases h j with h3 | ⟨h3, i, h4, h5, h6⟩
  · exact Or.inl h3
  · exact Or.inr ⟨h3, i, by omega, by omega, h6⟩

theorem worker_iter_index (c : WorkerCtx K) (nn : MassOut K) (begin lo i : Nat)
    (st : WorkerState K) (hlo : lo ≤ i)
    (h : IndexInv lo i st.matrix_profile st.profile_index) :
    IndexInv lo (i + 1) (worker_iter c nn begin i st).matrix_profile
      (worker_iter c nn begin i st).profile_index := by
  have hmp : (worker_iter c nn begin i st).matrix_profile
      = tab c.size (fun j =>
          if rdT (worker_iter c nn begin i st).distance_profile j < rdT st.matrix_profile j
          then rdT (worker_iter c nn begin i st).distance_profile j
          else rdT st.matrix_profile j) := rfl
  have hpi : (worker_iter c nn begin i st).profile_index
      = tab c.size (fun j =>
          if rdT (worker_iter c nn begin i st).distance_profile j < rdT st.matrix_profile j
          then some (i + 1) else rdI st.profile_index j) := rfl
  rw [hmp, hpi]
  generalize (worker_iter c nn begin i st).distance_profile = dp
  intro j
  by_cases hj : j < c.size
  · rw [rdT_tab _ _ hj, rdI_tab _ _ hj]
    by_cases hlt : rdT dp j < rdT st.matrix_profile j
    · rw [if_pos hlt, if_pos hlt]
      right
      exact ⟨ne_top_of_lt hlt, i, hlo, Nat.lt_succ_self i, rfl⟩
    · rw [if_neg hlt, if_neg hlt]
      rcases h j with h3 | ⟨h3, i0, h4, h5, h6⟩
      · exact Or.inl h3
      · exact Or.inr ⟨h3, i0, h4, by omega, h6⟩
  · left
    exact ⟨rdT_tab_ge _ _ (not_lt.mp hj), rdI_tab_ge _ _ (not_lt.mp hj)⟩

theorem worker_loop_index (c : WorkerCtx K) (nn : MassOut K) (begin lo : Nat) :
    ∀ (len s : Nat) (st : WorkerState K), lo ≤ s →
      IndexInv lo s st.matrix_profile st.profile_index →
      IndexInv lo (s + len)
        (worker_loop c nn begin (List.range' s len) st).matrix_profile
        (worker_loop c nn begin (List.range' s len) st).profile_index := by
  intro len
  induction len with
  | zero => intro s st _ h; exact h
  | succ len ih =>
    intro s st hlo h
    rw [List.range'_succ]
    simp only [worker_loop]
    have h1 := worker_iter_index c nn begin lo s st hlo h
    have h2 := ih (s + 1) _ (by omega) h1
    rw [show s + (len + 1) = s + 1 + len by omega]
    exact h2

theorem worker_merge_index (n lo hi : Nat) (bm : List (WithTop K))
    (bp : List (Option Nat)) (sh : Shared K)
    (hb : IndexInv lo hi bm bp) (hs : IndexInv lo hi sh.mp sh.pi) :
    IndexInv lo hi (worker_merge n bm bp sh).mp (worker_merge n bm bp sh).pi := by
  intro j
  simp only [worker_merge]
  by_cases hj : j < n
  · rw [rdT_tab _ _ hj, rdI_tab _ _ hj]
    split_ifs with hlt
    · rcases hb j with h3 | h3
      · rw [h3.1] at hlt; exact absurd hlt not_top_lt
      · exact Or.inr h3
    · exact hs j
  · left
    exact ⟨rdT_tab_ge _ _ (not_lt.mp hj), rdI_tab_ge _ _ (not_lt.mp hj)⟩

/-- A worker call on a block inside `[0, nq)` keeps every shared index in `[1, nq]`. -/
theorem stomp_worker_index (c : WorkerCtx K) (nq begin end_ : Nat) (sh : Shared K)
    (hend : end_ ≤ nq) (hs : IndexInv 0 nq sh.mp sh.pi) :
    IndexInv 0 nq (stomp_worker c begin end_ sh).mp (stomp_worker c begin end_ sh).pi := by
  unfold stomp_worker
  split_ifs with hrej
  · exact hs
  · simp only []
    apply worker_merge_index _ _ _ _ _ _ _ hs
    have h := worker_loop_index c
      (mass3_cpp c.set_k_rcpp (c.window_ref.drop begin) c.data_ref c.d_size c.w_size
        c.d_mean c.d_std (c.q_mean begin) (c.q_std begin)
        (c.set_k_rcpp (c.w_size * 2) (end_ - begin) c.w_size))
      begin begin (end_ - begin) begin (worker_init c) (le_refl _)
      (indexInv_tab_init _ _ _)
    rw [show begin + (end_ - begin) = end_ by omega] at h
    exact indexInv_mono _ _ _ _ _ _ (Nat.zero_le _) hend h

theorem foldl_worker_index (c : WorkerCtx K) (nq : Nat) :
    ∀ (blocks : List (Nat × Nat)) (sh : Shared K),
      (∀ b, b ∈ blocks → b.2 ≤ nq) → IndexInv 0 nq sh.mp sh.pi →
      IndexInv 0 nq (blocks.foldl (fun sh b => stomp_worker c b.1 b.2 sh) sh).mp
        (blocks.foldl (fun sh b => stomp_worker c b.1 b.2 sh) sh).pi := by
  intro blocks
  induction blocks with
  | nil => intro sh _ h; exact h
  | cons b rest ih =>
    intro sh hb h
    simp only [List.foldl_cons]
    exact ih _ (fun b' hb' => hb b' (List.mem_cons_of_mem b hb'))
      (stomp_worker_index c nq b.1 b.2 sh (hb b (List.mem_cons_self b rest)) h)

theorem partition_bound (nq : Nat) (blocks : List (Nat × Nat))
    (h : IsPartition nq blocks) : ∀ b, b ∈ blocks → b.2 ≤ nq := by
  obtain ⟨sorted, hperm, hcont⟩ := h
  intro b hb
  exact (contiguous_mem sorted 0 nq hcont b (hperm.mem_iff.mp hb)).2.2

/-- C7: every set `ProfileIndex` entry lies in `[1, len(query) - w + 1]`: in every
result returned by `stomp_rcpp` (any input, interrupted or not), which returns whenever
`w < len(reference)`, `w ≤ len(query) ≤ len(reference)` and no distance is `NaN`, and in
the result of `stomp_rcpp_parallel` for every partition of `[0, numQueries)` into blocks
and every merge order. -/
theorem profile_index_in_range (sqrt : K → K) (interrupt : Nat → Bool)
    (set_k_rcpp : Nat → Nat → Nat → Nat) (pre : MassPre K)
    (data_ref query_ref : List (Option K)) (w : Nat) (ez : K) :
    (∀ r, stomp_rcpp sqrt interrupt pre data_ref query_ref w ez = Except.ok r →
      ∀ j v, rdI r.profile_index j = some v → 1 ≤ v ∧ v ≤ query_ref.length - w + 1) ∧
    (w < data_ref.length → w ≤ query_ref.length → query_ref.length ≤ data_ref.length →
      NoNaN (stomp_ctx pre data_ref query_ref w ez) →
      ∃ r, stomp_rcpp sqrt interrupt pre data_ref query_ref w ez = Except.ok r) ∧
    (∀ blocks, IsPartition (query_ref.length - w + 1) blocks →
      ∀ j v, rdI (stomp_rcpp_parallel sqrt set_k_rcpp pre data_ref query_ref w ez
          blocks).profile_index j = some v →
        1 ≤ v ∧ v ≤ query_ref.length - w + 1) := by
  refine ⟨?_, ?_, ?_⟩
  · intro r hr j v hv
    obtain ⟨st, hwr, hpi, -⟩ := stomp_rcpp_written sqrt interrupt pre data_ref query_ref
      w ez r hr
    rw [hpi] at hv
    rcases hwr j with ⟨-, h2⟩ | ⟨-, -, i, hi, h3, -⟩
    · rw [h2] at hv; exact absurd hv (by simp)
    · rw [h3] at hv
      have : i + 1 = v := Option.some.inj hv
      omega
  · intro h1 h2 h3 h4
    rcases stomp_rcpp_run sqrt interrupt pre data_ref query_ref w ez h1 h2 h3 h4 with
      ⟨-, h⟩ | ⟨m, -, -, -, -, h⟩
    · exact ⟨_, h⟩
    · exact ⟨_, h⟩
  · intro blocks hpart j v hv
    have hinv := foldl_worker_index
      (parallel_ctx set_k_rcpp pre data_ref query_ref w ez) (query_ref.length - w + 1)
      blocks
      { mp := tab (parallel_ctx set_k_rcpp pre data_ref query_ref w ez).size (fun _ => ⊤),
        pi := tab (parallel_ctx set_k_rcpp pre data_ref query_ref w ez).size
          (fun _ => none) }
      (partition_bound _ blocks hpart) (indexInv_tab_init _ _ _)
    simp only [stomp_rcpp_parallel] at hv
    rcases hinv j with ⟨-, h2⟩ | ⟨-, i, -, hi, h3⟩
    · rw [h2] at hv; exact absurd hv (by simp)
    · rw [h3] at hv
      have : i + 1 = v := Option.some.inj hv
      omega

/-- Witness of `profile_index_in_range`: reference and query `[0, 1, 0, 1]`, `w = 2`,
`ez = 0`, the one-block partition `[0, 3)`. -/
theorem profile_index_in_range_witness :
    IsPartition 3 [((0 : Nat), (3 : Nat))] ∧
    (∃ r, stomp_rcpp Real.sqrt (fun _ => false) (statsHalf : MassPre ℝ)
      ([0, 1, 0, 1].map some) ([0, 1, 0, 1].map some) 2 0 = Except.ok r) ∧
    ∀ j v, rdI (stomp_rcpp_parallel Real.sqrt (fun _ d _ => d) (statsHalf : MassPre ℝ)
        ([0, 1, 0, 1].map some) ([0, 1, 0, 1].map some) 2 0 [(0, 3)]).profile_index j
          = some v → 1 ≤ v ∧ v ≤ 3 := by
  have hpart : IsPartition 3 [((0 : Nat), (3 : Nat))] :=
    ⟨[(0, 3)], List.Perm.refl _, rfl, by decide, rfl⟩
  have h := profile_index_in_range Real.sqrt (fun _ => false) (fun _ d _ => d)
    (statsHalf : MassPre ℝ) ([0, 1, 0, 1].map some) ([0, 1, 0, 1].map some) 2 0
  exact ⟨hpart, h.2.1 (by simp) (by simp) (by simp) (statsHalf_noNaN _ _ _ _),
    fun j v hv => h.2.2 [(0, 3)] hpart j v hv⟩

/-! ## C8: cancellation -/

theorem seqMP_top_iff (c : StompCtx K) (n j : Nat) :
    seqMP c n j = ⊤ ↔ seqPI c n j = none := by
  rcases seq_spec c j n with ⟨h1, h2, -⟩ | ⟨i, -, h1, h2, h3, -, -⟩
  · exact ⟨fun _ => h1, fun _ => h2⟩
  · constructor
    · intro h; rw [h2] at h; exact absurd h h3
    · intro h; rw [h1] at h; exact absurd h (by simp)

theorem seqMP_antitone (c : StompCtx K) (j n : Nat) : ∀ k : Nat,
    seqMP c (n + k) j ≤ seqMP c n j := by
  intro k
  induction k with
  | zero => exact le_refl _
  | succ k ih =>
    rw [← Nat.add_assoc]
    simp only [seqMP]
    split_ifs with h
    · exact le_trans (le_of_lt h) ih
    · exact ih

/-- A stored index is that of a processed query; later iterations keep it or replace it
by a later query. -/
theorem seqPI_later (c : StompCtx K) (j n v : Nat) (h : seqPI c n j = some v) :
    v ≤ n ∧ ∀ k : Nat, seqPI c (n + k) j = some v ∨
      ∃ v', seqPI c (n + k) j = some v' ∧ n < v' := by
  obtain ⟨i, hi, hv, -, -⟩ := seqPI_some c n j v h
  refine ⟨by omega, ?_⟩
  intro k
  induction k with
  | zero => exact Or.inl h
  | succ k ih =>
    rw [← Nat.add_assoc]
    simp only [seqPI]
    split_ifs with hlt
    · exact Or.inr ⟨n + k + 1, rfl, by omega⟩
    · exact ih

/-- The run that meets its first pending interrupt at the polled iteration `m`: it
returns the flag set and the two vectors of the loop as they stand after the iterations
`0 .. m-1`, the exit through line 133 passing by the square root of line 132 (which the
return of `stomp_rcpp_parallel`, line 466, applies in every case). Each entry is the least
masked squared distance of the query windows `0 .. m-1` with the first index attaining it,
or `+∞` and unset. -/
theorem stomp_rcpp_interrupted_state (sqrt : K → K) (interrupt : Nat → Bool) (pre : MassPre K)
    (data_ref query_ref : List (Option K)) (w : Nat) (ez : K) (m : Nat)
    (hw : w < data_ref.length) (hq : w ≤ query_ref.length)
    (hqd : query_ref.length ≤ data_ref.length)
    (hnan : NoNaN (stomp_ctx pre data_ref query_ref w ez))
    (hm : m < query_ref.length - w + 1) (hpoll : m % 100 = 0)
    (hint : interrupt m = true)
    (hfirst : ∀ m', m' < m → ¬ (m' % 100 = 0 ∧ interrupt m' = true)) :
    ∃ r r', stomp_rcpp sqrt interrupt pre data_ref query_ref w ez = Except.ok r
      ∧ stomp_rcpp sqrt (fun _ => false) pre data_ref query_ref w ez = Except.ok r'
      ∧ r.partial_flag = true
      ∧ r.matrix_profile
        = (seq_state (stomp_ctx pre data_ref query_ref w ez) m).matrix_profile
      ∧ r.profile_index
        = (seq_state (stomp_ctx pre data_ref query_ref w ez) m).profile_index
      ∧ ∀ j,
        ((rdI r.profile_index j = none ∧ rdT r.matrix_profile j = ⊤
            ∧ ∀ i, i < m →
              rdT (seq_profile (stomp_ctx pre data_ref query_ref w ez) i) j = ⊤)
          ∨ (∃ i, i < m ∧ rdI r.profile_index j = some (i + 1)
              ∧ rdT r.matrix_profile j
                = rdT (seq_profile (stomp_ctx pre data_ref query_ref w ez) i) j
              ∧ rdT (seq_profile (stomp_ctx pre data_ref query_ref w ez) i) j ≠ ⊤
              ∧ (∀ i', i' < m →
                  rdT (seq_profile (stomp_ctx pre data_ref query_ref w ez) i) j
                    ≤ rdT (seq_profile (stomp_ctx pre data_ref query_ref w ez) i') j)
              ∧ (∀ i', i' < i →
                  rdT (seq_profile (stomp_ctx pre data_ref query_ref w ez) i) j
                    < rdT (seq_profile (stomp_ctx pre data_ref query_ref w ez) i') j)))
        ∧ (∃ x : WithTop K, rdT r'.matrix_profile j = x.map sqrt
            ∧ x ≤ rdT r.matrix_profile j)
        ∧ (rdT r'.matrix_profile j = ⊤ → rdT r.matrix_profile j = ⊤)
        ∧ ∀ v, rdI r.profile_index j = some v →
            v ≤ m ∧ (rdI r'.profile_index j = some v ∨
              ∃ v', rdI r'.profile_index j = some v' ∧ m < v') := by
  have hmps : (stomp_ctx pre data_ref query_ref w ez).matrix_profile_size
      = data_ref.length - w + 1 := rfl
  have hnq : (stomp_ctx pre data_ref query_ref w ez).num_queries
      = query_ref.length - w + 1 := rfl
  have hfull := stomp_rcpp_eq sqrt pre data_ref query_ref w ez hw hq hqd hnan
  rcases stomp_rcpp_run sqrt interrupt pre data_ref query_ref w ez hw hq hqd hnan with
    ⟨hno, -⟩ | ⟨m2, hm2, hp2, hi2, hf2, hrun⟩
  · exact absurd ⟨hpoll, hint⟩ (hno m hm)
  · have hmm : m2 = m := by
      rcases Nat.lt_trichotomy m2 m with h | h | h
      · exact absurd ⟨hp2, hi2⟩ (hfirst m2 h)
      · exact h
      · exact absurd ⟨hpoll, hint⟩ (hf2 m h)
    subst hmm
    obtain ⟨-, -, hsmp, hspi⟩ := seq_state_inv pre data_ref query_ref w ez hnan m2
      (by rw [hmps]; omega) (by rw [hnq]; omega)
    have hprof : ∀ i j, i < m2 → j < data_ref.length - w + 1 →
        rdT (seq_profile (stomp_ctx pre data_ref query_ref w ez) i) j
          = seqDist (stomp_ctx pre data_ref query_ref w ez) i j := by
      intro i j hi hj
      rw [seq_profile_eq pre data_ref query_ref w ez hnan i (by rw [hmps]; omega)
        (by rw [hnq]; omega), hmps, rdT_tab _ _ hj]
    refine ⟨_, _, hrun, hfull, rfl, by rw [hsmp, hmps], by rw [hspi, hmps], ?_⟩
    intro j
    simp only []
    by_cases hj : j < data_ref.length - w + 1
    · rw [rdT_tab _ _ hj, rdI_tab _ _ hj, rdT_tab _ _ hj, rdI_tab _ _ hj]
      obtain ⟨k, hk⟩ : ∃ k, query_ref.length - w + 1 = m2 + k :=
        ⟨query_ref.length - w + 1 - m2, by omega⟩
      rw [hk]
      refine ⟨?_, ⟨_, rfl, seqMP_antitone _ j m2 k⟩, ?_, ?_⟩
      · rcases seq_spec (stomp_ctx pre data_ref query_ref w ez) j m2 with
          ⟨h1, h2, h3⟩ | ⟨i, hi, h1, h2, h3, h4, h5⟩
        · left
          exact ⟨h1, h2, fun i hi => by rw [hprof i j hi hj]; exact h3 i hi⟩
        · right
          refine ⟨i, hi, h1, by rw [hprof i j hi hj]; exact h2,
            by rw [hprof i j hi hj]; exact h3, ?_, ?_⟩
          · intro i' hi'
            rw [hprof i j hi hj, hprof i' j hi' hj]
            exact h4 i' hi'
          · intro i' hi'
            rw [hprof i j hi hj, hprof i' j (by omega) hj]
            exact h5 i' hi'
      · intro htop
        have h1 : seqMP (stomp_ctx pre data_ref query_ref w ez) (m2 + k) j = ⊤ := by
          cases hx : seqMP (stomp_ctx pre data_ref query_ref w ez) (m2 + k) j with
          | top => rfl
          | coe x => rw [hx] at htop; exact absurd htop (by simp)
        have h2 := seqMP_antitone (stomp_ctx pre data_ref query_ref w ez) j m2 k
        rw [h1] at h2
        exact top_le_iff.mp h2
      · intro v hv
        obtain ⟨h1, h2⟩ := seqPI_later _ _ _ _ hv
        exact ⟨h1, h2 k⟩
    · have hj' := not_lt.mp hj
      rw [rdT_tab_ge _ _ hj', rdI_tab_ge _ _ hj', rdT_tab_ge _ _ hj', rdI_tab_ge _ _ hj']
      refine ⟨Or.inl ⟨rfl, rfl, fun i _ => seq_profile_ge _ i j (by rw [hmps]; exact hj')⟩,
        ⟨⊤, rfl, le_refl _⟩, fun _ => rfl, fun v hv => absurd hv (by simp)⟩

theorem length_interruptSeries : (interruptSeries : List K).length = 102 := by
  simp [interruptSeries]

theorem rd_interruptSeries (p : Nat) (hp : p ≤ 100) :
    rd (interruptSeries : List K) p = (p : K) := by
  unfold rd interruptSeries
  rw [List.getD_eq_getElem?_getD, List.getElem?_append_left (by simp; omega),
    List.getElem?_map, List.getElem?_range (by omega)]
  rfl

theorem rd_interruptSeries_last : rd (interruptSeries : List K) 101 = 99 := by
  unfold rd interruptSeries
  rw [List.getD_eq_getElem?_getD, List.getElem?_append_right (by simp)]
  simp

theorem interruptSeries_mean (i : Nat) (hi : i < 100) :
    windowMean (interruptSeries : List K) 2 i = ((i : K) + ((i : K) + 1)) / 2 := by
  unfold windowMean
  rw [Finset.sum_range_succ, Finset.sum_range_succ, Finset.sum_range_zero,
    rd_interruptSeries _ (by omega), rd_interruptSeries _ (by omega)]
  push_cast
  ring

theorem interruptSeries_mean_last :
    windowMean (interruptSeries : List K) 2 100 = (100 + 99) / 2 := by
  unfold windowMean
  rw [Finset.sum_range_succ, Finset.sum_range_succ, Finset.sum_range_zero,
    rd_interruptSeries _ (le_refl 100), rd_interruptSeries_last]
  push_cast
  ring

theorem interruptStats_exact :
    StatsExact (interruptStats : MassPre K) interruptSeries interruptSeries 2 := by
  have key : ∀ j, j + 2 ≤ (interruptSeries : List K).length →
      (interruptStats : MassPre K).data_mean j = windowMean interruptSeries 2 j ∧
      IsWindowSd ((interruptStats : MassPre K).data_sd j) interruptSeries 2 j := by
    intro j hj
    rw [length_interruptSeries] at hj
    refine ⟨rfl, ?_, ?_⟩
    · simp only [interruptStats]; norm_num
    · simp only [interruptStats]
      unfold windowVar
      rw [Finset.sum_range_succ, Finset.sum_range_succ, Finset.sum_range_zero]
      by_cases h : j < 100
      · rw [interruptSeries_mean j h, rd_interruptSeries _ (by omega),
          rd_interruptSeries _ (by omega)]
        push_cast
        ring
      · have hj100 : j = 100 := by omega
        subst hj100
        rw [interruptSeries_mean_last, rd_interruptSeries _ (le_refl 100),
          rd_interruptSeries_last]
        push_cast
        ring
  exact ⟨key, key⟩

theorem interruptStats_eligible (i j : Nat) :
    Eligible (interruptStats : MassPre K) 2 (0 : K) i j := by
  refine ⟨fun h => absurd h.1 (by rw [exclusion_zone_zero]; exact lt_irrefl 0), ?_, ?_⟩ <;>
  · simp only [interruptStats, DBL_EPSILON]
    norm_num

/-- With `w = 2` a rising window and the falling window 100 are at squared z-normalised
distance 8. -/
theorem interruptSeries_dist (i : Nat) (hi : i < 100) :
    znormSqDist (interruptSeries : List K) interruptSeries 2 100 i (1 / 2) (1 / 2) = 8 := by
  unfold znormSqDist
  rw [Finset.sum_range_succ, Finset.sum_range_succ, Finset.sum_range_zero,
    interruptSeries_mean i hi, interruptSeries_mean_last,
    rd_interruptSeries _ (le_refl 100), rd_interruptSeries_last,
    rd_interruptSeries _ (by omega), rd_interruptSeries _ (by omega)]
  push_cast
  ring

theorem interrupt_seqDist (i : Nat) (hi : i < 100) :
    seqDist (stomp_ctx (interruptStats : MassPre K) ((interruptSeries : List K).map some)
      (interruptSeries.map some) 2 0) i 100 = ((8 : K) : WithTop K) := by
  rw [seqDist_of_eligible interruptStats interruptSeries interruptSeries 2 0 (by norm_num)
    interruptStats_exact (by rw [length_interruptSeries])
    (by rw [length_interruptSeries]; omega) (interruptStats_eligible i 100)]
  exact congrArg _ (interruptSeries_dist i hi)

theorem interrupt_seqDist_self :
    seqDist (stomp_ctx (interruptStats : MassPre K) ((interruptSeries : List K).map some)
      (interruptSeries.map some) 2 0) 100 100 = ((0 : K) : WithTop K) := by
  rw [seqDist_of_eligible interruptStats interruptSeries interruptSeries 2 0 (by norm_num)
    interruptStats_exact (by rw [length_interruptSeries])
    (by rw [length_interruptSeries]) (interruptStats_eligible 100 100)]
  exact congrArg _ (znormSqDist_self interruptSeries 2 100 (1 / 2))

/-- After the iterations `0 .. 99` the running minimum at position 100 is 8. -/
theorem interrupt_partial_value :
    seqMP (stomp_ctx (interruptStats : MassPre K) ((interruptSeries : List K).map some)
      (interruptSeries.map some) 2 0) 100 100 = ((8 : K) : WithTop K) := by
  rcases seq_spec (stomp_ctx (interruptStats : MassPre K)
    ((interruptSeries : List K).map some) (interruptSeries.map some) 2 0) 100 100 with
    ⟨-, -, h3⟩ | ⟨i, hi, -, h2, -, -, -⟩
  · have := h3 0 (by norm_num)
    rw [interrupt_seqDist 0 (by norm_num)] at this
    exact absurd this WithTop.coe_ne_top
  · rw [h2, interrupt_seqDist i hi]

/-- After all 101 iterations the running minimum at position 100 is 0. -/
theorem interrupt_final_value :
    seqMP (stomp_ctx (interruptStats : MassPre K) ((interruptSeries : List K).map some)
      (interruptSeries.map some) 2 0) 101 100 = ((0 : K) : WithTop K) := by
  rcases seq_spec (stomp_ctx (interruptStats : MassPre K)
    ((interruptSeries : List K).map some) (interruptSeries.map some) 2 0) 100 101 with
    ⟨-, -, h3⟩ | ⟨i, hi, -, h2, -, h4, -⟩
  · have := h3 100 (by norm_num)
    rw [interrupt_seqDist_self] at this
    exact absurd this WithTop.coe_ne_top
  · have h5 := h4 100 (by norm_num)
    rw [interrupt_seqDist_self] at h5
    rw [h2]
    exact le_antisymm h5 (seqDist_nonneg _ _ _)

theorem interruptStats_noNaN (data_ref query_ref : List (Option K)) (w : Nat) (ez : K) :
    NoNaN (stomp_ctx (interruptStats : MassPre K) data_ref query_ref w ez) := by
  apply noNaN_of_sd_ne_zero
  · intro j _
    simp [stomp_ctx, interruptStats]
  · intro i _
    simp [stomp_ctx, interruptStats]

/-- C8 (amended): when `w < len(reference)`, `w ≤ len(query) ≤ len(reference)`, no
distance is `NaN` and the first polled iteration with a pending interrupt is `m`,
`stomp_rcpp` returns `partial = true` with the ProfileIndex of the loop after the
iterations `0 .. m-1` and with its MatrixProfile of that moment, as it stands or under the
square root of line 132. So `ProfileIndex[j]` is the first of the query windows
`0 .. m-1` that attains the least masked squared distance at `j` and `MatrixProfile[j]`
is that running minimum or its square root, an intermediate value; both are unset and
`+∞` when no such distance is finite. The entry of the uncancelled computation is the
square root of a value at or below every one of these distances; where it is `+∞` the
cancelled one is `+∞` too; and a stored index is a query position `≤ m` that the
uncancelled computation keeps or replaces by a position `> m`. -/
theorem stomp_rcpp_cancelled (sqrt : K → K) (interrupt : Nat → Bool) (pre : MassPre K)
    (data_ref query_ref : List (Option K)) (w : Nat) (ez : K) (m : Nat)
    (hw : w < data_ref.length) (hq : w ≤ query_ref.length)
    (hqd : query_ref.length ≤ data_ref.length)
    (hnan : NoNaN (stomp_ctx pre data_ref query_ref w ez))
    (hm : m < query_ref.length - w + 1) (hpoll : m % 100 = 0)
    (hint : interrupt m = true)
    (hfirst : ∀ m', m' < m → ¬ (m' % 100 = 0 ∧ interrupt m' = true)) :
    ∃ r r', stomp_rcpp sqrt interrupt pre data_ref query_ref w ez = Except.ok r
      ∧ stomp_rcpp sqrt (fun _ => false) pre data_ref query_ref w ez = Except.ok r'
      ∧ r.partial_flag = true
      ∧ r.profile_index
        = (seq_state (stomp_ctx pre data_ref query_ref w ez) m).profile_index
      ∧ (r.matrix_profile
          = (seq_state (stomp_ctx pre data_ref query_ref w ez) m).matrix_profile
        ∨ r.matrix_profile
          = ((seq_state (stomp_ctx pre data_ref query_ref w ez) m).matrix_profile).map
              (WithTop.map sqrt))
      ∧ ∀ j,
        ((rdI r.profile_index j = none ∧ rdT r.matrix_profile j = ⊤
            ∧ ∀ i, i < m →
              rdT (seq_profile (stomp_ctx pre data_ref query_ref w ez) i) j = ⊤)
          ∨ (∃ i, i < m ∧ rdI r.profile_index j = some (i + 1)
              ∧ (rdT r.matrix_profile j
                  = rdT (seq_profile (stomp_ctx pre data_ref query_ref w ez) i) j
                ∨ rdT r.matrix_profile j
                  = (rdT (seq_profile (stomp_ctx pre data_ref query_ref w ez) i) j).map
                      sqrt)
              ∧ rdT r.matrix_profile j ≠ ⊤
              ∧ (∀ i', i' < m →
                  rdT (seq_profile (stomp_ctx pre data_ref query_ref w ez) i) j
                    ≤ rdT (seq_profile (stomp_ctx pre data_ref query_ref w ez) i') j)
              ∧ (∀ i', i' < i →
                  rdT (seq_profile (stomp_ctx pre data_ref query_ref w ez) i) j
                    < rdT (seq_profile (stomp_ctx pre data_ref query_ref w ez) i') j)))
        ∧ (∃ x : WithTop K, rdT r'.matrix_profile j = x.map sqrt
            ∧ ∀ i, i < m →
              x ≤ rdT (seq_profile (stomp_ctx pre data_ref query_ref w ez) i) j)
        ∧ (rdT r'.matrix_profile j = ⊤ → rdT r.matrix_profile j = ⊤)
        ∧ ∀ v, rdI r.profile_index j = some v →
            v ≤ m ∧ (rdI r'.profile_index j = some v ∨
              ∃ v', rdI r'.profile_index j = some v' ∧ m < v') := by
  obtain ⟨r, r', h1, h2, h3, h4, h5, h6⟩ := stomp_rcpp_interrupted_state sqrt interrupt
    pre data_ref query_ref w ez m hw hq hqd hnan hm hpoll hint hfirst
  refine ⟨r, r', h1, h2, h3, h5, Or.inl h4, fun j => ?_⟩
  obtain ⟨hc, ⟨x, hx, hxle⟩, ht, hv⟩ := h6 j
  refine ⟨?_, ⟨x, hx, ?_⟩, ht, hv⟩
  · rcases hc with hc | ⟨i, hi, hpi, hmp, hne, hmin, hfst⟩
    · exact Or.inl hc
    · exact Or.inr ⟨i, hi, hpi, Or.inl hmp, by rw [hmp]; exact hne, hmin, hfst⟩
  · intro i hi
    rcases hc with ⟨-, -, htop⟩ | ⟨i0, hi0, -, hmp, -, hmin, -⟩
    · rw [htop i hi]
      exact le_top
    · exact le_trans hxle (by rw [hmp]; exact hmin i hi)

/-- C8 as stated fails: in the self-join of `0, 1, …, 100, 99` with `w = 2`, `ez = 0`,
an interrupt observed at the polled iteration 100 returns `partial = true` with
`MatrixProfile[100] = 8`, the running minimum of the squared distances over the queries
`0 .. 99`; it is not `+∞`, and the uncancelled computation returns `√0 = 0` there, which
is neither that value nor its square root. -/
theorem stomp_rcpp_cancelled_intermediate_value :
    ∃ r r', stomp_rcpp Real.sqrt (fun i => decide (i = 100)) (interruptStats : MassPre ℝ)
        ((interruptSeries : List ℝ).map some) (interruptSeries.map some) 2 0 = Except.ok r
      ∧ stomp_rcpp Real.sqrt (fun _ => false) (interruptStats : MassPre ℝ)
        ((interruptSeries : List ℝ).map some) (interruptSeries.map some) 2 0 = Except.ok r'
      ∧ r.partial_flag = true
      ∧ rdT r.matrix_profile 100 ≠ rdT r'.matrix_profile 100
      ∧ (rdT r.matrix_profile 100).map Real.sqrt ≠ rdT r'.matrix_profile 100
      ∧ rdT r.matrix_profile 100 ≠ ⊤ := by
  have hlen : ((interruptSeries : List ℝ).map some).length = 102 := by
    rw [List.length_map, length_interruptSeries]
  have hfull := stomp_rcpp_eq Real.sqrt (interruptStats : MassPre ℝ)
    ((interruptSeries : List ℝ).map some) (interruptSeries.map some) 2 0
    (by rw [hlen]; norm_num) (by rw [hlen]; norm_num) (le_refl _)
    (interruptStats_noNaN _ _ _ _)
  rcases stomp_rcpp_run Real.sqrt (fun i => decide (i = 100)) (interruptStats : MassPre ℝ)
    ((interruptSeries : List ℝ).map some) (interruptSeries.map some) 2 0
    (by rw [hlen]; norm_num) (by rw [hlen]; norm_num) (le_refl _)
    (interruptStats_noNaN _ _ _ _) with
    ⟨hno, -⟩ | ⟨m, -, -, hi2, -, hrun⟩
  · exact absurd ⟨by norm_num, by simp⟩ (hno 100 (by rw [hlen]; norm_num))
  · have hm : m = 100 := by simpa using hi2
    subst hm
    rw [hlen] at hrun hfull
    refine ⟨_, _, hrun, hfull, rfl, ?_, ?_, ?_⟩
    · simp only []
      rw [rdT_tab _ _ (by norm_num), rdT_tab _ _ (by norm_num), interrupt_partial_value,
        interrupt_final_value, WithTop.map_coe, Real.sqrt_zero]
      intro h
      have := WithTop.coe_injective h
      norm_num at this
    · simp only []
      rw [rdT_tab _ _ (by norm_num), rdT_tab _ _ (by norm_num), interrupt_partial_value,
        interrupt_final_value, WithTop.map_coe, WithTop.map_coe, Real.sqrt_zero]
      intro h
      have h8 := WithTop.coe_injective h
      have hpos : (0 : ℝ) < Real.sqrt 8 := Real.sqrt_pos.mpr (by norm_num)
      linarith
    · simp only []
      rw [rdT_tab _ _ (by norm_num), interrupt_partial_value]
      exact WithTop.coe_ne_top

/-- Witness of `stomp_rcpp_cancelled`: the self-join of `0, 1, …, 100, 99` with `w = 2`,
`ez = 0`, interrupted at the polled iteration `m = 100`, after 100 iterations. -/
theorem stomp_rcpp_cancelled_witness :
    ∃ r r', stomp_rcpp Real.sqrt (fun i => decide (i = 100)) (interruptStats : MassPre ℝ)
        ((interruptSeries : List ℝ).map some) (interruptSeries.map some) 2 0 = Except.ok r
      ∧ stomp_rcpp Real.sqrt (fun _ => false) (interruptStats : MassPre ℝ)
        ((interruptSeries : List ℝ).map some) (interruptSeries.map some) 2 0 = Except.ok r'
      ∧ r.partial_flag = true
      ∧ r.profile_index
        = (seq_state (stomp_ctx (interruptStats : MassPre ℝ)
            ((interruptSeries : List ℝ).map some) (interruptSeries.map some) 2 0)
            100).profile_index :=
  have hlen : ((interruptSeries : List ℝ).map some).length = 102 := by
    rw [List.length_map, length_interruptSeries]
  let ⟨r, r', h1, h2, h3, h4, _⟩ := stomp_rcpp_cancelled Real.sqrt
    (fun i => decide (i = 100)) (interruptStats : MassPre ℝ)
    ((interruptSeries : List ℝ).map some) (interruptSeries.map some) 2 0 100
    (by rw [hlen]; norm_num) (by rw [hlen]; norm_num) (le_refl _)
    (interruptStats_noNaN _ _ _ _) (by rw [hlen]; norm_num) (by norm_num) (by simp)
    (fun m' h hc => by
      have := hc.2
      simp at this
      omega)
  ⟨r, r', h1, h2, h3, h4⟩

/-! ## C9: order of two merges -/

/-- C9 (amended): for every shared state and every two block results `A` and `B`,
merging `A` then `B` yields the same shared MatrixProfile as merging `B` then `A`, and
the same shared ProfileIndex at every position where the two blocks' distances differ or
their indices agree. On a tie between `A` and `B` below the shared distance the block
merged first keeps its index (`A` then `B` leaves the index of `A`, `B` then `A` that of
`B`); on a tie that is not below the shared distance both orders keep the shared index. -/
theorem worker_merge_order (n : Nat) (sh : Shared K) (amp bmp : List (WithTop K))
    (api bpi : List (Option Nat)) :
    (worker_merge n bmp bpi (worker_merge n amp api sh)).mp
        = (worker_merge n amp api (worker_merge n bmp bpi sh)).mp ∧
    (∀ j, (rdT amp j ≠ rdT bmp j ∨ rdI api j = rdI bpi j) →
      rdI (worker_merge n bmp bpi (worker_merge n amp api sh)).pi j
        = rdI (worker_merge n amp api (worker_merge n bmp bpi sh)).pi j) ∧
    (∀ j, j < n → rdT amp j = rdT bmp j → rdT amp j < rdT sh.mp j →
      rdI (worker_merge n bmp bpi (worker_merge n amp api sh)).pi j = rdI api j
      ∧ rdI (worker_merge n amp api (worker_merge n bmp bpi sh)).pi j = rdI bpi j) ∧
    (∀ j, j < n → rdT amp j = rdT bmp j → ¬ rdT amp j < rdT sh.mp j →
      rdI (worker_merge n bmp bpi (worker_merge n amp api sh)).pi j = rdI sh.pi j
      ∧ rdI (worker_merge n amp api (worker_merge n bmp bpi sh)).pi j = rdI sh.pi j) := by
  refine ⟨?_, ?_, ?_, ?_⟩
  · simp only [worker_merge]
    apply tab_congr
    intro j hj
    simp only [rdT_tab _ _ hj, ite_lt_eq_min]
    exact min_left_comm _ _ _
  rotate_left
  · intro j hj heq hlt
    have hlt2 : rdT bmp j < rdT sh.mp j := heq ▸ hlt
    simp only [worker_merge, rdT_tab _ _ hj, rdI_tab _ _ hj, if_pos hlt, if_pos hlt2]
    constructor
    · rw [if_neg (by rw [heq]; exact lt_irrefl _)]
    · rw [if_neg (by rw [heq]; exact lt_irrefl _)]
  · intro j hj heq hlt
    have hlt2 : ¬ rdT bmp j < rdT sh.mp j := heq ▸ hlt
    simp only [worker_merge, rdT_tab _ _ hj, rdI_tab _ _ hj, if_neg hlt, if_neg hlt2]
    exact ⟨trivial, trivial⟩
  · intro j hcase
    simp only [worker_merge]
    by_cases hj : j < n
    · simp only [rdT_tab _ _ hj, rdI_tab _ _ hj]
      rcases hcase with hne | heq
      · rcases lt_or_gt_of_ne hne with hab | hab
        · by_cases h1 : rdT amp j < rdT sh.mp j
          · have h2 : ¬ rdT bmp j < rdT amp j := not_lt.mpr (le_of_lt hab)
            simp only [h1, h2, if_true, if_false]
            by_cases h3 : rdT bmp j < rdT sh.mp j
            · simp only [h3, hab, if_true]
            · simp only [h3, h1, if_false, if_true]
          · have h2 : ¬ rdT bmp j < rdT sh.mp j :=
              fun h => h1 (lt_trans hab h)
            simp only [h1, h2, if_false]
        · by_cases h1 : rdT bmp j < rdT sh.mp j
          · have h2 : ¬ rdT amp j < rdT bmp j := not_lt.mpr (le_of_lt hab)
            simp only [h1, h2, if_true, if_false]
            by_cases h3 : rdT amp j < rdT sh.mp j
            · simp only [h3, hab, if_true]
            · simp only [h3, h1, if_false, if_true]
          · have h2 : ¬ rdT amp j < rdT sh.mp j :=
              fun h => h1 (lt_trans hab h)
            simp only [h1, h2, if_false]
      · rw [heq]
        split_ifs <;> rfl
    · rw [rdI_tab_ge _ _ (not_lt.mp hj), rdI_tab_ge _ _ (not_lt.mp hj)]

/-- Witness of `worker_merge_order`: a one-entry shared state at `+∞`; block `A` with
distance 1 and index 1 against block `B` with distance 2 and index 5 (the orders agree),
and against block `B` with distance 1 and index 5 (a tie: `A` then `B` leaves index 1). -/
theorem worker_merge_order_witness :
    rdT [((1 : ℚ) : WithTop ℚ)] 0 ≠ rdT [((2 : ℚ) : WithTop ℚ)] 0 ∧
    rdI (worker_merge 1 [((2 : ℚ) : WithTop ℚ)] [some 5]
        (worker_merge 1 [((1 : ℚ) : WithTop ℚ)] [some 1] { mp := [⊤], pi := [none] })).pi 0
      = rdI (worker_merge 1 [((1 : ℚ) : WithTop ℚ)] [some 1]
        (worker_merge 1 [((2 : ℚ) : WithTop ℚ)] [some 5] { mp := [⊤], pi := [none] })).pi 0
    ∧ rdI (worker_merge 1 [((1 : ℚ) : WithTop ℚ)] [some 5]
        (worker_merge 1 [((1 : ℚ) : WithTop ℚ)] [some 1] { mp := [⊤], pi := [none] })).pi 0
      = rdI [some 1] 0 := by
  have hne : rdT [((1 : ℚ) : WithTop ℚ)] 0 ≠ rdT [((2 : ℚ) : WithTop ℚ)] 0 := by
    simp [rdT]
  exact ⟨hne, (worker_merge_order 1 { mp := [⊤], pi := [none] } [((1 : ℚ) : WithTop ℚ)]
    [((2 : ℚ) : WithTop ℚ)] [some 1] [some 5]).2.1 0 (Or.inl hne),
    ((worker_merge_order 1 { mp := [⊤], pi := [none] } [((1 : ℚ) : WithTop ℚ)]
      [((1 : ℚ) : WithTop ℚ)] [some 1] [some 5]).2.2.1 0 (by norm_num) rfl
      (by simp [rdT])).1⟩

/-- C9 as stated fails on a tie: with the shared entry at `+∞`, block `A` = (distance 1,
index 1) and block `B` = (distance 1, index 5), merging `A` then `B` leaves index 1 and
merging `B` then `A` leaves index 5. -/
theorem worker_merge_tie_depends_on_order :
    (worker_merge 1 [((1 : ℚ) : WithTop ℚ)] [some 5]
        (worker_merge 1 [((1 : ℚ) : WithTop ℚ)] [some 1] { mp := [⊤], pi := [none] })).pi
      ≠ (worker_merge 1 [((1 : ℚ) : WithTop ℚ)] [some 1]
        (worker_merge 1 [((1 : ℚ) : WithTop ℚ)] [some 5] { mp := [⊤], pi := [none] })).pi := by
  simp [worker_merge, tab, rdT, rdI]

/-! ## C10: the dot-product recurrence -/

/-- C10: if before the update for query index `i ≥ 1` the vector `last_product` holds the
dot products of every reference window with query window `i - 1`, `drop_value` is
`query[i-1]` and `first_product[i]` is the dot product of reference window 0 with query
window `i`, then after the update (the vectorised assignment of `stomp_rcpp` and the
in-place descending loop of the worker alike) `last_product[j]` is the dot product of
reference window `j` with query window `i`, for every `j` in `[0, len(ref) - w]`. -/
theorem dot_product_recurrence (cs : StompCtx K) (cw : WorkerCtx K) (st : WorkerState K)
    (i : Nat) (hi : 1 ≤ i)
    (hsame : cw.data_ref = cs.data ∧ cw.window_ref = cs.query
      ∧ cw.w_size = cs.window_size ∧ cw.size = cs.matrix_profile_size
      ∧ cw.first_product = cs.first_product)
    (hlen : st.last_product.length = cs.matrix_profile_size)
    (hpos : 0 < cs.matrix_profile_size)
    (hlast : ∀ j, j < cs.matrix_profile_size →
      rd st.last_product j = slidingDot cs.data cs.query cs.window_size j (i - 1))
    (hdrop : st.drop_value = rd cs.query (i - 1))
    (hfp : rd cs.first_product i = slidingDot cs.data cs.query cs.window_size 0 i) :
    ∀ j, j < cs.matrix_profile_size →
      rd (update_last_product cs i st.last_product st.drop_value) j
        = slidingDot cs.data cs.query cs.window_size j i ∧
      rd (worker_last_product cw i st) j
        = slidingDot cs.data cs.query cs.window_size j i := by
  obtain ⟨h1, h2, h3, h4, h5⟩ := hsame
  have hseq : ∀ j, j < cs.matrix_profile_size →
      rd (update_last_product cs i st.last_product st.drop_value) j
        = slidingDot cs.data cs.query cs.window_size j i := by
    intro j hj
    unfold update_last_product
    rw [rd_tab _ _ hj]
    by_cases hj0 : j = 0
    · subst hj0
      rw [if_pos rfl, hfp]
    · rw [if_neg hj0, hlast (j - 1) (by omega), hdrop]
      have h := slidingDot_succ cs.data cs.query cs.window_size (j - 1) (i - 1)
      rw [show j - 1 + 1 = j by omega, show i - 1 + 1 = i by omega,
        show j - 1 + cs.window_size = cs.window_size + j - 1 by omega,
        show i - 1 + cs.window_size = i + cs.window_size - 1 by omega] at h
      exact h
  intro j hj
  refine ⟨hseq j hj, ?_⟩
  rw [worker_last_product_eq cw i st (by rw [hlen, h4]) (by rw [h4]; exact hpos), h1, h2,
    h3, h4, h5, ← hseq j hj]
  rfl

/-- Witness of `dot_product_recurrence`: reference and query `[0, 1, 0]`, `w = 2`, the
update for query index 1 applied to the dot products seeded for query window 0, read at
position 1. -/
theorem dot_product_recurrence_witness :
    rd (update_last_product
        (stomp_ctx (statsHalf : MassPre ℚ) ([0, 1, 0].map some) ([0, 1, 0].map some) 2 0)
        1 (stomp_ctx (statsHalf : MassPre ℚ) ([0, 1, 0].map some) ([0, 1, 0].map some)
          2 0).nn.last_product 0) 1
      = slidingDot [0, 1, 0] [0, 1, 0] 2 1 1 ∧
    rd (worker_last_product
        (parallel_ctx (fun _ d _ => d) (statsHalf : MassPre ℚ) ([0, 1, 0].map some)
          ([0, 1, 0].map some) 2 0) 1
        { distance_profile := [], matrix_profile := [], profile_index := []
          last_product := (stomp_ctx (statsHalf : MassPre ℚ) ([0, 1, 0].map some)
            ([0, 1, 0].map some) 2 0).nn.last_product
          drop_value := 0 }) 1
      = slidingDot [0, 1, 0] [0, 1, 0] 2 1 1 := by
  have h := dot_product_recurrence
    (stomp_ctx (statsHalf : MassPre ℚ) ([0, 1, 0].map some) ([0, 1, 0].map some) 2 0)
    (parallel_ctx (fun _ d _ => d) (statsHalf : MassPre ℚ) ([0, 1, 0].map some)
      ([0, 1, 0].map some) 2 0)
    { distance_profile := [], matrix_profile := [], profile_index := []
      last_product := (stomp_ctx (statsHalf : MassPre ℚ) ([0, 1, 0].map some)
        ([0, 1, 0].map some) 2 0).nn.last_product
      drop_value := 0 }
    1 (le_refl 1) ⟨rfl, rfl, rfl, rfl, rfl⟩
    (by simp [stomp_ctx, mass3_rcpp])
    (by simp [stomp_ctx])
    (by
      intro j hj
      simp only []
      rw [ctx_nn_last, rd_tab _ _ hj]
      rfl)
    (by simp [stomp_ctx, sanitize, rd])
    (ctx_first_product (statsHalf : MassPre ℚ) ([0, 1, 0].map some) ([0, 1, 0].map some)
      2 0 (by simp [stomp_ctx]))
  have hd : (stomp_ctx (statsHalf : MassPre ℚ) ([0, 1, 0].map some)
      ([0, 1, 0].map some) 2 0).data = [0, 1, 0] := by
    simp [stomp_ctx, sanitize]
  have hq : (stomp_ctx (statsHalf : MassPre ℚ) ([0, 1, 0].map some)
      ([0, 1, 0].map some) 2 0).query = [0, 1, 0] := by
    simp [stomp_ctx, sanitize]
  have h2 := h 1 (by simp [stomp_ctx])
  rw [hd, hq] at h2
  exact h2

/-! ## The distance expression is the squared z-normalised distance -/

/-- C11: for two windows of length `w` with their arithmetic means and non-zero population
standard deviations `sa`, `sb`, the expression `2 * (w - (z - w * mu_a * mu_b) / (sa * sb))`
of the code, taken at the dot product `z` of the two windows, equals the sum of the squared
differences of the z-normalised samples, and is therefore not negative. -/
theorem distance_formula_identity (a b : List K) (w j i : Nat) (sa sb : K)
    (hsa : IsWindowSd sa a w j) (hsb : IsWindowSd sb b w i) (hsa0 : sa ≠ 0) (hsb0 : sb ≠ 0) :
    distFormula w (slidingDot a b w j i) (windowMean a w j) sa (windowMean b w i) sb
        = znormSqDist a b w j i sa sb
      ∧ 0 ≤ distFormula w (slidingDot a b w j i) (windowMean a w j) sa (windowMean b w i) sb := by
  have hw : 0 < w := by
    rcases Nat.eq_zero_or_pos w with h0 | h0
    · exfalso
      apply hsa0
      have h1 := hsa.2
      rw [h0] at h1
      simp only [windowVar, Finset.range_zero, Finset.sum_empty, zero_div] at h1
      exact pow_eq_zero_iff (two_ne_zero) |>.mp h1
    · exact h0
  have hid := dist_identity w hw (fun t => rd a (j + t)) (fun t => rd b (i + t))
    (windowMean a w j) (windowMean b w i) sa sb rfl rfl hsa.2 hsb.2 hsa0 hsb0
  have heq : distFormula w (slidingDot a b w j i) (windowMean a w j) sa (windowMean b w i) sb
      = znormSqDist a b w j i sa sb := hid
  exact ⟨heq, heq ▸ znormSqDist_nonneg a b w j i sa sb⟩

theorem distance_formula_identity_witness :
    IsWindowSd ((1 : ℝ) / 2) [0, 1, 0] 2 0 ∧ IsWindowSd ((1 : ℝ) / 2) [0, 1] 2 0
      ∧ distFormula 2 (slidingDot [0, 1, 0] [0, 1] 2 0 0) (windowMean [0, 1, 0] 2 0)
          ((1 : ℝ) / 2) (windowMean [0, 1] 2 0) (1 / 2)
        = znormSqDist [0, 1, 0] [0, 1] 2 0 0 ((1 : ℝ) / 2) (1 / 2) :=
  ⟨(statsHalf_exact.1 0 (by simp)).2, (statsHalf_exact.2 0 (by simp)).2,
    (distance_formula_identity [0, 1, 0] [0, 1] 2 0 0 ((1 : ℝ) / 2) (1 / 2)
      (statsHalf_exact.1 0 (by simp)).2 (statsHalf_exact.2 0 (by simp)).2
      (by norm_num) (by norm_num)).1⟩

/-! ## What `mass3_cpp` returns -/

/-- C12: with the transforms modelled as an exact cyclic convolution, for a window size
`w ≥ 1` and a block size `k` with `w ≤ k ≤ d_size`, both outputs of `mass3_cpp` have
`d_size - w + 1` entries, `last_product[j]` is the dot product of the query with window `j`
of the data at every `j ≤ d_size - w` (in the full blocks and in the final partial block),
and `distance_profile[j]` is the distance expression taken at that `last_product[j]`. -/
theorem mass3_cpp_sliding_dot (set_k_rcpp : Nat → Nat → Nat → Nat) (q data : List K)
    (d w : Nat) (data_mean data_sd : Nat → K) (query_mean query_sd : K) (k0 : Nat)
    (hw : 1 ≤ w) (hwk : w ≤ set_k_rcpp k0 d w) (hkd : set_k_rcpp k0 d w ≤ d) :
    (mass3_cpp set_k_rcpp q data d w data_mean data_sd query_mean query_sd
        k0).last_product.length = d - w + 1
      ∧ (mass3_cpp set_k_rcpp q data d w data_mean data_sd query_mean query_sd
        k0).distance_profile.length = d - w + 1
      ∧ ∀ j, j ≤ d - w →
        rd (mass3_cpp set_k_rcpp q data d w data_mean data_sd query_mean query_sd
            k0).last_product j = ∑ t in range w, rd data (j + t) * rd q t
        ∧ rd (mass3_cpp set_k_rcpp q data d w data_mean data_sd query_mean query_sd
            k0).distance_profile j
          = distFormula w (rd (mass3_cpp set_k_rcpp q data d w data_mean data_sd query_mean
              query_sd k0).last_product j) (data_mean j) (data_sd j) query_mean query_sd := by
  obtain ⟨h1, h2, h3⟩ := mass3_cpp_good set_k_rcpp q data d w data_mean data_sd query_mean
    query_sd k0 hw hwk hkd
  refine ⟨h1, h2, fun j hj => ?_⟩
  obtain ⟨ha, hb⟩ := h3 j (by omega) (by omega)
  have hs : slidingDot data q w j 0 = ∑ t in range w, rd data (j + t) * rd q t := by
    simp only [slidingDot, Nat.zero_add]
  rw [hb, ha, hs]
  exact ⟨rfl, rfl⟩

theorem mass3_cpp_sliding_dot_witness :
    (2 : Nat) ≤ 3 ∧
      rd (mass3_cpp (fun _ _ _ => 2) [0, 1] [0, 1, 0] 3 2 (fun _ => (1 : ℚ) / 2)
          (fun _ => 1 / 2) (1 / 2) (1 / 2) 4).last_product 1
        = ∑ t in range 2, rd [(0 : ℚ), 1, 0] (1 + t) * rd [(0 : ℚ), 1] t :=
  ⟨by norm_num,
    ((mass3_cpp_sliding_dot (fun _ _ _ => 2) [0, 1] [0, 1, 0] 3 2 (fun _ => (1 : ℚ) / 2)
      (fun _ => 1 / 2) (1 / 2) (1 / 2) 4 (by norm_num) (by norm_num) (by norm_num)).2.2 1
      (by norm_num)).1⟩

/-! ## Block coverage of `mass3_cpp` -/

/-- The block loop is the fold of the block body over the blocks of its control flow. -/
theorem mass3_loop_eq_blocks (rev data : List K) (w : Nat) (data_mean data_sd : Nat → K)
    (query_mean query_sd : K) (k seq_end : Nat) :
    ∀ (fuel j : Nat) (acc : MassOut K),
      mass3_loop rev data w data_mean data_sd query_mean query_sd k seq_end fuel j acc
        = ((mass3_loop_blocks w k seq_end fuel j).1,
            (mass3_loop_blocks w k seq_end fuel j).2.foldl
              (fun a b => mass3_block rev data w data_mean data_sd query_mean query_sd
                b.1 b.2 a) acc) := by
  intro fuel
  induction fuel with
  | zero => intro j acc; rfl
  | succ fuel ih =>
    intro j acc
    by_cases hle : j ≤ seq_end
    · simp only [mass3_loop, mass3_loop_blocks, hle, if_true, List.foldl_cons]
      exact ih _ _
    · simp only [mass3_loop, mass3_loop_blocks, hle, if_false, List.foldl_nil]

/-- The function `mass3_cpp` is the fold of the block body over `mass3_blocks`. -/
theorem mass3_cpp_eq_foldl (set_k_rcpp : Nat → Nat → Nat → Nat) (q data : List K)
    (d w : Nat) (data_mean data_sd : Nat → K) (query_mean query_sd : K) (k0 : Nat) :
    mass3_cpp set_k_rcpp q data d w data_mean data_sd query_mean query_sd k0
      = (mass3_blocks d w (set_k_rcpp k0 d w)).foldl
          (fun a b => mass3_block (rev_query q w (set_k_rcpp k0 d w)) data w data_mean
            data_sd query_mean query_sd b.1 b.2 a)
          { distance_profile := tab (d - w + 1) (fun _ => 0),
            last_product := tab (d - w + 1) (fun _ => 0) } := by
  unfold mass3_cpp mass3_blocks
  simp only [mass3_loop_eq_blocks]
  split_ifs <;> simp [List.foldl_append]

/-- The full-size blocks tile `[j, exit)`: the loop leaves with `seq_end < j`, never
passes `seq_end + jump`, and every position is written by exactly one block when it lies
in `[j, exit)` and by none otherwise. -/
theorem mass3_loop_blocks_cover (w k seq_end : Nat) :
    ∀ (fuel j : Nat), j ≤ seq_end + (k - w + 1) → seq_end + 1 - j ≤ fuel →
      j ≤ (mass3_loop_blocks w k seq_end fuel j).1
        ∧ seq_end < (mass3_loop_blocks w k seq_end fuel j).1
        ∧ (mass3_loop_blocks w k seq_end fuel j).1 ≤ seq_end + (k - w + 1)
        ∧ (∀ b ∈ (mass3_loop_blocks w k seq_end fuel j).2, b.2 = k ∧ b.1 ≤ seq_end)
        ∧ ∀ p, (mass3_loop_blocks w k seq_end fuel j).2.countP (fun b => block_writes w b p)
            = if j ≤ p ∧ p < (mass3_loop_blocks w k seq_end fuel j).1 then 1 else 0 := by
  intro fuel
  induction fuel with
  | zero =>
    intro j hj hf
    refine ⟨le_refl _, by simp only [mass3_loop_blocks]; omega, hj, ?_, ?_⟩
    · intro b hb
      simp [mass3_loop_blocks] at hb
    · intro p
      have : ¬ (j ≤ p ∧ p < j) := by omega
      simp [mass3_loop_blocks, this]
  | succ fuel ih =>
    intro j hj hf
    by_cases hle : j ≤ seq_end
    · obtain ⟨h1, h2, h3, h4, h5⟩ := ih (j + (k - w + 1)) (by omega) (by omega)
      simp only [mass3_loop_blocks, hle, if_true]
      refine ⟨by omega, h2, h3, ?_, ?_⟩
      · intro b hb
        rcases List.mem_cons.mp hb with rfl | hb
        · exact ⟨rfl, hle⟩
        · exact h4 b hb
      · intro p
        rw [List.countP_cons, h5 p]
        simp only [block_writes]
        by_cases hp1 : j ≤ p ∧ p < j + (k - w + 1)
        · have hn : ¬ (j + (k - w + 1) ≤ p ∧
              p < (mass3_loop_blocks w k seq_end fuel (j + (k - w + 1))).1) := by omega
          have hy : j ≤ p ∧ p < (mass3_loop_blocks w k seq_end fuel (j + (k - w + 1))).1 := by
            omega
          simp [hp1, hn, hy]
        · by_cases hp2 : j + (k - w + 1) ≤ p ∧
              p < (mass3_loop_blocks w k seq_end fuel (j + (k - w + 1))).1
          · have hy : j ≤ p ∧
                p < (mass3_loop_blocks w k seq_end fuel (j + (k - w + 1))).1 := by omega
            simp [hp1, hp2, hy]
          · have hy : ¬ (j ≤ p ∧
                p < (mass3_loop_blocks w k seq_end fuel (j + (k - w + 1))).1) := by omega
            simp [hp1, hp2, hy]
    · simp only [mass3_loop_blocks, hle, if_false]
      refine ⟨le_refl _, by omega, hj, ?_, ?_⟩
      · intro b hb
        simp at hb
      · intro p
        have : ¬ (j ≤ p ∧ p < j) := by omega
        simp [this]

/-- C13: for `1 ≤ w ≤ k ≤ d_size`, with `k` the block size returned by `set_k_rcpp`,
`mass3_cpp` is the block body run over the blocks `mass3_blocks` (the full-size blocks at
`j = 0, jump, 2 * jump, …` while `j ≤ d_size - k`, then the final partial block); these
blocks write every output position `p ≤ d_size - w` exactly once and no position beyond
`d_size - w`; every block has between `w` and `k` samples, all inside the data; and every
read `z[w - 1 + i]` of a block lies inside the transform of that block. -/
theorem mass3_block_coverage (set_k_rcpp : Nat → Nat → Nat → Nat) (q data : List K)
    (d w : Nat) (data_mean data_sd : Nat → K) (query_mean query_sd : K) (k0 k : Nat)
    (hk : k = set_k_rcpp k0 d w) (hw : 1 ≤ w) (hwk : w ≤ k) (hkd : k ≤ d) :
    mass3_cpp set_k_rcpp q data d w data_mean data_sd query_mean query_sd k0
        = (mass3_blocks d w k).foldl
            (fun a b => mass3_block (rev_query q w k) data w data_mean data_sd query_mean
              query_sd b.1 b.2 a)
            { distance_profile := tab (d - w + 1) (fun _ => 0),
              last_product := tab (d - w + 1) (fun _ => 0) }
      ∧ (∀ p, p ≤ d - w → (mass3_blocks d w k).countP (fun b => block_writes w b p) = 1)
      ∧ (∀ p, d - w < p → (mass3_blocks d w k).countP (fun b => block_writes w b p) = 0)
      ∧ (∀ b ∈ mass3_blocks d w k, w ≤ b.2 ∧ b.2 ≤ k ∧ b.1 + b.2 ≤ d)
      ∧ (∀ b ∈ mass3_blocks d w k, ∀ (x y : List K) (i : Nat), i < b.2 - w + 1 →
          w - 1 + i < (cyclic_conv b.2 x y).length) := by
  obtain ⟨-, h2, h3, h4, h5⟩ := mass3_loop_blocks_cover w k (d - k) (d - k + 1) 0
    (by omega) (by omega)
  have hsz : ∀ b ∈ mass3_blocks d w k, w ≤ b.2 ∧ b.2 ≤ k ∧ b.1 + b.2 ≤ d := by
    intro b hb
    unfold mass3_blocks at hb
    simp only [] at hb
    generalize mass3_loop_blocks w k (d - k) (d - k + 1) 0 = r at h2 h3 h4 h5 hb
    have hmain : b ∈ r.2 → w ≤ b.2 ∧ b.2 ≤ k ∧ b.1 + b.2 ≤ d := by
      intro hin
      obtain ⟨e1, e2⟩ := h4 b hin
      omega
    split_ifs at hb with hj hc
    · exact hmain hb
    · rcases List.mem_append.mp hb with hin | hin
      · exact hmain hin
      · rw [List.mem_singleton] at hin
        subst hin
        simp only []
        omega
    · exact hmain hb
  have hcount : ∀ p, (mass3_blocks d w k).countP (fun b => block_writes w b p)
      = if p ≤ d - w then 1 else 0 := by
    intro p
    unfold mass3_blocks
    simp only []
    generalize mass3_loop_blocks w k (d - k) (d - k + 1) 0 = r at h2 h3 h4 h5
    by_cases hj : w ≤ d - r.1
    · have hc : ¬ d - w + 1 < d - r.1 - (w - 1) + r.1 := by omega
      rw [if_pos hj, if_neg hc, List.countP_append, h5 p]
      simp only [List.countP_cons, List.countP_nil, block_writes]
      by_cases hp1 : p < r.1
      · have ha : (0 ≤ p ∧ p < r.1) := ⟨Nat.zero_le _, hp1⟩
        have hb : ¬ (r.1 ≤ p ∧ p < r.1 + (d - r.1 - w + 1)) := by omega
        have hc2 : p ≤ d - w := by omega
        simp only [ha, hb, hc2, if_true, if_false, decide_True, decide_False, Bool.false_eq_true,
          and_self, and_true, true_and, zero_le, Nat.add_zero, Nat.zero_add]
      · have ha : ¬ (0 ≤ p ∧ p < r.1) := by omega
        by_cases hp2 : p ≤ d - w
        · have hb : (r.1 ≤ p ∧ p < r.1 + (d - r.1 - w + 1)) := by omega
          simp only [ha, hb, hp2, hp1, if_true, if_false, decide_True, decide_False, Bool.false_eq_true,
          and_self, and_true, true_and, zero_le, Nat.add_zero, Nat.zero_add]
        · have hb : ¬ (r.1 ≤ p ∧ p < r.1 + (d - r.1 - w + 1)) := by omega
          simp only [ha, hb, hp2, hp1, if_true, if_false, decide_True, decide_False, Bool.false_eq_true,
          and_self, and_true, true_and, zero_le, Nat.add_zero, Nat.zero_add]
    · rw [if_neg hj, h5 p]
      by_cases hp1 : p ≤ d - w
      · have ha : p < r.1 := by omega
        simp only [ha, hp1, if_true, if_false, decide_True, decide_False, Bool.false_eq_true,
          and_self, and_true, true_and, zero_le, Nat.add_zero, Nat.zero_add]
      · have ha : ¬ p < r.1 := by omega
        simp only [ha, hp1, if_true, if_false, decide_True, decide_False, Bool.false_eq_true,
          and_self, and_true, true_and, zero_le, Nat.add_zero, Nat.zero_add]
  refine ⟨?_, fun p hp => by rw [hcount p, if_pos hp],
    fun p hp => by rw [hcount p, if_neg (by omega)], hsz, ?_⟩
  · rw [hk]
    exact mass3_cpp_eq_foldl set_k_rcpp q data d w data_mean data_sd query_mean query_sd k0
  intro b hb x y i hi
  obtain ⟨e1, -, -⟩ := hsz b hb
  simp only [cyclic_conv, length_tab]
  omega

theorem mass3_block_coverage_witness :
    (2 : Nat) ≤ 3 ∧ (mass3_blocks 4 2 3).countP (fun b => block_writes 2 b 2) = 1 :=
  ⟨by norm_num,
    (mass3_block_coverage (fun _ _ _ => 3) [0, 1] [0, 1, 0, 1] 4 2 (fun _ => (1 : ℚ) / 2)
      (fun _ => 1 / 2) (1 / 2) (1 / 2) 6 3 rfl (by norm_num) (by norm_num)
      (by norm_num)).2.1 2 (by norm_num)⟩

/-! ## The consistency check of `mass3_cpp` -/

/-- C20: for `1 ≤ w ≤ k ≤ d_size` the block loop of `mass3_cpp` leaves through its
condition with `d_size - k < j ≤ d_size - w + 1`; when the remainder is processed
(`jump = d_size - j ≥ w`) the quantity `jump - (w - 1) + j` tested at line 222 equals
`p_size = d_size - w + 1`, so `mass3_cpp` returns the output with the final block stitched
in; and when no remainder is left, the loop has already reached `j = p_size`. -/
theorem mass3_cpp_check_never_fires (set_k_rcpp : Nat → Nat → Nat → Nat) (q data : List K)
    (d w : Nat) (data_mean data_sd : Nat → K) (query_mean query_sd : K) (k0 : Nat)
    (hw : 1 ≤ w) (hwk : w ≤ set_k_rcpp k0 d w) (hkd : set_k_rcpp k0 d w ≤ d)
    (r : Nat × MassOut K)
    (hr : r = mass3_loop (rev_query q w (set_k_rcpp k0 d w)) data w data_mean data_sd
      query_mean query_sd (set_k_rcpp k0 d w) (d - set_k_rcpp k0 d w)
      (d - set_k_rcpp k0 d w + 1) 0
      { distance_profile := tab (d - w + 1) (fun _ => 0),
        last_product := tab (d - w + 1) (fun _ => 0) }) :
    d - set_k_rcpp k0 d w < r.1 ∧ r.1 ≤ d - w + 1
      ∧ (w ≤ d - r.1 →
          d - r.1 - (w - 1) + r.1 = d - w + 1
          ∧ mass3_cpp set_k_rcpp q data d w data_mean data_sd query_mean query_sd k0
            = mass3_block (rev_query q w (set_k_rcpp k0 d w)) data w data_mean data_sd
                query_mean query_sd r.1 (d - r.1) r.2)
      ∧ (d - r.1 < w →
          r.1 = d - w + 1
          ∧ mass3_cpp set_k_rcpp q data d w data_mean data_sd query_mean query_sd k0
            = r.2) := by
  have hinit : MassGood q data w data_mean data_sd query_mean query_sd (d - w + 1) 0
      { distance_profile := tab (d - w + 1) (fun _ => 0),
        last_product := tab (d - w + 1) (fun _ => 0) } :=
    ⟨by simp, by simp, fun p hp _ => absurd hp (Nat.not_lt_zero p)⟩
  obtain ⟨-, hlt, hle⟩ := mass3_loop_good q data w (set_k_rcpp k0 d w) data_mean data_sd
    query_mean query_sd (d - w + 1) (d - set_k_rcpp k0 d w) hw hwk
    (d - set_k_rcpp k0 d w + 1) 0 _ hinit (by omega) (by omega)
  rw [← hr] at hlt hle
  refine ⟨hlt, by omega, ?_, ?_⟩
  · intro hj
    have hc : ¬ d - w + 1 < d - r.1 - (w - 1) + r.1 := by omega
    refine ⟨by omega, ?_⟩
    unfold mass3_cpp
    simp only []
    rw [← hr, if_pos hj, if_neg hc]
  · intro hj
    refine ⟨by omega, ?_⟩
    unfold mass3_cpp
    simp only []
    rw [← hr, if_neg (by omega)]

theorem mass3_cpp_check_never_fires_witness :
    (2 : Nat) ≤ 3 ∧
      (mass3_loop (rev_query [0, 1] 2 3) [0, 1, 0, 1] 2 (fun _ => (1 : ℚ) / 2)
        (fun _ => 1 / 2) (1 / 2) (1 / 2) 3 (4 - 3) (4 - 3 + 1) 0
        { distance_profile := tab (4 - 2 + 1) (fun _ => 0),
          last_product := tab (4 - 2 + 1) (fun _ => 0) }).1 ≤ 4 - 2 + 1 :=
  ⟨by norm_num,
    (mass3_cpp_check_never_fires (fun _ _ _ => 3) [0, 1] [0, 1, 0, 1] 4 2
      (fun _ => (1 : ℚ) / 2) (fun _ => 1 / 2) (1 / 2) (1 / 2) 6 (by norm_num) (by norm_num)
      (by norm_num) _ rfl).2.1⟩

/-! ## The first iteration of a worker block -/

/-- After its first iteration a worker block clamps every distance at zero. -/
theorem workerDist_nonneg (c : WorkerCtx K) (begin i j : Nat) (h : i ≠ begin) :
    0 ≤ workerDist c begin i j := by
  unfold workerDist
  rw [if_neg h]
  split_ifs
  · exact WithTop.coe_le_coe.mpr (le_max_left _ _)
  · exact le_top

/-- A fold that starts with the distance zero and never sees a negative distance keeps
that first index. -/
theorem cont_first_zero (D : Nat → Nat → WithTop K) (s j : Nat)
    (h0 : D s j = ((0 : K) : WithTop K)) (hnn : ∀ i, ((0 : K) : WithTop K) ≤ D i j) :
    ∀ n, 0 < n → contMP D s (fun _ => ⊤) n j = ((0 : K) : WithTop K)
      ∧ contPI D s (fun _ => ⊤) (fun _ => none) n j = some (s + 1) := by
  intro n
  induction n with
  | zero => intro h; exact absurd h (lt_irrefl 0)
  | succ n ih =>
    intro _
    rcases Nat.eq_zero_or_pos n with hn | hn
    · subst hn
      simp only [contMP, contPI, Nat.add_zero, h0]
      rw [if_pos (WithTop.coe_lt_top 0), if_pos (WithTop.coe_lt_top 0)]
      exact ⟨rfl, rfl⟩
    · obtain ⟨h1, h2⟩ := ih hn
      simp only [contMP, contPI]
      rw [h1, if_neg (not_lt.mpr (hnn _)), if_neg (not_lt.mpr (hnn _))]
      exact ⟨rfl, h2⟩

/-- The parallel result when the whole range of query indices is one block `[0, e)`. -/
theorem parallel_single_block (sqrt : K → K) (set_k_rcpp : Nat → Nat → Nat → Nat)
    (pre : MassPre K) (data_ref query_ref : List (Option K)) (w : Nat) (ez : K) (e : Nat)
    (hw : 1 ≤ w)
    (hset : ∀ k0, w ≤ set_k_rcpp k0 data_ref.length w
      ∧ set_k_rcpp k0 data_ref.length w ≤ data_ref.length)
    (hlong : w < e) (he : e ≤ query_ref.length - w + 1) :
    stomp_rcpp_parallel sqrt set_k_rcpp pre data_ref query_ref w ez [(0, e)]
      = { matrix_profile := tab (data_ref.length - w + 1) (fun j =>
            (contMP (workerDist (parallel_ctx set_k_rcpp pre data_ref query_ref w ez) 0) 0
              (fun _ => ⊤) e j).map sqrt)
          profile_index := tab (data_ref.length - w + 1)
            (contPI (workerDist (parallel_ctx set_k_rcpp pre data_ref query_ref w ez) 0) 0
              (fun _ => ⊤) (fun _ => none) e)
          partial_flag := false } := by
  have hok := parallel_ctx_ok set_k_rcpp pre data_ref query_ref w ez hw hset
  have hsize : (parallel_ctx set_k_rcpp pre data_ref query_ref w ez).size
      = data_ref.length - w + 1 := rfl
  have hws : (parallel_ctx set_k_rcpp pre data_ref query_ref w ez).w_size = w := rfl
  unfold stomp_rcpp_parallel
  simp only [List.foldl_cons, List.foldl_nil]
  rw [stomp_worker_eq _ _ 0 e _ hok (by rw [hws]; omega) he, worker_merge_tab, hsize]
  simp only [Nat.sub_zero, map_tab]
  congr 1
  · apply tab_congr
    intro j _
    rw [(cont_merge _ 0 (fun _ => ⊤) (fun _ => none) j e).1]
  · apply tab_congr
    intro j _
    rw [(cont_merge _ 0 (fun _ => ⊤) (fun _ => none) j e).2]

/-- C14, evaluated on the self-join of `[0, 1, 0, 1]` with `w = 2` and `ez = 1/2` (an
exclusion radius of 1) run as the single block `[0, 3)`: the parallel result pairs
position 0 with query index 0 (stored as 1) at distance 0, so the distance folded in at
`i = begin = 0` was finite at `j = 0` although `|i - j| ≤ 1`; the sequential loop masks
that position and stores the index 3. -/
theorem stomp_worker_first_index_unmasked :
    (0 : Int) < exclusion_zone 2 ((1 : ℝ) / 2)
      ∧ rdI (stomp_rcpp_parallel Real.sqrt (fun _ d _ => d) (statsHalf : MassPre ℝ)
          ([0, 1, 0, 1].map some) ([0, 1, 0, 1].map some) 2 (1 / 2)
          [(0, 3)]).profile_index 0 = some 1
      ∧ rdT (stomp_rcpp_parallel Real.sqrt (fun _ d _ => d) (statsHalf : MassPre ℝ)
          ([0, 1, 0, 1].map some) ([0, 1, 0, 1].map some) 2 (1 / 2)
          [(0, 3)]).matrix_profile 0 = ((0 : ℝ) : WithTop ℝ)
      ∧ ∃ r, stomp_rcpp Real.sqrt (fun _ => false) (statsHalf : MassPre ℝ)
          ([0, 1, 0, 1].map some) ([0, 1, 0, 1].map some) 2 (1 / 2) = Except.ok r
        ∧ rdI r.profile_index 0 = some 3 := by
  have hez : (0 : Int) < exclusion_zone 2 ((1 : ℝ) / 2) := by
    rw [exclusion_zone_two_half]; exact Int.one_pos
  have hlen : ([0, 1, 0, 1].map (some : ℝ → Option ℝ)).length = 4 := rfl
  have hpar := parallel_single_block Real.sqrt (fun _ d _ => d) (statsHalf : MassPre ℝ)
    ([0, 1, 0, 1].map some) ([0, 1, 0, 1].map some) 2 (1 / 2) 3 (by norm_num)
    (fun _ => ⟨by rw [hlen]; norm_num, le_refl _⟩) (by norm_num) (by rw [hlen])
  have h0 : workerDist (parallel_ctx (fun _ d _ => d) (statsHalf : MassPre ℝ)
      ([0, 1, 0, 1].map some) ([0, 1, 0, 1].map some) 2 (1 / 2)) 0 0 0
      = ((0 : ℝ) : WithTop ℝ) := by
    unfold workerDist
    rw [if_pos rfl]
    simp only [parallel_ctx, sanitize_map_some]
    rw [WithTop.coe_eq_coe]
    simp [distFormula, slidingDot, statsHalf, rd, Finset.sum_range_succ]
    norm_num
  have hnn : ∀ i, ((0 : ℝ) : WithTop ℝ) ≤ workerDist (parallel_ctx (fun _ d _ => d)
      (statsHalf : MassPre ℝ) ([0, 1, 0, 1].map some) ([0, 1, 0, 1].map some) 2 (1 / 2))
      0 i 0 := by
    intro i
    by_cases hi : i = 0
    · rw [hi, h0]
    · exact workerDist_nonneg _ 0 i 0 hi
  obtain ⟨hm, hp⟩ := cont_first_zero _ 0 0 h0 hnn 3 (by norm_num)
  refine ⟨hez, ?_, ?_, ?_⟩
  · rw [hpar]
    simp only []
    rw [rdI_tab _ _ (by rw [hlen]; norm_num), hp]
  · rw [hpar]
    simp only []
    rw [rdT_tab _ _ (by rw [hlen]; norm_num), hm]
    simp
  · have hseq := stomp_rcpp_eq Real.sqrt (statsHalf : MassPre ℝ) ([0, 1, 0, 1].map some)
      ([0, 1, 0, 1].map some) 2 (1 / 2) (by rw [hlen]; norm_num) (by rw [hlen]; norm_num)
      (le_refl _) (statsHalf_noNaN _ _ _ _)
    refine ⟨_, hseq, ?_⟩
    simp only []
    rw [rdI_tab _ _ (by rw [hlen]; norm_num)]
    have hin : ∀ i : Nat, i ≤ 1 → inExclusionZone 2 ((1 : ℝ) / 2) i 0 := by
      intro i hi
      refine ⟨hez, ?_⟩
      rw [exclusion_zone_two_half]
      have : ((i : Int) - ((0 : Nat) : Int)) = i := by simp
      rw [this, abs_of_nonneg (by positivity)]
      exact_mod_cast hi
    have hd0 := seqDist_of_not_eligible (statsHalf : MassPre ℝ) [0, 1, 0, 1] [0, 1, 0, 1] 2
      (1 / 2) (i := 0) (j := 0) (by simp) (fun h => h.1 (hin 0 (by norm_num)))
    have hd1 := seqDist_of_not_eligible (statsHalf : MassPre ℝ) [0, 1, 0, 1] [0, 1, 0, 1] 2
      (1 / 2) (i := 1) (j := 0) (by simp) (fun h => h.1 (hin 1 (by norm_num)))
    have hel : Eligible (statsHalf : MassPre ℝ) 2 (1 / 2) 2 0 := by
      refine ⟨fun h => ?_, statsHalf_sd_ok 0, statsHalf_qsd_ok 2⟩
      have h2 := h.2
      rw [exclusion_zone_two_half] at h2
      norm_num at h2
    have hd2 := seqDist_of_eligible (statsHalf : MassPre ℝ) [0, 1, 0, 1] [0, 1, 0, 1] 2
      (1 / 2) (by norm_num) statsHalf_exact4 (i := 2) (j := 0) (by simp) (by simp) hel
    have hlen2 : ([0, 1, 0, 1].map (some : ℝ → Option ℝ)).length - 2 + 1 = 3 := rfl
    rw [hlen2]
    simp only [seqPI, seqMP, hd0, hd1, hd2, lt_self_iff_false, if_false]
    rw [if_pos (WithTop.coe_lt_top _)]

/-! ## Windows with a standard deviation below `DBL_EPSILON` in the worker -/

theorem statsTiny_exact :
    StatsExact (statsTiny : MassPre ℝ) tinySeries tinySeries 2 := by
  constructor <;>
  · intro j hj
    have hj2 : j < 3 := by simp [tinySeries] at hj; omega
    interval_cases j <;>
      simp [statsTiny, tinySeries, IsWindowSd, windowVar, windowMean, rd,
        Finset.sum_range_succ] <;>
      norm_num

theorem statsTiny_sd_small (j : Nat) : (statsTiny : MassPre ℝ).data_sd j < DBL_EPSILON := by
  unfold DBL_EPSILON
  simp only [statsTiny]
  norm_num

theorem statsTiny_qsd_small (i : Nat) :
    (statsTiny : MassPre ℝ).query_sd i < DBL_EPSILON := by
  unfold DBL_EPSILON
  simp only [statsTiny]
  norm_num

/-- C15, evaluated on the self-join of `tinySeries` (`0, e, 0, e` with `e = 2^-53`, every
window with the standard deviation `2^-54 < DBL_EPSILON`) with `w = 2` and `ez = 0` run as
the single block `[0, 3)`: the worker pairs position 1 with query index 1 (stored as 2) at
distance 0, although both standard deviations are below `DBL_EPSILON`; the sequential loop
forces these distances to infinity and leaves the index unset. -/
theorem stomp_worker_small_sd_not_masked :
    StatsExact (statsTiny : MassPre ℝ) tinySeries tinySeries 2
      ∧ (statsTiny : MassPre ℝ).data_sd 1 < DBL_EPSILON
      ∧ (statsTiny : MassPre ℝ).query_sd 1 < DBL_EPSILON
      ∧ rdI (stomp_rcpp_parallel Real.sqrt (fun _ d _ => d) (statsTiny : MassPre ℝ)
          (tinySeries.map some) (tinySeries.map some) 2 0 [(0, 3)]).profile_index 1 = some 2
      ∧ rdT (stomp_rcpp_parallel Real.sqrt (fun _ d _ => d) (statsTiny : MassPre ℝ)
          (tinySeries.map some) (tinySeries.map some) 2 0 [(0, 3)]).matrix_profile 1
        = ((0 : ℝ) : WithTop ℝ)
      ∧ ∃ r, stomp_rcpp Real.sqrt (fun _ => false) (statsTiny : MassPre ℝ)
          (tinySeries.map some) (tinySeries.map some) 2 0 = Except.ok r
        ∧ rdI r.profile_index 1 = none := by
  have hlen : ((tinySeries : List ℝ).map (some : ℝ → Option ℝ)).length = 4 := rfl
  have hpar := parallel_single_block Real.sqrt (fun _ d _ => d) (statsTiny : MassPre ℝ)
    (tinySeries.map some) (tinySeries.map some) 2 0 3 (by norm_num)
    (fun _ => ⟨by rw [hlen]; norm_num, le_refl _⟩) (by norm_num) (by rw [hlen])
  have hcez : (parallel_ctx (fun _ d _ => d) (statsTiny : MassPre ℝ)
      (tinySeries.map some) (tinySeries.map some) 2 0).ez = 0 := by
    simp only [parallel_ctx, exclusion_zone_zero, Int.toNat_zero]
  have hskip : (parallel_ctx (fun _ d _ => d) (statsTiny : MassPre ℝ)
      (tinySeries.map some) (tinySeries.map some) 2 0).skip_location.getD 1 false
        = false := skip_location_map_some _ 2 1
  have h0 : workerDist (parallel_ctx (fun _ d _ => d) (statsTiny : MassPre ℝ)
      (tinySeries.map some) (tinySeries.map some) 2 0) 0 0 1
      = ((8 : ℝ) : WithTop ℝ) := by
    unfold workerDist
    rw [if_pos rfl]
    simp only [parallel_ctx, sanitize_map_some]
    rw [WithTop.coe_eq_coe]
    simp [distFormula, slidingDot, statsTiny, tinySeries, rd, Finset.sum_range_succ]
    norm_num
  have h1 : workerDist (parallel_ctx (fun _ d _ => d) (statsTiny : MassPre ℝ)
      (tinySeries.map some) (tinySeries.map some) 2 0) 0 1 1
      = ((0 : ℝ) : WithTop ℝ) := by
    unfold workerDist
    rw [if_neg (by norm_num), if_pos ⟨hskip, Or.inl hcez⟩]
    simp only [parallel_ctx, sanitize_map_some]
    rw [WithTop.coe_eq_coe]
    simp [distFormula, slidingDot, statsTiny, tinySeries, rd, Finset.sum_range_succ]
    norm_num
  have h2 : ((0 : ℝ) : WithTop ℝ) ≤ workerDist (parallel_ctx (fun _ d _ => d)
      (statsTiny : MassPre ℝ) (tinySeries.map some) (tinySeries.map some) 2 0) 0 2 1 :=
    workerDist_nonneg _ 0 2 1 (by norm_num)
  have h80 : ((0 : ℝ) : WithTop ℝ) < ((8 : ℝ) : WithTop ℝ) :=
    WithTop.coe_lt_coe.mpr (by norm_num)
  have hm : contMP (workerDist (parallel_ctx (fun _ d _ => d) (statsTiny : MassPre ℝ)
      (tinySeries.map some) (tinySeries.map some) 2 0) 0) 0 (fun _ => ⊤) 3 1
      = ((0 : ℝ) : WithTop ℝ) := by
    simp only [contMP, Nat.zero_add, h0, h1]
    rw [if_pos (WithTop.coe_lt_top _), if_pos h80, if_neg (not_lt.mpr h2)]
  have hp : contPI (workerDist (parallel_ctx (fun _ d _ => d) (statsTiny : MassPre ℝ)
      (tinySeries.map some) (tinySeries.map some) 2 0) 0) 0 (fun _ => ⊤) (fun _ => none)
      3 1 = some 2 := by
    simp only [contPI, contMP, Nat.zero_add, h0, h1]
    rw [if_pos (WithTop.coe_lt_top _), if_pos h80, if_neg (not_lt.mpr h2), if_pos h80]
  refine ⟨statsTiny_exact, statsTiny_sd_small 1, statsTiny_qsd_small 1, ?_, ?_, ?_⟩
  · rw [hpar]
    simp only []
    rw [rdI_tab _ _ (by rw [hlen]; norm_num), hp]
  · rw [hpar]
    simp only []
    rw [rdT_tab _ _ (by rw [hlen]; norm_num), hm]
    simp
  · have hseq := stomp_rcpp_eq Real.sqrt (statsTiny : MassPre ℝ) (tinySeries.map some)
      (tinySeries.map some) 2 0 (by rw [hlen]; norm_num) (by rw [hlen]; norm_num)
      (le_refl _)
      (noNaN_of_sd_ne_zero _ (fun j _ => by simp [stomp_ctx, statsTiny])
        (fun i _ => by simp [stomp_ctx, statsTiny]))
    refine ⟨_, hseq, ?_⟩
    simp only []
    rw [rdI_tab _ _ (by rw [hlen]; norm_num)]
    rcases seq_spec (stomp_ctx (statsTiny : MassPre ℝ) (tinySeries.map some)
      (tinySeries.map some) 2 0) 1
      (((tinySeries : List ℝ).map (some : ℝ → Option ℝ)).length - 2 + 1) with h | h
    · exact h.1
    · obtain ⟨i, -, -, -, hne, -⟩ := h
      exact absurd (seqDist_of_not_eligible (statsTiny : MassPre ℝ) tinySeries tinySeries 2
        0 (i := i) (j := 1) (by simp [tinySeries])
        (fun hel => hel.2.1 (statsTiny_sd_small 1))) hne

/-! ## Degenerate blocks -/

/-- C16: a call of the worker on a block `[begin, end)` with `end - begin ≤ w` returns the
shared `MatrixProfile` and `ProfileIndex` unchanged; hence, when the number of query
windows is at most `w`, every partition of the query indices into contiguous blocks,
merged in any order, yields a parallel result that is `+∞` and unset everywhere. -/
theorem degenerate_block_rejected (c : WorkerCtx K) (begin end_ : Nat) (sh : Shared K)
    (sqrt : K → K) (set_k_rcpp : Nat → Nat → Nat → Nat) (pre : MassPre K)
    (data_ref query_ref : List (Option K)) (w : Nat) (ez : K) (blocks : List (Nat × Nat)) :
    (end_ - begin ≤ c.w_size → stomp_worker c begin end_ sh = sh)
      ∧ (query_ref.length - w + 1 ≤ w → IsPartition (query_ref.length - w + 1) blocks →
          stomp_rcpp_parallel sqrt set_k_rcpp pre data_ref query_ref w ez blocks
            = { matrix_profile := tab (data_ref.length - w + 1) (fun _ => ⊤)
                profile_index := tab (data_ref.length - w + 1) (fun _ => none)
                partial_flag := false }) := by
  refine ⟨stomp_worker_rejected c begin end_ sh, fun hnq hpart => ?_⟩
  apply parallel_all_rejected
  intro b hb
  have := partition_bound _ blocks hpart b hb
  omega

theorem degenerate_block_rejected_witness :
    IsPartition (([0, 1, 0].map (some : ℚ → Option ℚ)).length - 2 + 1) [(0, 1), (1, 2)]
      ∧ stomp_rcpp_parallel (fun x => x) (fun _ d _ => d) (statsHalf : MassPre ℚ)
          ([0, 1, 0].map some) ([0, 1, 0].map some) 2 0 [(0, 1), (1, 2)]
        = { matrix_profile := tab (([0, 1, 0].map (some : ℚ → Option ℚ)).length - 2 + 1)
              (fun _ => ⊤)
            profile_index := tab (([0, 1, 0].map (some : ℚ → Option ℚ)).length - 2 + 1)
              (fun _ => none)
            partial_flag := false } :=
  ⟨⟨[(0, 1), (1, 2)], List.Perm.refl _, ⟨rfl, by decide, rfl, by decide, rfl⟩⟩,
    (degenerate_block_rejected (parallel_ctx (fun _ d _ => d) (statsHalf : MassPre ℚ)
        ([0, 1, 0].map some) ([0, 1, 0].map some) 2 0) 0 1
      { mp := [], pi := [] } (fun x => x) (fun _ d _ => d) (statsHalf : MassPre ℚ)
      ([0, 1, 0].map some) ([0, 1, 0].map some) 2 0 [(0, 1), (1, 2)]).2 (by decide)
      ⟨[(0, 1), (1, 2)], List.Perm.refl _, ⟨rfl, by decide, rfl, by decide, rfl⟩⟩⟩

/-! ## The tie-break of the sequential reduction -/

/-- A loop that runs through a non-empty range has read the mask at its last index. -/
theorem stomp_loop_finished_bound (c : StompCtx K) (interrupt : Nat → Bool) :
    ∀ (len s : Nat) (st st' : StompState K), 0 < len →
      stomp_loop c interrupt (List.range' s len) st = Except.ok (LoopEnd.finished st') →
      s + len ≤ c.skip_location.length := by
  intro len
  induction len with
  | zero => intro s st st' h; exact absurd h (lt_irrefl 0)
  | succ n ih =>
    intro s st st' _ h
    rw [List.range'_succ] at h
    simp only [stomp_loop] at h
    by_cases hint : s % 100 = 0 ∧ interrupt s = true
    · rw [if_pos hint] at h
      simp at h
    · rw [if_neg hint] at h
      cases hit : stomp_iter c s st with
      | error e => rw [hit] at h; simp at h
      | ok st2 =>
        rw [hit] at h
        simp only [] at h
        have hs := stomp_iter_ok_lt c s st st2 hit
        rcases Nat.eq_zero_or_pos n with hn | hn
        · omega
        · have := ih (s + 1) st2 st' hn h
          omega

/-- C17: when `stomp_rcpp` has returned after processing all query indices (no interrupt
caught), every position `j` with a stored index `v` has `v = i + 1` for a query index `i`
whose masked distance-profile value at `j` is finite, is the minimum over all query
indices, and is strictly below the value of every earlier query index (the first query
attaining the minimum wins); the stored `MatrixProfile[j]` is the square root of exactly
that value. -/
theorem stomp_rcpp_first_minimum (sqrt : K → K) (interrupt : Nat → Bool) (pre : MassPre K)
    (data_ref query_ref : List (Option K)) (w : Nat) (ez : K) (r : StompResult K)
    (hr : stomp_rcpp sqrt interrupt pre data_ref query_ref w ez = Except.ok r)
    (hfull : r.partial_flag = false) (j v : Nat) (hv : rdI r.profile_index j = some v) :
    ∃ i, v = i + 1 ∧ i < query_ref.length - w + 1
      ∧ rdT (seq_profile (stomp_ctx pre data_ref query_ref w ez) i) j ≠ ⊤
      ∧ (∀ i', i' < query_ref.length - w + 1 →
          rdT (seq_profile (stomp_ctx pre data_ref query_ref w ez) i) j
            ≤ rdT (seq_profile (stomp_ctx pre data_ref query_ref w ez) i') j)
      ∧ (∀ i', i' < i →
          rdT (seq_profile (stomp_ctx pre data_ref query_ref w ez) i) j
            < rdT (seq_profile (stomp_ctx pre data_ref query_ref w ez) i') j)
      ∧ rdT r.matrix_profile j
          = (rdT (seq_profile (stomp_ctx pre data_ref query_ref w ez) i) j).map sqrt := by
  have hmps : (stomp_ctx pre data_ref query_ref w ez).matrix_profile_size
      = data_ref.length - w + 1 := rfl
  have hnq : (stomp_ctx pre data_ref query_ref w ez).num_queries
      = query_ref.length - w + 1 := rfl
  have hlen := ctx_skip_length pre data_ref query_ref w ez
  unfold stomp_rcpp at hr
  by_cases hsz : data_ref.length - w < 1
  · simp only [hsz, if_true] at hr
    exact absurd hr (by simp)
  · simp only [hsz, if_false, hnq, List.range_eq_range'] at hr
    cases hl : stomp_loop (stomp_ctx pre data_ref query_ref w ez) interrupt
        (List.range' 0 (query_ref.length - w + 1))
        (stomp_init (stomp_ctx pre data_ref query_ref w ez)) with
    | error e => rw [hl] at hr; exact absurd hr (by simp)
    | ok le =>
      rw [hl] at hr
      cases le with
      | interrupted st =>
        simp only [Except.ok.injEq] at hr
        rw [← hr] at hfull
        exact absurd hfull (by simp)
      | finished st =>
        simp only [Except.ok.injEq] at hr
        have hb := stomp_loop_finished_bound _ interrupt _ 0 _ st (Nat.succ_pos _) hl
        rw [hlen, hmps, Nat.zero_add] at hb
        rcases stomp_loop_ok_inv pre data_ref query_ref w ez interrupt
          (query_ref.length - w + 1) 0 (stomp_init _) (LoopEnd.finished st)
          (stomp_init_inv _) (by rw [hnq]; omega) hl with
          ⟨st2, hl2, hinv, -, hno⟩ | ⟨m, st2, hl2, -⟩
        · simp only [LoopEnd.finished.injEq] at hl2
          subst hl2
          have hok : ∀ i, i < query_ref.length - w + 1 →
              ∃ st', stomp_iter (stomp_ctx pre data_ref query_ref w ez) i
                (seq_state (stomp_ctx pre data_ref query_ref w ez) i) = Except.ok st' :=
            fun i hi => stomp_loop_seq_state _ interrupt _ 0 _ hl i (Nat.zero_le i)
              (by omega) (fun m' h1 h2 => hno m' h1 (by omega))
          obtain ⟨-, -, hmp, hpi⟩ := hinv
          rw [Nat.zero_add] at hmp hpi
          rw [← hr] at hv ⊢
          simp only [] at hv ⊢
          rw [hpi] at hv
          obtain ⟨hj, hs⟩ := rdI_tab_some _ _ _ _ hv
          have hprof : ∀ i', i' < query_ref.length - w + 1 →
              rdT (seq_profile (stomp_ctx pre data_ref query_ref w ez) i') j
                = seqDist (stomp_ctx pre data_ref query_ref w ez) i' j := by
            intro i' hi'
            rw [seq_profile_eq_of_inv pre data_ref query_ref w ez i'
              (seq_state_inv_of_ok pre data_ref query_ref w ez i' (by rw [hnq]; omega)
                (fun i hi => hok i (by omega)))
              (by rw [hnq]; exact hi'), rdT_tab _ _ hj]
          rcases seq_spec (stomp_ctx pre data_ref query_ref w ez) j
            (query_ref.length - w + 1) with h | ⟨i, hi, hpi2, hmp2, hne, hmin, hfirst⟩
          · rw [h.1] at hs
            exact absurd hs (by simp)
          · rw [hpi2] at hs
            refine ⟨i, (Option.some.inj hs).symm, hi, ?_, ?_, ?_, ?_⟩
            · rw [hprof i hi]; exact hne
            · intro i' hi'
              rw [hprof i hi, hprof i' hi']
              exact hmin i' hi'
            · intro i' hi'
              rw [hprof i hi, hprof i' (by omega)]
              exact hfirst i' hi'
            · rw [hmp, rdT_map, rdT_tab _ _ hj, hmp2, hprof i hi]
        · exact absurd hl2 (by simp)

theorem stomp_rcpp_first_minimum_witness :
    ∃ i, (1 : Nat) = i + 1 ∧ i < ([0, 1, 0].map (some : ℝ → Option ℝ)).length - 2 + 1
      ∧ rdT (seq_profile (stomp_ctx (statsHalf : MassPre ℝ) ([0, 1, 0].map some)
          ([0, 1, 0].map some) 2 0) i) 0 ≠ ⊤ :=
  let ⟨i, h1, h2, h3, _⟩ := stomp_rcpp_first_minimum Real.sqrt (fun _ => false)
    (statsHalf : MassPre ℝ) ([0, 1, 0].map some) ([0, 1, 0].map some) 2 0 _
    (stomp_rcpp_eq Real.sqrt (statsHalf : MassPre ℝ) ([0, 1, 0].map some)
      ([0, 1, 0].map some) 2 0 (by simp) (by simp) (le_refl _) (statsHalf_noNaN _ _ _ _))
    rfl 0 1
    (by
      simp only []
      rw [rdI_tab _ _ (by simp)]
      exact (seq_010 0 (exclusion_zone_zero 2)).1)
  ⟨i, h1, h2, h3⟩

/-! ## Sentinel consistency of the parallel computation -/

theorem blocks_bound : ∀ blocks : List (Nat × Nat), ∃ N, ∀ b, b ∈ blocks → b.2 ≤ N := by
  intro blocks
  induction blocks with
  | nil => exact ⟨0, fun b hb => absurd hb (List.not_mem_nil b)⟩
  | cons a rest ih =>
    obtain ⟨N, hN⟩ := ih
    refine ⟨max a.2 N, fun b hb => ?_⟩
    rcases List.mem_cons.mp hb with rfl | hb
    · exact le_max_left _ _
    · exact le_trans (hN b hb) (le_max_right _ _)

theorem indexInv_sentinel (lo hi : Nat) (mp : List (WithTop K)) (pi : List (Option Nat))
    (h : IndexInv lo hi mp pi) (j : Nat) : rdI pi j = none ↔ rdT mp j = ⊤ := by
  rcases h j with ⟨h1, h2⟩ | ⟨h1, i, -, -, h2⟩
  · exact ⟨fun _ => h1, fun _ => h2⟩
  · constructor
    · intro hn; rw [h2] at hn; exact absurd hn (by simp)
    · intro ht; exact absurd ht h1

/-- C18: in exact arithmetic, after any number `n` of iterations of the loop of a worker
block (whatever the seed `nn`), after any sequence of merges into the shared vectors, and
in the result of `stomp_rcpp_parallel`, the index at position `j` is unset if and only if
the distance at `j` is `+∞`. -/
theorem sentinel_consistency (c : WorkerCtx K) (nn : MassOut K) (begin n : Nat)
    (blocks : List (Nat × Nat)) (sqrt : K → K) (set_k_rcpp : Nat → Nat → Nat → Nat)
    (pre : MassPre K) (data_ref query_ref : List (Option K)) (w : Nat) (ez : K) (j : Nat) :
    (rdI (worker_loop c nn begin (List.range' begin n) (worker_init c)).profile_index j
        = none
      ↔ rdT (worker_loop c nn begin (List.range' begin n) (worker_init c)).matrix_profile j
        = ⊤)
    ∧ (rdI (blocks.foldl (fun sh b => stomp_worker c b.1 b.2 sh)
          { mp := tab c.size (fun _ => ⊤), pi := tab c.size (fun _ => none) }).pi j = none
      ↔ rdT (blocks.foldl (fun sh b => stomp_worker c b.1 b.2 sh)
          { mp := tab c.size (fun _ => ⊤), pi := tab c.size (fun _ => none) }).mp j = ⊤)
    ∧ (rdI (stomp_rcpp_parallel sqrt set_k_rcpp pre data_ref query_ref w ez
          blocks).profile_index j = none
      ↔ rdT (stomp_rcpp_parallel sqrt set_k_rcpp pre data_ref query_ref w ez
          blocks).matrix_profile j = ⊤) := by
  obtain ⟨N, hN⟩ := blocks_bound blocks
  refine ⟨?_, ?_, ?_⟩
  · exact indexInv_sentinel begin (begin + n) _ _
      (worker_loop_index c nn begin begin n begin (worker_init c) (le_refl _)
        (indexInv_tab_init c.size begin begin)) j
  · exact indexInv_sentinel 0 N _ _
      (foldl_worker_index c N blocks _ hN (indexInv_tab_init c.size 0 N)) j
  · unfold stomp_rcpp_parallel
    simp only []
    rw [rdT_map, WithTop.map_eq_top_iff]
    exact indexInv_sentinel 0 N _ _
      (foldl_worker_index _ N blocks _ hN (indexInv_tab_init _ 0 N)) j

/-! ## Index validity when the query is longer than the reference -/

theorem stomp_loop_append (c : StompCtx K) (interrupt : Nat → Bool) (l2 : List Nat) :
    ∀ (l1 : List Nat) (st st' : StompState K),
      stomp_loop c interrupt l1 st = Except.ok (LoopEnd.finished st') →
      stomp_loop c interrupt (l1 ++ l2) st = stomp_loop c interrupt l2 st' := by
  intro l1
  induction l1 with
  | nil =>
    intro st st' h
    simp only [stomp_loop, Except.ok.injEq, LoopEnd.finished.injEq] at h
    rw [List.nil_append, h]
  | cons i rest ih =>
    intro st st' h
    simp only [stomp_loop, List.cons_append] at h ⊢
    by_cases hint : i % 100 = 0 ∧ interrupt i = true
    · rw [if_pos hint] at h
      simp at h
    · rw [if_neg hint] at h ⊢
      cases hit : stomp_iter c i st with
      | error e => rw [hit] at h; simp at h
      | ok st2 =>
        rw [hit] at h
        exact ih st2 st' h

/-- No entry of a distance profile is `NaN` when no standard deviation is zero. -/
theorem no_nan_of_sd (c : StompCtx K) (i : Nat) (lp : List K)
    (hd : ∀ j, c.pre.data_sd j ≠ 0) (hq : c.pre.query_sd i ≠ 0) :
    ¬ ∃ j, j < c.matrix_profile_size ∧ nan_at c i lp j := by
  rintro ⟨j, -, h, -⟩
  rcases mul_eq_zero.mp h with h0 | h0
  · exact hd j h0
  · exact hq h0

/-- The iteration whose index is the length of the mask, when its distance profile holds
no `NaN`, raises at the read `skip_location[i]`, whatever the exclusion radius. -/
theorem stomp_iter_at_mask_length (c : StompCtx K) (st : StompState K)
    (hlen : c.skip_location.length = c.matrix_profile_size)
    (hpos : 1 ≤ c.matrix_profile_size)
    (hnan : ¬ ∃ j, j < c.matrix_profile_size ∧
      nan_at c c.matrix_profile_size (raw_profile c c.matrix_profile_size st).1 j) :
    stomp_iter c c.matrix_profile_size st
      = Except.error StompError.index_out_of_bounds := by
  have hrange : ¬ (0 < c.exclusion_zone ∧
      min (c.matrix_profile_size - 1) (c.matrix_profile_size + c.exclusion_zone.toNat)
        < c.matrix_profile_size - c.exclusion_zone.toNat) := by
    rintro ⟨hz, h⟩
    have : 1 ≤ c.exclusion_zone.toNat := by omega
    rcases min_lt_iff.mp h with h | h <;> omega
  unfold stomp_iter
  simp only [hnan, hrange, if_false, List.getElem?_eq_none (le_of_eq hlen)]

/-- A query with more windows than the reference makes the uninterrupted run raise at the
read `skip_location[i]` of iteration `i = len(reference) - w + 1` (no standard deviation
being zero, so that no earlier iteration raises on a `NaN`). -/
theorem stomp_rcpp_query_longer (sqrt : K → K) (pre : MassPre K)
    (data_ref query_ref : List (Option K)) (w : Nat) (ez : K)
    (hw : w < data_ref.length) (hlong : data_ref.length < query_ref.length)
    (hd : ∀ j, pre.data_sd j ≠ 0) (hq : ∀ i, pre.query_sd i ≠ 0) :
    stomp_rcpp sqrt (fun _ => false) pre data_ref query_ref w ez
      = Except.error StompError.index_out_of_bounds := by
  have hmps : (stomp_ctx pre data_ref query_ref w ez).matrix_profile_size
      = data_ref.length - w + 1 := rfl
  have hnq : (stomp_ctx pre data_ref query_ref w ez).num_queries
      = query_ref.length - w + 1 := rfl
  have hlen := ctx_skip_length pre data_ref query_ref w ez
  rcases stomp_loop_inv pre data_ref query_ref w ez (fun _ => false)
    (noNaN_of_sd_ne_zero _ (fun j _ => hd j) (fun i _ => hq i))
    (data_ref.length - w + 1) 0 (stomp_init _) (stomp_init_inv _)
    (by rw [hmps]; omega) (by rw [hnq]; omega) with
    ⟨st', hl, -, -⟩ | ⟨m, st', -, -, -, hm4, -⟩
  · have hsplit : List.range' 0 (query_ref.length - w + 1)
        = List.range' 0 (data_ref.length - w + 1)
          ++ (data_ref.length - w + 1)
            :: List.range' (data_ref.length - w + 1 + 1)
                (query_ref.length - data_ref.length - 1) := by
      have h2 := List.range'_append_1 0 (data_ref.length - w + 1)
        (query_ref.length - data_ref.length - 1 + 1)
      rw [Nat.zero_add] at h2
      rw [← List.range'_succ, h2]
      congr 1
      omega
    have hit := stomp_iter_at_mask_length (stomp_ctx pre data_ref query_ref w ez) st' hlen
      (by rw [hmps]; omega) (no_nan_of_sd _ _ _ hd (hq _))
    rw [hmps] at hit
    unfold stomp_rcpp
    have hnot : ¬ (data_ref.length - w < 1) := by omega
    simp only [hnot, if_false, hnq, List.range_eq_range', hsplit]
    rw [stomp_loop_append _ _ _ _ _ st' hl]
    simp only [stomp_loop, Bool.false_eq_true, and_false, if_false, hit]
  · exact absurd hm4 (by simp)

/-- C19, evaluated on the reference `[0, 1, 0]` (2 windows) and the query
`[0, 1, 0, 1, 0]` (4 windows) with `w = 2` and `ez = 1/2` (radius 1): the mask
`skip_location` has 2 entries while the query indices run to 3, so the run raises at the
read `skip_location[2]`; and at query index 3 the exclusion range has
`exc_st = 2 > exc_ed = 1`, so that iteration raises whatever state it starts from. -/
theorem stomp_rcpp_query_longer_out_of_bounds :
    (stomp_ctx (statsHalf : MassPre ℝ) ([0, 1, 0].map some) ([0, 1, 0, 1, 0].map some) 2
        (1 / 2)).skip_location.length = 2
      ∧ (stomp_ctx (statsHalf : MassPre ℝ) ([0, 1, 0].map some)
          ([0, 1, 0, 1, 0].map some) 2 (1 / 2)).num_queries = 4
      ∧ stomp_rcpp Real.sqrt (fun _ => false) (statsHalf : MassPre ℝ) ([0, 1, 0].map some)
          ([0, 1, 0, 1, 0].map some) 2 (1 / 2)
        = Except.error StompError.index_out_of_bounds
      ∧ ∀ st, stomp_iter (stomp_ctx (statsHalf : MassPre ℝ) ([0, 1, 0].map some)
          ([0, 1, 0, 1, 0].map some) 2 (1 / 2)) 3 st
        = Except.error StompError.range_error := by
  have hmps : (stomp_ctx (statsHalf : MassPre ℝ) ([0, 1, 0].map some)
      ([0, 1, 0, 1, 0].map some) 2 (1 / 2)).matrix_profile_size = 2 := rfl
  have hz : (stomp_ctx (statsHalf : MassPre ℝ) ([0, 1, 0].map some)
      ([0, 1, 0, 1, 0].map some) 2 (1 / 2)).exclusion_zone = 1 := exclusion_zone_two_half
  refine ⟨?_, rfl, ?_, ?_⟩
  · rw [ctx_skip_length, hmps]
  · exact stomp_rcpp_query_longer Real.sqrt (statsHalf : MassPre ℝ) ([0, 1, 0].map some)
      ([0, 1, 0, 1, 0].map some) 2 (1 / 2) (by simp) (by simp)
      (fun j => by simp [statsHalf]) (fun i => by simp [statsHalf])
  · intro st
    have hc : 0 < (stomp_ctx (statsHalf : MassPre ℝ) ([0, 1, 0].map some)
          ([0, 1, 0, 1, 0].map some) 2 (1 / 2)).exclusion_zone ∧
        min ((stomp_ctx (statsHalf : MassPre ℝ) ([0, 1, 0].map some)
            ([0, 1, 0, 1, 0].map some) 2 (1 / 2)).matrix_profile_size - 1)
          (3 + (stomp_ctx (statsHalf : MassPre ℝ) ([0, 1, 0].map some)
            ([0, 1, 0, 1, 0].map some) 2 (1 / 2)).exclusion_zone.toNat)
          < 3 - (stomp_ctx (statsHalf : MassPre ℝ) ([0, 1, 0].map some)
            ([0, 1, 0, 1, 0].map some) 2 (1 / 2)).exclusion_zone.toNat := by
      rw [hz, hmps]
      decide
    have hnan := no_nan_of_sd (stomp_ctx (statsHalf : MassPre ℝ) ([0, 1, 0].map some)
      ([0, 1, 0, 1, 0].map some) 2 (1 / 2)) 3
      (raw_profile (stomp_ctx (statsHalf : MassPre ℝ) ([0, 1, 0].map some)
        ([0, 1, 0, 1, 0].map some) 2 (1 / 2)) 3 st).1
      (fun j => by simp [stomp_ctx, statsHalf]) (by simp [stomp_ctx, statsHalf])
    unfold stomp_iter
    simp only []
    rw [if_neg hnan, if_pos hc]

/-- Witness of `stomp_rcpp_matrix_profile_is_min`: the self-join of `[0, 1, 0, 1]` with
`w = 2`, `ez = 0` over the reals, three query windows; the bound is read at position 0
against query window 2, whose distance comes from the recurrence. -/
theorem stomp_rcpp_matrix_profile_is_min_witness :
    StatsExact (statsHalf : MassPre ℝ) [0, 1, 0, 1] [0, 1, 0, 1] 2 ∧
    ∃ r, stomp_rcpp Real.sqrt (fun _ => false) (statsHalf : MassPre ℝ)
        ([0, 1, 0, 1].map some) ([0, 1, 0, 1].map some) 2 0 = Except.ok r
      ∧ r.matrix_profile.length = 3 ∧ (0 : WithTop ℝ) ≤ rdT r.matrix_profile 1
      ∧ rdT r.matrix_profile 0 ≤
          ((Real.sqrt (znormSqDist [0, 1, 0, 1] [0, 1, 0, 1] 2 0 2
            ((statsHalf : MassPre ℝ).data_sd 0) ((statsHalf : MassPre ℝ).query_sd 2)) : ℝ)
            : WithTop ℝ) := by
  have hT := stomp_rcpp_matrix_profile_is_min Real.sqrt
    (fun x _ => Real.sqrt_nonneg x) (fun x y _ h => Real.sqrt_le_sqrt h)
    (statsHalf : MassPre ℝ) [0, 1, 0, 1] [0, 1, 0, 1] 2 0 (le_refl 2) (by simp)
    statsHalf_exact4
  obtain ⟨r, hr⟩ := hT.2 (by simp) (le_refl _) (fun j _ => by simp [statsHalf])
    (fun i _ => by simp [statsHalf])
  obtain ⟨h1, h2⟩ := hT.1 r hr
  exact ⟨statsHalf_exact4, r, hr, by simpa using h1, (h2 1 (by simp)).1,
    (h2 0 (by simp)).2.1 2 (by simp)
      ⟨fun h => absurd h.1 (by rw [exclusion_zone_zero]; exact lt_irrefl 0),
        statsHalf_sd_ok 0, statsHalf_qsd_ok 2⟩⟩

/-! ## C5: a constant reference window -/

theorem constStats_exact :
    StatsExact (constStats (Real.sqrt 3) : MassPre ℝ) constSeries constSeries 4 := by
  have h3 : Real.sqrt 3 ^ 2 = 3 := Real.sq_sqrt (by norm_num)
  constructor <;>
  · intro j hj
    have hj2 : j < 2 := by simp [constSeries] at hj; omega
    interval_cases j
    · simp [constStats, constSeries, IsWindowSd, windowVar, windowMean, rd,
        Finset.sum_range_succ]
      norm_num
    · refine ⟨?_, Real.sqrt_nonneg 3, ?_⟩
      · simp [constStats, constSeries, windowMean, rd, Finset.sum_range_succ]
        norm_num
      · simp only [constStats]
        rw [if_neg (by norm_num), h3]
        simp [constSeries, windowVar, windowMean, rd, Finset.sum_range_succ]
        norm_num

/-- C5, evaluated on the self-join of `[5, 5, 5, 5, 1]` with `w = 4`, `ez = 1/2` and the
exact rolling statistics: window 0 is constant, its standard deviation is 0, below
`DBL_EPSILON`; the uninterrupted call does not return `MatrixProfile[0] = +∞` but raises,
the distance at position 0 being `0/0 = NaN` when line 107 subsets by
`distance_profile < 0`; and iteration 1, whose profile is computed at lines 94-105, raises
from whatever state it starts. -/
theorem stomp_rcpp_constant_window_raises :
    StatsExact (constStats (Real.sqrt 3) : MassPre ℝ) constSeries constSeries 4
      ∧ (constStats (Real.sqrt 3) : MassPre ℝ).data_sd 0 < DBL_EPSILON
      ∧ stomp_rcpp Real.sqrt (fun _ => false) (constStats (Real.sqrt 3) : MassPre ℝ)
          (constSeries.map some) (constSeries.map some) 4 (1 / 2)
        = Except.error StompError.na_subscript
      ∧ ∀ st, stomp_iter (stomp_ctx (constStats (Real.sqrt 3) : MassPre ℝ)
          (constSeries.map some) (constSeries.map some) 4 (1 / 2)) 1 st
        = Except.error StompError.na_subscript := by
  have hlen : (constSeries : List ℝ).length = 5 := rfl
  refine ⟨constStats_exact, ?_, ?_, ?_⟩
  · simp only [constStats, if_true]
    exact DBL_EPSILON_pos
  · exact constant_window_raises Real.sqrt _ constSeries constSeries 4 (1 / 2) 0 5
      (by norm_num) (by rw [hlen]; norm_num) (by rw [hlen]; norm_num)
      (by rw [hlen]; norm_num) (by
        intro t ht
        interval_cases t <;> simp [constSeries, rd]) constStats_exact
  · intro st
    apply stomp_iter_nan _ 1 st 0 (by simp [stomp_ctx, constSeries])
    have hfp := ctx_first_product (constStats (Real.sqrt 3) : MassPre ℝ)
      ((constSeries : List ℝ).map some) (constSeries.map some) 4 (1 / 2) (i := 1)
      (by simp [stomp_ctx, constSeries])
    have hd : (stomp_ctx (constStats (Real.sqrt 3) : MassPre ℝ)
        ((constSeries : List ℝ).map some) (constSeries.map some) 4 (1 / 2)).data
        = constSeries := sanitize_map_some _
    have hq : (stomp_ctx (constStats (Real.sqrt 3) : MassPre ℝ)
        ((constSeries : List ℝ).map some) (constSeries.map some) 4 (1 / 2)).query
        = constSeries := sanitize_map_some _
    rw [hd, hq] at hfp
    have hlp : rd (raw_profile (stomp_ctx (constStats (Real.sqrt 3) : MassPre ℝ)
        ((constSeries : List ℝ).map some) (constSeries.map some) 4 (1 / 2)) 1 st).1 0
        = 80 := by
      simp only [raw_profile, if_neg (show (1 : Nat) ≠ 0 by norm_num), update_last_product]
      rw [rd_tab _ _ (by simp [stomp_ctx, constSeries]), if_pos rfl, hfp]
      simp [slidingDot, constSeries, rd, Finset.sum_range_succ]
      norm_num
    refine ⟨?_, ?_⟩
    · simp [stomp_ctx, constStats]
    · rw [hlp]
      simp [stomp_ctx, constStats]
      norm_num

end Stomp
